import Mathlib

/-!
# stirr-for-channels: `structs.go`

A shallow embedding of `structs.go` (package `main`) and of the parts of the Go
standard library it calls (`regexp`, `strconv`, `strings`, `time`, `fmt`), followed by
theorems about `Program.XMLTV`, `ChannelStatus.M3ULine`, `ChannelStatus.XMLTV`,
`StirrTime.UnmarshalJSON` and `StirrTime.MarshalJSON`.

Conventions of the embedding:

* a Go `string` is a list of Unicode code points (`Str`); the inputs are decoded JSON,
  hence valid UTF-8;
* a Go `int` is a mathematical integer; the only place where the machine width is
  visible, `strconv.Atoi`, clamps explicitly at `intSize = 64` bits;
* a nil slice and an empty slice are both the empty list;
* a nil pointer is `none`; dereferencing it makes the enclosing function return `none`.
-/

namespace Stirr

/-- Go `string`, as the list of its code points. -/
abbrev Str := List Char

/-! ## `regexp`: leftmost-first backtracking semantics -/

/-- Abstract syntax of the regular expressions used by `structs.go`. -/
inductive Regex where
  /-- one character satisfying a predicate: a literal, a class, or `.` -/
  | cls (p : Char → Bool)
  /-- `^` (no `m` flag: beginning of text) -/
  | bol
  /-- `$` (no `m` flag: end of text) -/
  | eol
  /-- the empty expression -/
  | empty
  /-- concatenation -/
  | cat (a b : Regex)
  /-- alternation `a|b`, preferring `a` -/
  | alt (a b : Regex)
  /-- repetition `a*` (greedy) or `a*?` (lazy) -/
  | star (a : Regex) (greedy : Bool)
  /-- capturing group number `i` -/
  | cap (i : Nat) (a : Regex)

/-- State of a match attempt: offset into the text, remaining text, captured groups. -/
structure MState where
  pos : Nat
  rest : Str
  caps : List (Option Str)
deriving DecidableEq

/-- Repetition of `body` at most `fuel` times, every iteration consuming input.
A greedy repetition tries one more iteration before trying the continuation, a lazy
one tries the continuation first. -/
def starK (body : MState → (MState → Option MState) → Option MState) (greedy : Bool) :
    Nat → MState → (MState → Option MState) → Option MState
  | 0, st, k => k st
  | n + 1, st, k =>
    if greedy then
      match body st (fun st2 => if st.pos < st2.pos then starK body greedy n st2 k else none) with
      | some r => some r
      | none => k st
    else
      match k st with
      | some r => some r
      | none => body st (fun st2 => if st.pos < st2.pos then starK body greedy n st2 k else none)

/-- Backtracking matcher in continuation-passing style: `re.run st k` is the first
success, in the priority order of a backtracking search, of matching `re` at `st` and
then running the continuation `k`. The repetition gets the length of the remaining
text as fuel, which is never exhausted since every iteration consumes a character. -/
def Regex.run : Regex → MState → (MState → Option MState) → Option MState
  | .cls p, st, k =>
    match st.rest with
    | c :: cs => if p c then k { st with pos := st.pos + 1, rest := cs } else none
    | [] => none
  | .bol, st, k => if st.pos = 0 then k st else none
  | .eol, st, k =>
    match st.rest with
    | [] => k st
    | _ :: _ => none
  | .empty, st, k => k st
  | .cat a b, st, k => a.run st (fun st2 => b.run st2 k)
  | .alt a b, st, k =>
    match a.run st k with
    | some r => some r
    | none => b.run st k
  | .star a g, st, k => starK a.run g st.rest.length st k
  | .cap i a, st, k =>
    a.run st (fun st2 =>
      k { st2 with caps := st2.caps.set i (some (st.rest.take (st2.pos - st.pos))) })

/-- Number of capturing groups (`Regexp.NumSubexp`). -/
def Regex.numSubexp : Regex → Nat
  | .cat a b => a.numSubexp + b.numSubexp
  | .alt a b => a.numSubexp + b.numSubexp
  | .star a _ => a.numSubexp
  | .cap _ a => a.numSubexp + 1
  | _ => 0

/-- Unanchored search: the match attempt is made at every offset, leftmost first. -/
def searchFrom (re : Regex) (n : Nat) : Nat → Str → Option (Nat × MState)
  | pos, [] =>
    match re.run ⟨pos, [], List.replicate (n + 1) none⟩ some with
    | some st => some (pos, st)
    | none => none
  | pos, c :: cs =>
    match re.run ⟨pos, c :: cs, List.replicate (n + 1) none⟩ some with
    | some st => some (pos, st)
    | none => searchFrom re n (pos + 1) cs

/-- `(*Regexp).FindStringSubmatch`: nil (the empty list) when there is no match,
otherwise the text of the leftmost match followed by the text of every group, a group
that did not take part in the match giving the empty string. -/
def FindStringSubmatch (re : Regex) (s : Str) : List Str :=
  match searchFrom re re.numSubexp 0 s with
  | none => []
  | some (start, st) =>
    (st.caps.set 0 (some ((s.drop start).take (st.pos - start)))).map (fun o => o.getD [])

/-- A literal character. -/
def lit (c : Char) : Regex := .cls (fun x => x == c)

/-- A literal string. -/
def lits : Str → Regex
  | [] => .empty
  | c :: cs => .cat (lit c) (lits cs)

/-- The repetition `a+` (greedy) or `a+?` (lazy). -/
def plus (a : Regex) (greedy : Bool) : Regex := .cat a (.star a greedy)

/-- The option `a?` (greedy) or `a??` (lazy). -/
def opt (a : Regex) (greedy : Bool) : Regex := if greedy then .alt a .empty else .alt .empty a

/-- Concatenation of a sequence of expressions. -/
def seqs : List Regex → Regex
  | [] => .empty
  | [r] => r
  | r :: rs => .cat r (seqs rs)

/-- The class `.` without the `s` flag: any character but a newline. -/
def isDot (c : Char) : Bool := c != '\n'

/-- The Perl class `\s` of RE2: `[\t\n\f\r ]`. -/
def isReSpace (c : Char) : Bool :=
  c == '\t' || c == '\n' || c == '\x0c' || c == '\r' || c == ' '

/-- The Perl class `\d`: `[0-9]`. -/
def isReDigit (c : Char) : Bool := decide ('0' ≤ c) && decide (c ≤ '9')

/-- The class `[ :,]`. -/
def isSeasonSep (c : Char) : Bool := c == ' ' || c == ':' || c == ','

/-- The class `[: -]`. -/
def isEpisodeSep (c : Char) : Bool := c == ':' || c == ' ' || c == '-'

/-- structs.go:20, `^(.+)\s*\(S(\d+),E(\d+)\)$`. -/
def seasonEpisodeTitleMatcher : Regex :=
  seqs [.bol, .cap 1 (plus (.cls isDot) true), .star (.cls isReSpace) true,
    lit '(', lit 'S', .cap 2 (plus (.cls isReDigit) true), lit ',', lit 'E',
    .cap 3 (plus (.cls isReDigit) true), lit ')', .eol]

/-- structs.go:21, `^\s*(?:S(\d+)[ :,]?)?E(\d+)[: -]\s*(.+)$`. -/
def seasonEpisodeDescMatcher : Regex :=
  seqs [.bol, .star (.cls isReSpace) true,
    opt (seqs [lit 'S', .cap 1 (plus (.cls isReDigit) true), opt (.cls isSeasonSep) true]) true,
    lit 'E', .cap 2 (plus (.cls isReDigit) true), .cls isEpisodeSep,
    .star (.cls isReSpace) true, .cap 3 (plus (.cls isDot) true), .eol]

/-- structs.go:22, `\[(?:Not Rated|Rated (.+?))\]`. -/
def ratingDescMatcher : Regex :=
  seqs [lit '[',
    .alt (lits "Not Rated".toList)
      (.cat (lits "Rated ".toList) (.cap 1 (plus (.cls isDot) false))),
    lit ']']

/-! ## `strings`, `strconv`, `fmt` -/

/-- `unicode.IsSpace`. -/
def isSpace (c : Char) : Bool :=
  c == '\t' || c == '\n' || c == '\x0b' || c == '\x0c' || c == '\r' || c == ' ' ||
  c.toNat == 0x85 || c.toNat == 0xA0 || c.toNat == 0x1680 ||
  (decide (0x2000 ≤ c.toNat) && decide (c.toNat ≤ 0x200A)) ||
  c.toNat == 0x2028 || c.toNat == 0x2029 || c.toNat == 0x202F || c.toNat == 0x205F ||
  c.toNat == 0x3000

/-- `strings.TrimSpace`: the text without its leading and trailing white space. -/
def TrimSpace (s : Str) : Str := (s.dropWhile isSpace).rdropWhile isSpace

/-- `strings.Trim(s, cutset)`: the text without its leading and trailing characters
of `cutset`. -/
def Trim (s : Str) (cutset : Str) : Str :=
  (s.dropWhile (fun c => cutset.contains c)).rdropWhile (fun c => cutset.contains c)

/-- `strings.ReplaceAll(s, "\n", "")` and the like: removal of one character. -/
def removeChar (s : Str) (c : Char) : Str := s.filter (fun x => x != c)

/-- Errors of `strconv` (`ErrSyntax`, `ErrRange`). -/
inductive NumError where
  | ErrSyntax
  | ErrRange
deriving DecidableEq, Repr

/-- Size in bits of `int` (`strconv.IntSize`). -/
def intSize : Nat := 64

/-- Value of the decimal digit `c`. -/
def digitVal (c : Char) : Nat := c.toNat - 48

/-- Value of a string of decimal digits. -/
def digitsVal (s : Str) : Nat := s.foldl (fun n c => n * 10 + digitVal c) 0

/-- Digit loop of `strconv.ParseUint(s, 10, 64)`: left to right, stopping at the first
character that is not a digit (`ErrSyntax`) or at the first overflow of 64 bits
(`ErrRange`, with the maximal value). -/
def parseUintLoop : Str → Nat → Nat × Option NumError
  | [], n => (n, none)
  | c :: cs, n =>
    if isReDigit c then
      if n * 10 + digitVal c < 2 ^ 64 then parseUintLoop cs (n * 10 + digitVal c)
      else (2 ^ 64 - 1, some .ErrRange)
    else (0, some .ErrSyntax)

/-- `strconv.ParseUint(s, 10, 64)`. -/
def ParseUint (s : Str) : Nat × Option NumError :=
  match s with
  | [] => (0, some .ErrSyntax)
  | _ :: _ => parseUintLoop s 0

/-- `strconv.Atoi`, which is `ParseInt(s, 10, 0)` (its fast path for short strings
gives the same results): an optional sign, decimal digits, and on overflow the nearest
representable value together with `ErrRange`. -/
def Atoi (s : Str) : Int × Option NumError :=
  match s with
  | [] => (0, some .ErrSyntax)
  | c :: cs =>
    let neg := c == '-'
    let body := if c == '-' || c == '+' then cs else s
    match ParseUint body with
    | (_, some .ErrSyntax) => (0, some .ErrSyntax)
    | (un, err) =>
      if !neg && 2 ^ (intSize - 1) ≤ un then ((2 : Int) ^ (intSize - 1) - 1, some .ErrRange)
      else if neg && 2 ^ (intSize - 1) < un then (-(2 : Int) ^ (intSize - 1), some .ErrRange)
      else (if neg then -(un : Int) else (un : Int), err)

/-- Decimal rendering of a natural number. -/
def natToStr (n : Nat) : Str := Nat.toDigits 10 n

/-- The verb `%d` of `fmt.Sprintf` on an `int`, and `strconv.Itoa`. -/
def Itoa (n : Int) : Str :=
  if n < 0 then '-' :: natToStr n.natAbs else natToStr n.toNat

/-! ## `time`: the layout `20060102150405` -/

/-- A `time.Time` in UTC: seconds since January 1, 1970 and nanoseconds within the
second. Go keeps the same count in wrapping 64-bit words; the sums below are the exact
ones whenever the result fits, which it does for every year that `time.Parse` reads
with a four-digit year. -/
structure Time where
  unix : Int
  nsec : Nat
deriving DecidableEq, Repr

def secondsPerDay : Nat := 86400
def daysPer400Years : Nat := 365 * 400 + 97
def daysPer100Years : Nat := 365 * 100 + 24
def daysPer4Years : Nat := 365 * 4 + 1

/-- The year of the absolute epoch of package `time`. -/
def absoluteZeroYear : Int := -292277022399

/-- Seconds from the absolute epoch to the Unix epoch,
`-(absoluteToInternal + internalToUnix)`. -/
def unixToAbsolute : Int := 292277022400 * 31556952 + (1969 * 365 + 1969 / 4 - 1969 / 100 + 1969 / 400) * 86400

/-- `time.isLeap`. -/
def isLeap (year : Int) : Bool := year % 4 == 0 && (year % 100 != 0 || year % 400 == 0)

/-- `time.daysBefore`: days before the start of each month of a non-leap year. -/
def daysBefore : List Nat := [0, 31, 59, 90, 120, 151, 181, 212, 243, 273, 304, 334, 365]

/-- `time.daysIn`. -/
def daysIn (m : Nat) (year : Int) : Nat :=
  if m == 2 && isLeap year then 29 else daysBefore.getD m 0 - daysBefore.getD (m - 1) 0

/-- `time.daysSinceEpoch`: days from the absolute epoch to the start of `year`. -/
def daysSinceEpoch (year : Int) : Nat :=
  let y := (year - absoluteZeroYear).toNat
  let n400 := y / 400
  let y1 := y - 400 * n400
  let n100 := y1 / 100
  let y2 := y1 - 100 * n100
  let n4 := y2 / 4
  let y3 := y2 - 4 * n4
  daysPer400Years * n400 + daysPer100Years * n100 + daysPer4Years * n4 + 365 * y3

/-- `time.Date` in UTC, for a month in 1..12 (the normalization of an out-of-range
month is left out; `time.Parse` never passes one); seconds, minutes and hours out of
range overflow into the day count as they do in Go. -/
def Date (year : Int) (month day hour min sec nsec : Nat) : Time :=
  let d := daysSinceEpoch year + daysBefore.getD (month - 1) 0
    + (if isLeap year && decide (3 ≤ month) then 1 else 0) + (day - 1)
  let abs := d * secondsPerDay + (hour * 3600 + min * 60 + sec)
  { unix := (abs : Int) - unixToAbsolute, nsec := nsec }

/-- `Time.abs`: seconds since the absolute epoch. -/
def Time.abs (t : Time) : Nat := (t.unix + unixToAbsolute).toNat

/-- `time.absDate` with `full = false`: the year and the day within the year (from 0)
of an absolute second count. -/
def absYearDay (abs : Nat) : Int × Nat :=
  let d := abs / secondsPerDay
  let n400 := d / daysPer400Years
  let d1 := d - daysPer400Years * n400
  let n100 := d1 / daysPer100Years
  let n100 := n100 - n100 / 4
  let d2 := d1 - daysPer100Years * n100
  let n4 := d2 / daysPer4Years
  let d3 := d2 - daysPer4Years * n4
  let n1 := d3 / 365
  let n1 := n1 - n1 / 4
  let yday := d3 - 365 * n1
  (((400 * n400 + 100 * n100 + 4 * n4 + n1 : Nat) : Int) + absoluteZeroYear, yday)

/-- The end of `time.absDate` with `full = true`: month and day of month of the day
`yday` of a year that is a leap year or not. -/
def monthDay (leap : Bool) (yday : Nat) : Nat × Nat :=
  if leap && yday == 31 + 29 - 1 then (2, 29)
  else
    let day := if leap && decide (yday > 31 + 29 - 1) then yday - 1 else yday
    let month := day / 31
    let endDay := daysBefore.getD (month + 1) 0
    if day ≥ endDay then (month + 2, day - endDay + 1)
    else (month + 1, day - daysBefore.getD month 0 + 1)

/-- `time.absDate` with `full = true`: year, month and day of month of an absolute
second count. -/
def absDate (abs : Nat) : Int × Nat × Nat :=
  ((absYearDay abs).1, monthDay (isLeap (absYearDay abs).1) (absYearDay abs).2)

/-- `time.absClock`: hour, minute and second of an absolute second count. -/
def absClock (abs : Nat) : Nat × Nat × Nat :=
  let sec := abs % secondsPerDay
  let hour := sec / 3600
  let sec := sec - hour * 3600
  let min := sec / 60
  (hour, min, sec - min * 60)

/-- The digit loop of `time.appendInt`, which fills a buffer of 20 bytes from the
right: `fuel` is the room left in the buffer, never used up by a 64-bit number. -/
def appendIntLoop : Nat → Nat → Str → Str
  | 0, _, buf => buf
  | fuel + 1, u, buf =>
    if 10 ≤ u then appendIntLoop fuel (u / 10) (Char.ofNat (48 + (u - u / 10 * 10)) :: buf)
    else Char.ofNat (48 + u) :: buf

/-- `time.appendInt` for a non-negative `x`: decimal digits, zero-padded to `width`. -/
def appendInt (x : Nat) (width : Nat) : Str :=
  List.replicate (width - (appendIntLoop 20 x []).length) '0' ++ appendIntLoop 20 x []

/-- `Time.Format(stLayout)`: the chunks `2006`, `01`, `02`, `15`, `04`, `05`. -/
def Time.Format (t : Time) : Str :=
  let date := absDate t.abs
  let clock := absClock t.abs
  (if date.1 < 0 then '-' :: appendInt date.1.natAbs 4 else appendInt date.1.toNat 4)
    ++ appendInt date.2.1 2 ++ appendInt date.2.2 2 ++ appendInt clock.1 2
    ++ appendInt clock.2.1 2 ++ appendInt clock.2.2 2

/-- `time.isDigit(s, i)`. -/
def isDigitAt (s : Str) (i : Nat) : Bool :=
  match s.get? i with
  | some c => isReDigit c
  | none => false

/-- `time.getnum`: a number of two digits, or of one digit when `fixed` is false and no
second digit follows; `none` is `errBad`. -/
def getnum (s : Str) (fixed : Bool) : Option (Nat × Str) :=
  match s with
  | [] => none
  | c :: cs =>
    if !isReDigit c then none
    else if !isDigitAt cs 0 then (if fixed then none else some (digitVal c, cs))
    else some (digitVal c * 10 + digitVal (cs.headD '0'), cs.drop 1)

/-- `time.parseNanoseconds(value, nbytes)` for a `value` that starts with a comma or a
period followed by `nbytes - 1` digits. -/
def parseNanoseconds (value : Str) (nbytes : Nat) : Nat :=
  let nbytes := if nbytes > 10 then 10 else nbytes
  let ns := digitsVal ((value.take nbytes).drop 1)
  ns * 10 ^ (10 - nbytes)

/-- Errors of `time.Parse`. -/
inductive ParseError where
  /-- the text does not have the form of the layout -/
  | bad
  /-- a field is out of range -/
  | outOfRange (what : String)
  /-- text is left after the layout is used up -/
  | extraText
deriving DecidableEq, Repr

/-- `time.Parse(stLayout, value)` where `stLayout = "20060102150405"`: the chunks of
the layout are `2006` (four digits), `01`, `02` (two digits), `15` (one or two digits),
`04`, `05` (two digits, and then an optional fraction of a second introduced by a
comma or a period); every field is checked as soon as it is read, the day of the month
at the end. The result is in UTC. -/
def Parse (value : Str) : Except ParseError Time :=
  -- stdLongYear
  if value.length < 4 || !isDigitAt value 0 then .error .bad
  else if !(value.take 4).all isReDigit then .error .bad
  else
    let year : Int := (digitsVal (value.take 4) : Nat)
    let value := value.drop 4
    -- stdZeroMonth
    match getnum value true with
    | none => .error .bad
    | some (month, value) =>
      if month = 0 || 12 < month then .error (.outOfRange "month")
      else
        -- stdZeroDay
        match getnum value true with
        | none => .error .bad
        | some (day, value) =>
          -- stdHour
          match getnum value false with
          | none => .error .bad
          | some (hour, value) =>
            if 24 ≤ hour then .error (.outOfRange "hour")
            else
              -- stdZeroMinute
              match getnum value true with
              | none => .error .bad
              | some (min, value) =>
                if 60 ≤ min then .error (.outOfRange "minute")
                else
                  -- stdZeroSecond
                  match getnum value true with
                  | none => .error .bad
                  | some (sec, value) =>
                    if 60 ≤ sec then .error (.outOfRange "second")
                    else
                      let frac := decide (value.length ≥ 2)
                        && (value.headD ' ' == '.' || value.headD ' ' == ',')
                        && isDigitAt value 1
                      let n := 1 + ((value.drop 1).takeWhile isReDigit).length
                      let nsec := if frac then parseNanoseconds value n else 0
                      let value := if frac then value.drop n else value
                      if value ≠ [] then .error .extraText
                      else if day < 1 || daysIn month year < day then
                        .error (.outOfRange "day")
                      else .ok (Date year month day hour min sec nsec)

/-- structs.go:46, `StirrTime`: a `time.Time` with its own JSON coding. -/
structure StirrTime where
  Time : Time
deriving DecidableEq, Repr

/-- structs.go:52, `(*StirrTime).UnmarshalJSON`: the parsed time on success (the
receiver is then set to it), the error of `time.Parse` otherwise (the receiver is
left as it was). -/
def StirrTime.UnmarshalJSON (b : Str) : Except ParseError StirrTime :=
  let s := Trim b ['"']
  match Parse s with
  | .error err => .error err
  | .ok parsed => .ok { Time := parsed }

/-- structs.go:64, `(*StirrTime).MarshalJSON`: it has no failure. -/
def StirrTime.MarshalJSON (t : StirrTime) : Str := t.Time.Format

/-! ## Package `xmltv` -/

namespace xmltv

/-- Modelled from the spec: `xmltv.CommonElement` of `internal/xmltv`, which is not
under `src/`; `structs.go` reads and writes its field `Value` only, `Lang` stands for
what it carries besides. -/
structure CommonElement where
  Lang : Str
  Value : Str
deriving DecidableEq, Repr

/-- Modelled from the spec: `xmltv.EpisodeNum` of `internal/xmltv`. -/
structure EpisodeNum where
  System : Str
  Value : Str
deriving DecidableEq, Repr

/-- Modelled from the spec: `xmltv.Icon` of `internal/xmltv`. -/
structure Icon where
  Source : Str
  Width : Int
  Height : Int
deriving DecidableEq, Repr

/-- Modelled from the spec: `xmltv.Rating` of `internal/xmltv`; `structs.go` sets its
field `Value` only. -/
structure Rating where
  Value : Str
deriving DecidableEq, Repr

/-- Modelled from the spec: `xmltv.Channel` of `internal/xmltv`, the guide channel. -/
structure Channel where
  DisplayNames : List CommonElement
  Icons : List Icon
  ID : Str
deriving DecidableEq, Repr

/-- Modelled from the spec: `xmltv.Programme` of `internal/xmltv`, with the fields that
`Program.XMLTV` sets; `Start` and `Stop` are pointers to an `xmltv.Time`, `Live` is a
pointer to an `xmltv.ElementPresent`. -/
structure Programme where
  Titles : List CommonElement
  Descriptions : List CommonElement
  Categories : List CommonElement
  EpisodeNums : List EpisodeNum
  Ratings : List Rating
  Start : Option Time
  Stop : Option Time
  Live : Option Bool
  Channel : Str
deriving DecidableEq, Repr

end xmltv

/-! ## `structs.go`: the data model -/

/-- structs.go:75 and 81, a category tag. -/
structure Category where
  Name : Str
  UUID : Str
deriving DecidableEq, Repr

/-- structs.go:69, `Channel`. -/
structure Channel where
  DisplayName : Str
  IconSrc : Str
  ID : Str
  Categories : List Category
deriving DecidableEq, Repr

/-- structs.go:91, `Image`. -/
structure Image where
  Width : Int
  Height : Int
  Text : Str
  URL : Str
deriving DecidableEq, Repr

/-- structs.go:187, `Program`. -/
structure Program where
  Title : xmltv.CommonElement
  IsLive : Bool
  Description : xmltv.CommonElement
  Start : StirrTime
  Stop : StirrTime
  Channel : Str
  Categories : List xmltv.CommonElement
deriving DecidableEq, Repr

/-- structs.go:98, `ChannelStatus`, with the fields of `Rss` that the methods read:
`Rss.Channel.Title`, `Rss.Channel.Item.Link` and
`Rss.Channel.Item.MediaContent.Logo`. -/
structure ChannelStatus where
  ID : Str
  Channel : Option Channel
  Programs : List Program
  Number : Int
  RssChannelTitle : Str
  RssChannelItemLink : Str
  RssChannelItemMediaContentLogo : Image
deriving DecidableEq, Repr

/-! ## `structs.go`: `Program.XMLTV` -/

/-- structs.go:206-215: the loop over the categories of the channel. -/
def appendChannelCategories (categories : List xmltv.CommonElement) (cats : List Category) :
    List xmltv.CommonElement :=
  cats.foldl (fun categories cat =>
    let name := cat.Name
    let name := if name = "Movies".toList then "Movie".toList else name
    if name = [] ∨ name = "Other".toList then categories
    else categories ++ [{ Lang := [], Value := name }]) categories

/-- structs.go:216-222: the loop over the categories of the program. -/
def appendProgramCategories (categories : List xmltv.CommonElement)
    (cats : List xmltv.CommonElement) : List xmltv.CommonElement :=
  cats.foldl (fun categories c =>
    if c.Value = "HD Unknown".toList then categories ++ [{ Lang := [], Value := "HD".toList }]
    else if c.Value ≠ "category".toList ∧ c.Value ≠ "Other".toList then
      categories ++ [{ Lang := [], Value := c.Value }]
    else categories) categories

/-- structs.go:205-222: the merged category list, channel first. -/
def mergedCategories (ch : Channel) (p : Program) : List xmltv.CommonElement :=
  appendProgramCategories (appendChannelCategories [] ch.Categories) p.Categories

/-- The variables `title`, `desc`, `season` and `episode` of `Program.XMLTV`. -/
structure Extracted where
  title : xmltv.CommonElement
  desc : xmltv.CommonElement
  season : Int
  episode : Int
deriving DecidableEq, Repr

/-- structs.go:227-231: the title stage. -/
def titleStage (x : Extracted) : Extracted :=
  let ms := FindStringSubmatch seasonEpisodeTitleMatcher x.title.Value
  if ms.length > 1 then
    { x with
      title := { x.title with Value := TrimSpace (ms.getD 1 []) }
      season := (Atoi (ms.getD 2 [])).1
      episode := (Atoi (ms.getD 3 [])).1 }
  else x

/-- structs.go:232-236: the description stage. -/
def descStage (x : Extracted) : Extracted :=
  let ms := FindStringSubmatch seasonEpisodeDescMatcher x.desc.Value
  if ms.length > 1 then
    { x with
      desc := { x.desc with Value := TrimSpace (ms.getD 3 []) }
      season := (Atoi (ms.getD 1 [])).1
      episode := (Atoi (ms.getD 2 [])).1 }
  else x

/-- structs.go:223-226: the variables before the stages. -/
def initialVars (p : Program) : Extracted :=
  { title := p.Title, desc := p.Description, season := 0, episode := 0 }

/-- structs.go:223-236: season, episode, title and description after both stages. -/
def extract (p : Program) : Extracted := descStage (titleStage (initialVars p))

/-- structs.go:227: the result of the title pattern on the title of the program. -/
def titleMatches (p : Program) : List Str :=
  FindStringSubmatch seasonEpisodeTitleMatcher p.Title.Value

/-- structs.go:232: the result of the description pattern on the description of the
program. -/
def descMatches (p : Program) : List Str :=
  FindStringSubmatch seasonEpisodeDescMatcher p.Description.Value

/-- structs.go:237-245: the rating read in the cleaned description, empty when the
rating pattern does not match. -/
def ratingOf (desc : Str) : Str :=
  let ms := FindStringSubmatch ratingDescMatcher desc
  if ms.length > 1 then
    let rating := ms.getD 1 []
    let rating := if rating = [] then ms.getD 0 [] else rating
    if rating = "[Not Rated]".toList then "NR".toList else rating
  else []

/-- structs.go:247-257: the category list after the rating stage. -/
def withMovie (desc : Str) (categories : List xmltv.CommonElement) : List xmltv.CommonElement :=
  let ms := FindStringSubmatch ratingDescMatcher desc
  if ms.length > 1 then
    let found := categories.any (fun cat => cat.Value = "Movie".toList)
    if !found then categories ++ [{ Lang := [], Value := "Movie".toList }] else categories
  else categories

/-- structs.go:268-282: the episode numbers of the programme. -/
def episodeNums (season episode : Int) : List xmltv.EpisodeNum :=
  if season > 0 ∧ episode > 0 then
    [{ System := "onscreen".toList,
       Value := "S".toList ++ Itoa season ++ "E".toList ++ Itoa episode }]
  else if episode > 0 then
    [{ System := "onscreen".toList, Value := "E".toList ++ Itoa episode }]
  else []

/-- structs.go:197, `(*Program).XMLTV`; `none` when `cs.Channel` is nil, which the
loop over `cs.Channel.Categories` dereferences. -/
def Program.XMLTV (p : Program) (cs : ChannelStatus) : Option xmltv.Programme :=
  let start := p.Start.Time
  let stop := p.Stop.Time
  let live : Option Bool := if p.IsLive then some p.IsLive else none
  match cs.Channel with
  | none => none
  | some ch =>
    let categories := mergedCategories ch p
    let x := extract p
    let rating := ratingOf x.desc.Value
    let categories := withMovie x.desc.Value categories
    some
      { Titles := [x.title]
        Descriptions := [x.desc]
        Categories := categories
        Start := some start
        Stop := some stop
        Live := live
        Channel := "stirr-".toList ++ p.Channel
        EpisodeNums := episodeNums x.season x.episode
        Ratings := if rating ≠ [] then [{ Value := rating }] else [] }

/-! ## Example inputs and the rules as the specification words them -/

/-- A program with the given title, description and category labels, not live, on the
channel `c1`. -/
def exampleProgram (title desc : Str) (cats : List Str) : Program :=
  { Title := { Lang := [], Value := title }
    IsLive := false
    Description := { Lang := [], Value := desc }
    Start := { Time := { unix := 0, nsec := 0 } }
    Stop := { Time := { unix := 0, nsec := 0 } }
    Channel := "c1".toList
    Categories := cats.map (fun c => { Lang := [], Value := c }) }

/-- A channel status whose channel has the given category names. -/
def exampleStatus (cats : List Str) : ChannelStatus :=
  { ID := "c1".toList
    Channel := some
      { DisplayName := [], IconSrc := [], ID := "c1".toList
        Categories := cats.map (fun c => { Name := c, UUID := [] }) }
    Programs := []
    Number := 1
    RssChannelTitle := []
    RssChannelItemLink := []
    RssChannelItemMediaContentLogo := { Width := 0, Height := 0, Text := [], URL := [] } }

/-- The normalization of program-sourced labels in the words of the specification:
`Movies` becomes `Movie`, `HD Unknown` becomes `HD`, and the empty label, `Other` and
`category` are dropped. -/
def specProgramLabels (labels : List Str) : List Str :=
  labels.filterMap (fun v =>
    if v = "Movies".toList then some "Movie".toList
    else if v = "HD Unknown".toList then some "HD".toList
    else if v = [] ∨ v = "Other".toList ∨ v = "category".toList then none
    else some v)

/-- What the loop of structs.go:216-222 does to one program-sourced label. -/
def programLabel (v : Str) : Option Str :=
  if v = "HD Unknown".toList then some "HD".toList
  else if v ≠ "category".toList ∧ v ≠ "Other".toList then some v
  else none

/-! ## `structs.go`: `ChannelStatus.M3ULine` and `ChannelStatus.XMLTV` -/

/-- `strings.Join(elems, sep)`. -/
def Join (elems : List Str) (sep : Str) : Str := sep.intercalate elems

/-- structs.go:159-164: the pieces of the header; the verb `%s` of `fmt.Sprintf` puts
the string in as it is. -/
def headerPieces (c : ChannelStatus) : List Str :=
  ["#EXTINF:0".toList,
   "channel-id=\"".toList ++ c.ID ++ "\"".toList,
   "tvg-logo=\"".toList ++ c.RssChannelItemMediaContentLogo.URL ++ "\"".toList,
   "tvg-name=\"".toList ++ c.RssChannelTitle ++ "\"".toList]

/-- structs.go:166: the joined pieces without their newline characters. -/
def cleanedHeader (c : ChannelStatus) : Str :=
  removeChar (Join (headerPieces c) " ".toList) '\n'

/-- structs.go:158, `(*ChannelStatus).M3ULine`: `fmt.Sprintf("%s, %s\n%s", cleaned,
title, link)`. -/
def ChannelStatus.M3ULine (c : ChannelStatus) : Str :=
  cleanedHeader c ++ ", ".toList ++ c.RssChannelTitle ++ "\n".toList ++ c.RssChannelItemLink

/-- structs.go:171, `(*ChannelStatus).XMLTV`. -/
def ChannelStatus.XMLTV (c : ChannelStatus) : xmltv.Channel :=
  { DisplayNames := [{ Lang := [], Value := TrimSpace c.RssChannelTitle },
                     { Lang := [], Value := Itoa c.Number }]
    Icons := [{ Source := c.RssChannelItemMediaContentLogo.URL, Width := 340, Height := 255 }]
    ID := c.ID }

/-! ## More example inputs and notions of the specification -/

/-- A channel status with the given id, logo address, title and stream link, without
channel record. -/
def exampleChannelStatus (id logo title link : Str) : ChannelStatus :=
  { ID := id
    Channel := none
    Programs := []
    Number := 7
    RssChannelTitle := title
    RssChannelItemLink := link
    RssChannelItemMediaContentLogo := { Width := 1920, Height := 1080, Text := [], URL := logo } }

/-- The program `p` with its title and its description replaced by the ones that
`Program.XMLTV` emits for `p`. -/
def renormalized (p : Program) : Program :=
  { p with Title := (extract p).title, Description := (extract p).desc }

/-- A digit string without its leading zeros. -/
def stripZeros (s : Str) : Str := s.dropWhile (fun c => c == '0')

/-- The digits of the value of the digit string `s` clamped to the largest `int`: `s`
without its leading zeros when the value is below `2 ^ 63`, otherwise the digits of
`2 ^ 63 - 1`. -/
def clampedDigits (s : Str) : Str :=
  if digitsVal s < 2 ^ 63 then stripZeros s else "9223372036854775807".toList

/-- The calendar fields of a string of 14 digits `YYYYMMDDHHMMSS` are in range: month
1..12, day 1..(days of the month in the year), hour below 24, minute and second
below 60. -/
def validFields (s : Str) : Prop :=
  1 ≤ digitsVal ((s.drop 4).take 2) ∧ digitsVal ((s.drop 4).take 2) ≤ 12 ∧
  1 ≤ digitsVal ((s.drop 6).take 2) ∧
  digitsVal ((s.drop 6).take 2)
    ≤ daysIn (digitsVal ((s.drop 4).take 2)) ((digitsVal (s.take 4) : Nat) : Int) ∧
  digitsVal ((s.drop 8).take 2) < 24 ∧
  digitsVal ((s.drop 10).take 2) < 60 ∧
  digitsVal ((s.drop 12).take 2) < 60

/-- A fraction of a second as `time.Parse` reads it after the seconds: a period or a
comma, then one digit or more. -/
def isFraction (f : Str) : Prop :=
  ∃ c fs, f = c :: fs ∧ (c = '.' ∨ c = ',') ∧ fs ≠ [] ∧ ∀ x ∈ fs, isReDigit x = true

/-- What the loop of structs.go:206-215 does to one channel-sourced name. -/
def channelLabel (name : Str) : Option Str :=
  let name := if name = "Movies".toList then "Movie".toList else name
  if name = [] ∨ name = "Other".toList then none else some name

/-- The normalization `N` of channel-sourced names in the words of the specification:
`Movies` is renamed to `Movie`, the empty name and `Other` are dropped, the order is
kept. -/
def specChannelLabels (names : List Str) : List Str :=
  (names.map (fun n => if n = "Movies".toList then "Movie".toList else n)).filter
    (fun n => decide (n ≠ [] ∧ n ≠ "Other".toList))

/-- The labels that the category stage treats specially in one source or the other. -/
def specialLabels : List Str :=
  [[], "Other".toList, "category".toList, "HD Unknown".toList, "Movies".toList]

/-- A rating tag: `[Not Rated]`, or `[Rated <c>]` with a non-empty text `c` without
newline. -/
def isRatingTag (tag : Str) : Prop :=
  tag = "[Not Rated]".toList ∨
    ∃ c : Str, tag = "[Rated ".toList ++ c ++ "]".toList ∧ c ≠ [] ∧ ∀ x ∈ c, x ≠ '\n'

/-! ## The matcher: general facts -/

theorem starK_caps_length (body : MState → (MState → Option MState) → Option MState)
    (hbody : ∀ st k r, body st k = some r →
      ∃ st2, k st2 = some r ∧ st2.caps.length = st.caps.length)
    (g : Bool) (n : Nat) :
    ∀ st k r, starK body g n st k = some r →
      ∃ st2, k st2 = some r ∧ st2.caps.length = st.caps.length := by
  induction n with
  | zero =>
    intro st k r h
    exact ⟨st, h, rfl⟩
  | succ n ih =>
    intro st k r h
    have hmore : ∀ r, body st (fun st2 => if st.pos < st2.pos then starK body g n st2 k else none)
        = some r → ∃ st2, k st2 = some r ∧ st2.caps.length = st.caps.length := by
      intro r hr
      obtain ⟨s1, h1, hl1⟩ := hbody _ _ _ hr
      by_cases hp : st.pos < s1.pos
      · simp only [hp, if_true] at h1
        obtain ⟨s2, h2, hl2⟩ := ih _ _ _ h1
        exact ⟨s2, h2, hl2.trans hl1⟩
      · simp [hp] at h1
    cases g with
    | true =>
      simp only [starK, if_true] at h
      cases hb : body st (fun st2 => if st.pos < st2.pos then starK body true n st2 k else none) with
      | some r2 =>
        rw [hb] at h
        cases h
        exact hmore _ hb
      | none =>
        rw [hb] at h
        exact ⟨st, h, rfl⟩
    | false =>
      simp only [starK] at h
      cases hk : k st with
      | some r2 =>
        rw [hk] at h
        simp at h
        cases h
        exact ⟨st, hk, rfl⟩
      | none =>
        rw [hk] at h
        simp at h
        exact hmore _ h

theorem run_caps_length (re : Regex) :
    ∀ st k r, re.run st k = some r →
      ∃ st2, k st2 = some r ∧ st2.caps.length = st.caps.length := by
  induction re with
  | cls p =>
    intro st k r h
    obtain ⟨pos, rest, caps⟩ := st
    cases rest with
    | nil => simp [Regex.run] at h
    | cons c cs =>
      by_cases hp : p c = true
      · simp only [Regex.run, hp, if_true] at h
        exact ⟨_, h, rfl⟩
      · simp [Regex.run, hp] at h
  | bol =>
    intro st k r h
    by_cases hp : st.pos = 0
    · simp only [Regex.run, hp, if_true] at h
      exact ⟨st, h, rfl⟩
    · simp [Regex.run, hp] at h
  | eol =>
    intro st k r h
    obtain ⟨pos, rest, caps⟩ := st
    cases rest with
    | nil => exact ⟨_, h, rfl⟩
    | cons c cs => simp [Regex.run] at h
  | empty =>
    intro st k r h
    exact ⟨st, h, rfl⟩
  | cat a b iha ihb =>
    intro st k r h
    obtain ⟨s1, h1, hl1⟩ := iha _ _ _ h
    obtain ⟨s2, h2, hl2⟩ := ihb _ _ _ h1
    exact ⟨s2, h2, hl2.trans hl1⟩
  | alt a b iha ihb =>
    intro st k r h
    simp only [Regex.run] at h
    cases ha : a.run st k with
    | some r2 =>
      rw [ha] at h
      cases h
      exact iha _ _ _ ha
    | none =>
      rw [ha] at h
      exact ihb _ _ _ h
  | star a g iha =>
    intro st k r h
    exact starK_caps_length a.run iha g _ st k r h
  | cap i a iha =>
    intro st k r h
    obtain ⟨s1, h1, hl1⟩ := iha _ _ _ h
    exact ⟨_, h1, by simpa using hl1⟩

theorem searchFrom_caps_length (re : Regex) (n : Nat) :
    ∀ (s : Str) (pos start : Nat) (st : MState),
      searchFrom re n pos s = some (start, st) → st.caps.length = n + 1 := by
  intro s
  induction s with
  | nil =>
    intro pos start st h
    simp only [searchFrom] at h
    cases hr : re.run ⟨pos, [], List.replicate (n + 1) none⟩ some with
    | none => rw [hr] at h; cases h
    | some r =>
      rw [hr] at h
      cases h
      obtain ⟨s2, h2, hl⟩ := run_caps_length re _ _ _ hr
      cases h2
      simpa using hl
  | cons c cs ih =>
    intro pos start st h
    simp only [searchFrom] at h
    cases hr : re.run ⟨pos, c :: cs, List.replicate (n + 1) none⟩ some with
    | none => rw [hr] at h; exact ih _ _ _ h
    | some r =>
      rw [hr] at h
      cases h
      obtain ⟨s2, h2, hl⟩ := run_caps_length re _ _ _ hr
      cases h2
      simpa using hl

/-- The result of `FindStringSubmatch` is nil or has one entry per group, plus one. -/
theorem FindStringSubmatch_length (re : Regex) (s : Str) :
    FindStringSubmatch re s = [] ∨ (FindStringSubmatch re s).length = re.numSubexp + 1 := by
  unfold FindStringSubmatch
  cases h : searchFrom re re.numSubexp 0 s with
  | none => left; rfl
  | some r =>
    obtain ⟨start, st⟩ := r
    right
    simp [searchFrom_caps_length re _ _ _ _ _ h]

theorem ratingDescMatcher_numSubexp : ratingDescMatcher.numSubexp = 1 := by decide
theorem seasonEpisodeTitleMatcher_numSubexp : seasonEpisodeTitleMatcher.numSubexp = 3 := by decide
theorem seasonEpisodeDescMatcher_numSubexp : seasonEpisodeDescMatcher.numSubexp = 3 := by decide

/-! ## The matcher on texts of a known shape -/

theorem run_cls_cons (p : Char → Bool) (pos : Nat) (c : Char) (cs : Str)
    (caps : List (Option Str)) (k : MState → Option MState) :
    (Regex.cls p).run ⟨pos, c :: cs, caps⟩ k = if p c then k ⟨pos + 1, cs, caps⟩ else none := rfl

theorem run_cls_nil (p : Char → Bool) (pos : Nat) (caps : List (Option Str))
    (k : MState → Option MState) : (Regex.cls p).run ⟨pos, [], caps⟩ k = none := rfl

theorem run_lit_cons (c : Char) (pos : Nat) (cs : Str) (caps : List (Option Str))
    (k : MState → Option MState) :
    (lit c).run ⟨pos, c :: cs, caps⟩ k = k ⟨pos + 1, cs, caps⟩ := by
  simp [lit, Regex.run]

theorem run_lit_ne (c d : Char) (h : d ≠ c) (pos : Nat) (cs : Str) (caps : List (Option Str))
    (k : MState → Option MState) : (lit c).run ⟨pos, d :: cs, caps⟩ k = none := by
  simp [lit, Regex.run, h]

theorem run_lit_nil (c : Char) (pos : Nat) (caps : List (Option Str))
    (k : MState → Option MState) : (lit c).run ⟨pos, [], caps⟩ k = none := rfl

theorem run_cat (a b : Regex) (st : MState) (k : MState → Option MState) :
    (Regex.cat a b).run st k = a.run st (fun st2 => b.run st2 k) := rfl

theorem run_lits_append (w : Str) : ∀ (pos : Nat) (r : Str) (caps : List (Option Str))
    (k : MState → Option MState),
    (lits w).run ⟨pos, w ++ r, caps⟩ k = k ⟨pos + w.length, r, caps⟩ := by
  induction w with
  | nil => intro pos r caps k; rfl
  | cons c w ih =>
    intro pos r caps k
    simp only [lits, run_cat, List.cons_append, run_lit_cons, ih, List.length_cons]
    congr 2
    omega

theorem run_lits_none (w : Str) : ∀ (pos : Nat) (t : Str) (caps : List (Option Str))
    (k : MState → Option MState), ¬ w <+: t → (lits w).run ⟨pos, t, caps⟩ k = none := by
  induction w with
  | nil => intro pos t caps k h; exact absurd (List.nil_prefix) h
  | cons c w ih =>
    intro pos t caps k h
    cases t with
    | nil => rfl
    | cons d t =>
      by_cases hd : d = c
      · subst hd
        simp only [lits, run_cat, run_lit_cons]
        apply ih
        intro hw
        exact h ((List.cons_prefix_cons).2 ⟨rfl, hw⟩)
      · simp only [lits, run_cat, run_lit_ne _ _ hd]

/-- A repetition of a class stops at once where the next character is outside the class. -/
theorem starK_stop (p : Char → Bool) (g : Bool) (n pos : Nat) (r : Str)
    (caps : List (Option Str)) (k : MState → Option MState)
    (hr : ∀ c ∈ r.head?, p c = false) :
    starK (Regex.cls p).run g n ⟨pos, r, caps⟩ k = k ⟨pos, r, caps⟩ := by
  cases n with
  | zero => rfl
  | succ n =>
    have hb : ∀ k2, (Regex.cls p).run ⟨pos, r, caps⟩ k2 = none := by
      intro k2
      cases r with
      | nil => rfl
      | cons c cs =>
        have := hr c (by simp)
        simp [Regex.run, this]
    cases g with
    | true => simp only [starK, if_true, hb]
    | false =>
      simp only [starK, hb]
      cases k ⟨pos, r, caps⟩ <;> simp

/-- A greedy repetition of a class runs over a prefix `w` in the class when the
match succeeds after `w` with every amount of fuel left. -/
theorem starK_greedy_prefix (p : Char → Bool) (w : Str) (hw : ∀ c ∈ w, p c = true) :
    ∀ (n pos : Nat) (r : Str) (caps : List (Option Str)) (k : MState → Option MState)
      (v : MState), w.length ≤ n →
      (∀ m, starK (Regex.cls p).run true m ⟨pos + w.length, r, caps⟩ k = some v) →
      starK (Regex.cls p).run true n ⟨pos, w ++ r, caps⟩ k = some v := by
  induction w with
  | nil =>
    intro n pos r caps k v _ h
    simpa using h n
  | cons c w ih =>
    intro n pos r caps k v hn h
    cases n with
    | zero => simp at hn
    | succ n =>
      have hc : p c = true := hw c (by simp)
      have ih2 := ih (fun c hc => hw c (by simp [hc])) n (pos + 1) r caps k v
        (by simpa using hn)
        (by
          intro m
          have := h m
          simpa [Nat.add_assoc, Nat.add_comm 1] using this)
      simp only [starK, if_true, List.cons_append, run_cls_cons, hc, Nat.lt_succ_self, ih2]

/-- A greedy repetition of a class over a maximal run `w` of the class. -/
theorem run_star_greedy_max (p : Char → Bool) (w r : Str) (hw : ∀ c ∈ w, p c = true)
    (hr : ∀ c ∈ r.head?, p c = false) (pos : Nat) (caps : List (Option Str))
    (k : MState → Option MState) (v : MState)
    (hk : k ⟨pos + w.length, r, caps⟩ = some v) :
    (Regex.star (.cls p) true).run ⟨pos, w ++ r, caps⟩ k = some v := by
  simp only [Regex.run]
  apply starK_greedy_prefix p w hw
  · simp
  · intro m
    rw [starK_stop p true m _ r caps k hr]
    exact hk

/-- A greedy repetition gives up everything that it read in a text where the
continuation fails at every later position. -/
theorem starK_greedy_fail (p : Char → Bool) (u : Str) (caps : List (Option Str))
    (k : MState → Option MState)
    (hk : ∀ q t, (∀ c ∈ t, c ∈ u) → k ⟨q, t, caps⟩ = none) :
    ∀ (t : Str) (n pos : Nat), (∀ c ∈ t.tail, c ∈ u) →
      starK (Regex.cls p).run true n ⟨pos, t, caps⟩ k = k ⟨pos, t, caps⟩ := by
  intro t
  induction t with
  | nil =>
    intro n pos _
    exact starK_stop p true n pos [] caps k (by simp)
  | cons c t ih =>
    intro n pos ht
    cases n with
    | zero => rfl
    | succ n =>
      by_cases hc : p c = true
      · have h1 := ih n (pos + 1) (fun x hx => ht x (by
          simp only [List.tail_cons]
          exact List.mem_of_mem_tail hx))
        have h2 : k ⟨pos + 1, t, caps⟩ = none := hk _ _ (fun x hx => ht x (by simpa using hx))
        simp only [starK, if_true, run_cls_cons, hc, Nat.lt_succ_self, h1, h2]
      · simp only [starK, if_true, run_cls_cons, hc]
        simp

/-- The group `(p+)`, greedy, over a maximal run `w` of the class `p`. -/
theorem run_cap_plus_max (i : Nat) (p : Char → Bool) (w r : Str) (hne : w ≠ [])
    (hw : ∀ c ∈ w, p c = true) (hr : ∀ c ∈ r.head?, p c = false) (pos : Nat)
    (caps : List (Option Str)) (k : MState → Option MState) (v : MState)
    (hk : k ⟨pos + w.length, r, caps.set i (some w)⟩ = some v) :
    (Regex.cap i (plus (.cls p) true)).run ⟨pos, w ++ r, caps⟩ k = some v := by
  cases w with
  | nil => exact absurd rfl hne
  | cons c w =>
    have hc : p c = true := hw c (by simp)
    simp only [Regex.run, plus, List.cons_append, hc, if_true]
    apply starK_greedy_prefix p w (fun x hx => hw x (by simp [hx]))
    · simp
    · intro m
      rw [starK_stop p true m _ r caps _ hr]
      have e1 : List.take (pos + 1 + w.length - pos) (c :: (w ++ r)) = c :: w := by
        rw [show pos + 1 + w.length - pos = (c :: w).length by
          simp only [List.length_cons]; omega]
        exact List.take_left' rfl
      have e2 : pos + 1 + w.length = pos + (c :: w).length := by
        simp only [List.length_cons]; omega
      simp only [e1]
      rw [e2]
      exact hk

/-- The group `(p+)`, greedy, that has to give back the text `t` after `w` because the
continuation `k` fails everywhere inside `t`. -/
theorem run_cap_plus_backtrack (i : Nat) (p : Char → Bool) (w t u : Str) (hne : w ≠ [])
    (hw : ∀ c ∈ w, p c = true) (ht : ∀ c ∈ t.tail, c ∈ u) (pos : Nat)
    (caps : List (Option Str)) (k : MState → Option MState) (v : MState)
    (hfail : ∀ q s c2, (∀ c ∈ s, c ∈ u) → k ⟨q, s, c2⟩ = none)
    (hk : k ⟨pos + w.length, t, caps.set i (some w)⟩ = some v) :
    (Regex.cap i (plus (.cls p) true)).run ⟨pos, w ++ t, caps⟩ k = some v := by
  cases w with
  | nil => exact absurd rfl hne
  | cons c w =>
    have hc : p c = true := hw c (by simp)
    simp only [Regex.run, plus, List.cons_append, hc, if_true]
    apply starK_greedy_prefix p w (fun x hx => hw x (by simp [hx]))
    · simp
    · intro m
      rw [starK_greedy_fail p u caps
        (fun st2 => k { pos := st2.pos, rest := st2.rest,
                        caps := st2.caps.set i (some (List.take (st2.pos - pos) (c :: (w ++ t)))) })
        (fun q s hs => hfail _ _ _ hs) t m _ ht]
      have e1 : List.take (pos + 1 + w.length - pos) (c :: (w ++ t)) = c :: w := by
        rw [show pos + 1 + w.length - pos = (c :: w).length by
          simp only [List.length_cons]; omega]
        exact List.take_left' rfl
      have e2 : pos + 1 + w.length = pos + (c :: w).length := by
        simp only [List.length_cons]; omega
      simp only [e1]
      rw [e2]
      exact hk

theorem run_star_stop (p : Char → Bool) (g : Bool) (pos : Nat) (r : Str)
    (caps : List (Option Str)) (k : MState → Option MState)
    (hr : ∀ c ∈ r.head?, p c = false) :
    (Regex.star (.cls p) g).run ⟨pos, r, caps⟩ k = k ⟨pos, r, caps⟩ :=
  starK_stop p g _ pos r caps k hr

theorem run_bol_zero (rest : Str) (caps : List (Option Str)) (k : MState → Option MState) :
    Regex.bol.run ⟨0, rest, caps⟩ k = k ⟨0, rest, caps⟩ := rfl

theorem run_eol_nil (pos : Nat) (caps : List (Option Str)) (k : MState → Option MState) :
    Regex.eol.run ⟨pos, [], caps⟩ k = k ⟨pos, [], caps⟩ := rfl

theorem searchFrom_of_run (re : Regex) (n pos : Nat) (s : Str) (v : MState)
    (h : re.run ⟨pos, s, List.replicate (n + 1) none⟩ some = some v) :
    searchFrom re n pos s = some (pos, v) := by
  cases s with
  | nil => simp only [searchFrom, h]
  | cons c cs => simp only [searchFrom, h]

/-! ### Character classes -/

theorem isReDigit_not_isReSpace (c : Char) (h : isReDigit c = true) : isReSpace c = false := by
  cases hs : isReSpace c with
  | false => rfl
  | true =>
    simp only [isReSpace, Bool.or_eq_true, beq_iff_eq] at hs
    rcases hs with (((rfl | rfl) | rfl) | rfl) | rfl <;> revert h <;> decide

theorem isReDigit_ne (c d : Char) (h : isReDigit c = true) (hd : isReDigit d = false) : c ≠ d := by
  intro e
  subst e
  rw [h] at hd
  cases hd

theorem isReSpace_isSpace (c : Char) (h : isReSpace c = true) : isSpace c = true := by
  simp only [isReSpace, Bool.or_eq_true, beq_iff_eq] at h
  rcases h with (((rfl | rfl) | rfl) | rfl) | rfl <;> decide

/-! ### The title pattern -/

/-- The title pattern on `name ++ " (S" ++ s ++ ",E" ++ e ++ ")"`: the first group is
the name with the blank, the other two are the digit strings. -/
theorem title_match (name s e : Str) (hname : ∀ c ∈ name, c ≠ '\n')
    (hs : s ≠ []) (hsd : ∀ c ∈ s, isReDigit c = true)
    (he : e ≠ []) (hed : ∀ c ∈ e, isReDigit c = true) :
    FindStringSubmatch seasonEpisodeTitleMatcher
        (name ++ " (S".toList ++ s ++ ",E".toList ++ e ++ ")".toList)
      = [name ++ " (S".toList ++ s ++ ",E".toList ++ e ++ ")".toList, name ++ [' '], s, e] := by
  have hT : name ++ " (S".toList ++ s ++ ",E".toList ++ e ++ ")".toList
      = (name ++ [' ']) ++ ('(' :: 'S' :: (s ++ (',' :: 'E' :: (e ++ [')'])))) := by simp
  have hrun : seasonEpisodeTitleMatcher.run
      ⟨0, (name ++ [' ']) ++ ('(' :: 'S' :: (s ++ (',' :: 'E' :: (e ++ [')'])))),
        List.replicate (3 + 1) none⟩ some
      = some ⟨((name ++ [' ']) ++ ('(' :: 'S' :: (s ++ (',' :: 'E' :: (e ++ [')']))))).length, [],
          [none, some (name ++ [' ']), some s, some e]⟩ := by
    simp only [seasonEpisodeTitleMatcher, seqs, run_cat, run_bol_zero]
    apply run_cap_plus_backtrack 1 isDot (name ++ [' '])
      ('(' :: 'S' :: (s ++ (',' :: 'E' :: (e ++ [')']))))
      ('S' :: (s ++ (',' :: 'E' :: (e ++ [')']))))
    · simp
    · intro c hc
      simp only [List.mem_append, List.mem_singleton] at hc
      rcases hc with hc | rfl
      · simpa [isDot] using hname c hc
      · decide
    · intro c hc
      simpa using hc
    · intro q t c2 ht
      have hu : ∀ c ∈ ('S' :: (s ++ (',' :: 'E' :: (e ++ [')'])))),
          isReSpace c = false ∧ c ≠ '(' := by
        intro c hc
        simp only [List.mem_cons, List.mem_append, List.not_mem_nil, or_false] at hc
        rcases hc with rfl | hc | rfl | rfl | hc | rfl
        · decide
        · exact ⟨isReDigit_not_isReSpace c (hsd c hc), isReDigit_ne c '(' (hsd c hc) (by decide)⟩
        · decide
        · decide
        · exact ⟨isReDigit_not_isReSpace c (hed c hc), isReDigit_ne c '(' (hed c hc) (by decide)⟩
        · decide
      cases t with
      | nil =>
        rw [run_star_stop isReSpace true q [] c2 _ (by simp)]
        rfl
      | cons c t =>
        have hc := hu c (ht c (by simp))
        rw [run_star_stop isReSpace true q (c :: t) c2 _ (by simpa using hc.1)]
        exact run_lit_ne '(' c hc.2 _ _ _ _
    · rw [run_star_stop isReSpace true _ _ _ _ (by simp; decide)]
      rw [run_lit_cons, run_lit_cons]
      apply run_cap_plus_max 2 isReDigit s _ hs hsd (by simp; decide)
      rw [run_lit_cons, run_lit_cons]
      apply run_cap_plus_max 3 isReDigit e _ he hed (by simp; decide)
      rw [run_lit_cons, run_eol_nil]
      simp only [Option.some.injEq, MState.mk.injEq, true_and]
      refine ⟨?_, rfl⟩
      simp only [List.length_append, List.length_cons, List.length_nil]
      omega
  rw [hT]
  simp only [FindStringSubmatch, seasonEpisodeTitleMatcher_numSubexp,
    searchFrom_of_run _ _ _ _ _ hrun]
  simp

/-! ### `strconv.Atoi` on digit strings -/

theorem foldl_digits_ge (s : Str) : ∀ n : Nat,
    n ≤ s.foldl (fun n c => n * 10 + digitVal c) n := by
  induction s with
  | nil => intro n; exact Nat.le_refl n
  | cons c cs ih =>
    intro n
    have := ih (n * 10 + digitVal c)
    simp only [List.foldl_cons]
    omega

theorem parseUintLoop_digits (s : Str) (hd : ∀ c ∈ s, isReDigit c = true) : ∀ n : Nat,
    s.foldl (fun n c => n * 10 + digitVal c) n < 2 ^ 64 →
    parseUintLoop s n = (s.foldl (fun n c => n * 10 + digitVal c) n, none) := by
  induction s with
  | nil => intro n _; rfl
  | cons c cs ih =>
    intro n h
    have hc : isReDigit c = true := hd c (by simp)
    simp only [List.foldl_cons] at h ⊢
    have h1 := foldl_digits_ge cs (n * 10 + digitVal c)
    have h2 : n * 10 + digitVal c < 2 ^ 64 := Nat.lt_of_le_of_lt h1 h
    simp only [parseUintLoop, hc, if_true, h2]
    exact ih (fun x hx => hd x (by simp [hx])) _ h

/-- `Atoi` of a non-empty digit string whose value fits an `int` is that value. -/
theorem Atoi_digits (s : Str) (hne : s ≠ []) (hd : ∀ c ∈ s, isReDigit c = true)
    (hfit : digitsVal s < 2 ^ 63) : Atoi s = ((digitsVal s : Int), none) := by
  cases s with
  | nil => exact absurd rfl hne
  | cons c cs =>
    have hc : isReDigit c = true := hd c (by simp)
    have h1 : (c == '-') = false := by
      simpa using isReDigit_ne c '-' hc (by decide)
    have h2 : (c == '+') = false := by
      simpa using isReDigit_ne c '+' hc (by decide)
    have h3 : parseUintLoop (c :: cs) 0 = (digitsVal (c :: cs), none) :=
      parseUintLoop_digits (c :: cs) hd 0 (Nat.lt_trans hfit (by norm_num))
    have h4 : ¬ (2 ^ (intSize - 1) ≤ digitsVal (c :: cs)) := by
      simp only [intSize]
      omega
    simp only [Atoi, h1, h2, Bool.or_self, ParseUint, h3, Bool.false_eq_true, if_false]
    simp [h4]

theorem Atoi_nil : Atoi [] = (0, some NumError.ErrSyntax) := rfl

/-! ### `strings.TrimSpace` -/

theorem dropWhile_dropWhile_of_imp (p q : Char → Bool) (h : ∀ c, q c = true → p c = true) :
    ∀ l : Str, (l.dropWhile q).dropWhile p = l.dropWhile p := by
  intro l
  induction l with
  | nil => rfl
  | cons c l ih =>
    by_cases hq : q c = true
    · simp [List.dropWhile_cons, hq, h c hq, ih]
    · simp [List.dropWhile_cons, hq]

theorem TrimSpace_dropWhile_isReSpace (l : Str) :
    TrimSpace (l.dropWhile isReSpace) = TrimSpace l := by
  unfold TrimSpace
  rw [dropWhile_dropWhile_of_imp isSpace isReSpace isReSpace_isSpace]

theorem TrimSpace_append_space (l : Str) : TrimSpace (l ++ [' ']) = TrimSpace l := by
  unfold TrimSpace
  induction l with
  | nil => decide
  | cons c l ih =>
    by_cases hc : isSpace c = true
    · simpa [List.dropWhile_cons, hc] using ih
    · have : isSpace ' ' = true := by decide
      simp only [List.cons_append, List.dropWhile_cons, hc, Bool.false_eq_true, if_false]
      rw [show c :: (l ++ [' ']) = (c :: l) ++ [' '] from rfl, List.rdropWhile_concat]
      simp [this]

/-! ### The description pattern -/

theorem run_alt_left (a b : Regex) (st : MState) (k : MState → Option MState) (v : MState)
    (h : a.run st k = some v) : (Regex.alt a b).run st k = some v := by
  simp only [Regex.run, h]

theorem run_alt_right (a b : Regex) (st : MState) (k : MState → Option MState)
    (h : a.run st k = none) : (Regex.alt a b).run st k = b.run st k := by
  simp only [Regex.run, h]

theorem run_empty (st : MState) (k : MState → Option MState) : Regex.empty.run st k = k st := rfl

theorem isEpisodeSep_not_digit (d : Char) (h : isEpisodeSep d = true) : isReDigit d = false := by
  simp only [isEpisodeSep, Bool.or_eq_true, beq_iff_eq] at h
  rcases h with (rfl | rfl) | rfl <;> decide

theorem isSeasonSep_not_digit (d : Char) (h : isSeasonSep d = true) : isReDigit d = false := by
  simp only [isSeasonSep, Bool.or_eq_true, beq_iff_eq] at h
  rcases h with (rfl | rfl) | rfl <;> decide

/-- The group `(p+)`, greedy, over a whole remaining text in the class `p`. -/
theorem run_cap_plus_all (i : Nat) (p : Char → Bool) (w : Str) (hne : w ≠ [])
    (hw : ∀ c ∈ w, p c = true) (pos : Nat) (caps : List (Option Str))
    (k : MState → Option MState) (v : MState)
    (hk : k ⟨pos + w.length, [], caps.set i (some w)⟩ = some v) :
    (Regex.cap i (plus (.cls p) true)).run ⟨pos, w, caps⟩ k = some v := by
  have h := run_cap_plus_max i p w [] hne hw (by simp) pos caps k v hk
  simpa using h

/-- The end of the description pattern, `E(\d+)[: -]\s*(.+)$`, on `E`, digits, a
separator, white space `w`, and a text `r` that starts outside `\s`. -/
theorem desc_tail_run (e w r : Str) (d : Char) (he : e ≠ []) (hed : ∀ c ∈ e, isReDigit c = true)
    (hd : isEpisodeSep d = true) (hw : ∀ c ∈ w, isReSpace c = true) (hr : r ≠ [])
    (hrh : ∀ c ∈ r.head?, isReSpace c = false) (hrn : ∀ c ∈ r, c ≠ '\n')
    (pos : Nat) (caps : List (Option Str)) :
    (seqs [lit 'E', .cap 2 (plus (.cls isReDigit) true), .cls isEpisodeSep,
      .star (.cls isReSpace) true, .cap 3 (plus (.cls isDot) true), .eol]).run
      ⟨pos, 'E' :: (e ++ d :: (w ++ r)), caps⟩ some
    = some ⟨pos + ('E' :: (e ++ d :: (w ++ r))).length, [],
        (caps.set 2 (some e)).set 3 (some r)⟩ := by
  simp only [seqs, run_cat, run_lit_cons]
  apply run_cap_plus_max 2 isReDigit e _ he hed
    (by simpa using isEpisodeSep_not_digit d hd)
  rw [run_cls_cons, hd, if_pos rfl]
  apply run_star_greedy_max isReSpace w r hw hrh
  apply run_cap_plus_all 3 isDot r hr (fun c hc => by simpa [isDot] using hrn c hc)
  rw [run_eol_nil]
  simp only [Option.some.injEq, MState.mk.injEq, true_and, and_true]
  simp only [List.length_append, List.length_cons]
  omega

/-- The description pattern on `E<e><d><rest>`: no season group. -/
theorem desc_match_episode (e rest : Str) (d : Char) (he : e ≠ [])
    (hed : ∀ c ∈ e, isReDigit c = true) (hd : isEpisodeSep d = true)
    (hrn : ∀ c ∈ rest, c ≠ '\n') (hrs : ∃ c ∈ rest, isReSpace c = false) :
    FindStringSubmatch seasonEpisodeDescMatcher ('E' :: (e ++ d :: rest))
      = ['E' :: (e ++ d :: rest), [], e, rest.dropWhile isReSpace] := by
  have hsplit : rest = rest.takeWhile isReSpace ++ rest.dropWhile isReSpace :=
    (List.takeWhile_append_dropWhile isReSpace rest).symm
  have hw : ∀ c ∈ rest.takeWhile isReSpace, isReSpace c = true :=
    fun c hc => List.mem_takeWhile_imp hc
  have hr : rest.dropWhile isReSpace ≠ [] := by
    obtain ⟨c, hc, hcs⟩ := hrs
    intro h
    rw [List.dropWhile_eq_nil_iff] at h
    have := h c hc
    rw [hcs] at this
    cases this
  have hrh : ∀ c ∈ (rest.dropWhile isReSpace).head?, isReSpace c = false := by
    intro c hc
    have := List.head?_dropWhile_not isReSpace rest
    rw [Option.mem_def] at hc
    rw [hc] at this
    simpa using this
  have hrn2 : ∀ c ∈ rest.dropWhile isReSpace, c ≠ '\n' :=
    fun c hc => hrn c ((List.dropWhile_sublist isReSpace).subset hc)
  have htail := desc_tail_run e (rest.takeWhile isReSpace) (rest.dropWhile isReSpace) d he hed hd
    hw hr hrh hrn2 0 (List.replicate (3 + 1) none)
  rw [← hsplit] at htail
  have hrun : seasonEpisodeDescMatcher.run ⟨0, 'E' :: (e ++ d :: rest), List.replicate (3 + 1) none⟩
      some = some ⟨0 + ('E' :: (e ++ d :: rest)).length, [],
        ((List.replicate (3 + 1) none).set 2 (some e)).set 3 (some (rest.dropWhile isReSpace))⟩ := by
    rw [← htail]
    simp only [seasonEpisodeDescMatcher, seqs, run_cat, run_bol_zero, opt, if_true]
    rw [run_star_stop isReSpace true 0 _ _ _ (by simp; decide)]
    rw [run_alt_right _ _ _ _ (by rw [run_cat, run_lit_ne 'S' 'E' (by decide)])]
    rfl
  simp only [FindStringSubmatch, seasonEpisodeDescMatcher_numSubexp,
    searchFrom_of_run _ _ _ _ _ hrun]
  simp

/-- The description pattern on `S<s><sep>E<e><d><rest>`, where `sep` is empty or one
of the characters `[ :,]`. -/
theorem desc_match_season (s sep e rest : Str) (d : Char) (hs : s ≠ [])
    (hsd : ∀ c ∈ s, isReDigit c = true)
    (hsep : sep = [] ∨ ∃ x, isSeasonSep x = true ∧ sep = [x]) (he : e ≠ [])
    (hed : ∀ c ∈ e, isReDigit c = true) (hd : isEpisodeSep d = true)
    (hrn : ∀ c ∈ rest, c ≠ '\n') (hrs : ∃ c ∈ rest, isReSpace c = false) :
    FindStringSubmatch seasonEpisodeDescMatcher ('S' :: (s ++ (sep ++ 'E' :: (e ++ d :: rest))))
      = ['S' :: (s ++ (sep ++ 'E' :: (e ++ d :: rest))), s, e, rest.dropWhile isReSpace] := by
  have hsplit : rest = rest.takeWhile isReSpace ++ rest.dropWhile isReSpace :=
    (List.takeWhile_append_dropWhile isReSpace rest).symm
  have hw : ∀ c ∈ rest.takeWhile isReSpace, isReSpace c = true :=
    fun c hc => List.mem_takeWhile_imp hc
  have hr : rest.dropWhile isReSpace ≠ [] := by
    obtain ⟨c, hc, hcs⟩ := hrs
    intro h
    rw [List.dropWhile_eq_nil_iff] at h
    have := h c hc
    rw [hcs] at this
    cases this
  have hrh : ∀ c ∈ (rest.dropWhile isReSpace).head?, isReSpace c = false := by
    intro c hc
    have := List.head?_dropWhile_not isReSpace rest
    rw [Option.mem_def] at hc
    rw [hc] at this
    simpa using this
  have hrn2 : ∀ c ∈ rest.dropWhile isReSpace, c ≠ '\n' :=
    fun c hc => hrn c ((List.dropWhile_sublist isReSpace).subset hc)
  have htail := fun pos caps => desc_tail_run e (rest.takeWhile isReSpace)
    (rest.dropWhile isReSpace) d he hed hd hw hr hrh hrn2 pos caps
  rw [← hsplit] at htail
  simp only [seqs, run_cat] at htail
  have hrun : seasonEpisodeDescMatcher.run
      ⟨0, 'S' :: (s ++ (sep ++ 'E' :: (e ++ d :: rest))), List.replicate (3 + 1) none⟩ some
      = some ⟨('S' :: (s ++ (sep ++ 'E' :: (e ++ d :: rest)))).length, [],
        [none, some s, some e, some (rest.dropWhile isReSpace)]⟩ := by
    simp only [seasonEpisodeDescMatcher, seqs, run_cat, run_bol_zero, opt, if_true]
    rw [run_star_stop isReSpace true 0 _ _ _ (by simp; decide)]
    apply run_alt_left
    rw [run_cat, run_lit_cons, run_cat]
    have hsephead : ∀ c ∈ (sep ++ 'E' :: (e ++ d :: rest)).head?, isReDigit c = false := by
      intro c hc
      rcases hsep with rfl | ⟨x, hx, rfl⟩
      · simp at hc
        subst hc
        decide
      · simp at hc
        subst hc
        exact isSeasonSep_not_digit _ hx
    apply run_cap_plus_max 1 isReDigit s _ hs hsd hsephead
    rcases hsep with rfl | ⟨x, hx, rfl⟩
    · rw [run_alt_right _ _ _ _ (by
        simp only [List.nil_append, run_cls_cons]
        simp [isSeasonSep])]
      rw [run_empty]
      simp only [List.nil_append]
      rw [htail]
      simp only [Option.some.injEq, MState.mk.injEq, true_and]
      refine ⟨?_, rfl⟩
      simp only [List.length_append, List.length_cons, List.length_nil]
      omega
    · apply run_alt_left
      simp only [List.singleton_append, run_cls_cons, hx, if_true]
      rw [htail]
      simp only [Option.some.injEq, MState.mk.injEq, true_and]
      refine ⟨?_, rfl⟩
      simp only [List.length_append, List.length_cons, List.length_nil]
      omega
  simp only [FindStringSubmatch, seasonEpisodeDescMatcher_numSubexp,
    searchFrom_of_run _ _ _ _ _ hrun]
  simp

/-! ### The rating pattern -/

/-- A lazy repetition of a class reads a prefix `w` in the class when the continuation
fails in front of every character of `w` and succeeds after `w`. -/
theorem starK_lazy_prefix (p : Char → Bool) (w : Str) (hw : ∀ c ∈ w, p c = true)
    (k : MState → Option MState) (caps : List (Option Str))
    (hfail : ∀ q x t, x ∈ w → k ⟨q, x :: t, caps⟩ = none) :
    ∀ (n pos : Nat) (r : Str) (v : MState), w.length ≤ n →
      k ⟨pos + w.length, r, caps⟩ = some v →
      starK (Regex.cls p).run false n ⟨pos, w ++ r, caps⟩ k = some v := by
  induction w with
  | nil =>
    intro n pos r v _ hk
    simp only [List.length_nil, Nat.add_zero] at hk
    cases n with
    | zero => exact hk
    | succ n => simp [starK, hk]
  | cons c w ih =>
    intro n pos r v hn hk
    cases n with
    | zero => simp at hn
    | succ n =>
      have hc : p c = true := hw c (by simp)
      have h0 : k ⟨pos, c :: (w ++ r), caps⟩ = none := hfail _ _ _ (by simp)
      have ih2 := ih (fun x hx => hw x (by simp [hx]))
        (fun q x t hx => hfail q x t (by simp [hx])) n (pos + 1) r v (by simpa using hn)
        (by simpa [Nat.add_assoc, Nat.add_comm 1] using hk)
      simp [starK, h0, run_cls_cons, hc, ih2]

/-- The group `(p+?)`, lazy, reads exactly `w` when the continuation fails in front of
every character of `w` and succeeds after `w`. -/
theorem run_cap_plus_lazy (i : Nat) (p : Char → Bool) (w r : Str) (hne : w ≠ [])
    (hw : ∀ c ∈ w, p c = true) (pos : Nat) (caps : List (Option Str))
    (k : MState → Option MState) (v : MState)
    (hfail : ∀ q x t c2, x ∈ w → k ⟨q, x :: t, c2⟩ = none)
    (hk : k ⟨pos + w.length, r, caps.set i (some w)⟩ = some v) :
    (Regex.cap i (plus (.cls p) false)).run ⟨pos, w ++ r, caps⟩ k = some v := by
  cases w with
  | nil => exact absurd rfl hne
  | cons c w =>
    have hc : p c = true := hw c (by simp)
    simp only [Regex.run, plus, List.cons_append, hc, if_true]
    apply starK_lazy_prefix p w (fun x hx => hw x (by simp [hx]))
      (fun st2 => k { pos := st2.pos, rest := st2.rest,
                      caps := st2.caps.set i (some (List.take (st2.pos - pos) (c :: (w ++ r)))) })
      caps (fun q x t hx => hfail _ _ _ _ (by simp [hx]))
    · simp
    · have e1 : List.take (pos + 1 + w.length - pos) (c :: (w ++ r)) = c :: w := by
        rw [show pos + 1 + w.length - pos = (c :: w).length by
          simp only [List.length_cons]; omega]
        exact List.take_left' rfl
      have e2 : pos + 1 + w.length = pos + (c :: w).length := by
        simp only [List.length_cons]; omega
      simp only [e1]
      rw [e2]
      exact hk

/-- The rating pattern fails at a position where neither tag starts. -/
theorem rating_run_none (t : Str) (h1 : ¬ "[Rated ".toList <+: t)
    (h2 : ¬ "[Not Rated]".toList <+: t) (q : Nat) (caps : List (Option Str))
    (k : MState → Option MState) : ratingDescMatcher.run ⟨q, t, caps⟩ k = none := by
  simp only [ratingDescMatcher, seqs, run_cat]
  cases t with
  | nil => rfl
  | cons a t =>
    by_cases ha : a = '['
    · subst ha
      rw [run_lit_cons]
      have hR : ¬ "Rated ".toList <+: t := by
        intro h
        exact h1 ((List.cons_prefix_cons).2 ⟨rfl, h⟩)
      have e2 : (Regex.cat (lits "Rated ".toList)
          (Regex.cap 1 (plus (Regex.cls isDot) false))).run ⟨q + 1, t, caps⟩
          (fun st2 => (lit ']').run st2 k) = none := by
        rw [run_cat]
        exact run_lits_none _ _ _ _ _ hR
      by_cases hN : "Not Rated".toList <+: t
      · obtain ⟨r, rfl⟩ := hN
        have e1 : (lits "Not Rated".toList).run ⟨q + 1, "Not Rated".toList ++ r, caps⟩
            (fun st2 => (lit ']').run st2 k) = none := by
          rw [run_lits_append]
          cases r with
          | nil => rfl
          | cons b r =>
            apply run_lit_ne
            intro hb
            subst hb
            exact h2 ⟨r, by simp⟩
        rw [run_alt_right _ _ _ _ e1]
        exact e2
      · rw [run_alt_right _ _ _ _ (run_lits_none _ _ _ _ _ hN)]
        exact e2
    · exact run_lit_ne '[' a ha _ _ _ _

/-- The search skips a prefix in which the pattern matches nowhere. -/
theorem searchFrom_skip (re : Regex) (n : Nat) (X : Str) (pre : Str) :
    ∀ pos, (∀ u q, u ≠ [] → u <:+ pre →
        re.run ⟨q, u ++ X, List.replicate (n + 1) none⟩ some = none) →
      searchFrom re n pos (pre ++ X) = searchFrom re n (pos + pre.length) X := by
  induction pre with
  | nil => intro pos _; rfl
  | cons a pre ih =>
    intro pos h
    have h0 := h (a :: pre) pos (by simp) (List.suffix_refl _)
    simp only [List.cons_append] at h0
    simp only [List.cons_append, searchFrom, h0, List.append_eq]
    rw [ih (pos + 1) (fun u q hu hs => h u q hu (List.suffix_cons_iff.2 (Or.inr hs)))]
    congr 1
    simp only [List.length_cons]
    omega

/-- A tag `P` that starts inside `u` and runs into a following `[` lies within `u`,
when `[` occurs in `P` only at the start. -/
theorem prefix_of_prefix_append_bracket (P u X : Str) (hu : u ≠ [])
    (hP : ∀ a b : Str, a ≠ [] → P ≠ a ++ '[' :: b)
    (h : P <+: u ++ '[' :: X) : P <+: u := by
  rcases List.prefix_or_prefix_of_prefix h (List.prefix_append u ('[' :: X)) with h1 | h1
  · exact h1
  · obtain ⟨P2, rfl⟩ := h1
    rw [List.prefix_append_right_inj] at h
    cases P2 with
    | nil => simp
    | cons b P2 =>
      have hb : b = '[' := ((List.cons_prefix_cons).1 h).1
      subst hb
      exact absurd rfl (hP u P2 hu)

theorem rated_bracket (a b : Str) (ha : a ≠ []) : "[Rated ".toList ≠ a ++ '[' :: b := by
  intro h
  have hc := congrArg (List.count '[') h
  cases a with
  | nil => exact ha rfl
  | cons x a =>
    have hx : x = '[' := by
      have := congrArg List.head? h
      simpa using this.symm
    subst hx
    rw [show (List.count '[' "[Rated ".toList) = 1 by decide] at hc
    simp [List.count_append, List.count_cons] at hc

theorem notRated_bracket (a b : Str) (ha : a ≠ []) : "[Not Rated]".toList ≠ a ++ '[' :: b := by
  intro h
  have hc := congrArg (List.count '[') h
  cases a with
  | nil => exact ha rfl
  | cons x a =>
    have hx : x = '[' := by
      have := congrArg List.head? h
      simpa using this.symm
    subst hx
    rw [show (List.count '[' "[Not Rated]".toList) = 1 by decide] at hc
    simp [List.count_append, List.count_cons] at hc

/-- In front of a tag that follows a tag-free text `pre`, the rating pattern matches
nowhere. -/
theorem rating_none_before (pre X : Str) (h1 : ¬ "[Rated ".toList <:+: pre)
    (h2 : ¬ "[Not Rated]".toList <:+: pre) (u : Str) (q : Nat) (hu : u ≠ []) (hs : u <:+ pre)
    (caps : List (Option Str)) :
    ratingDescMatcher.run ⟨q, u ++ '[' :: X, caps⟩ some = none := by
  apply rating_run_none
  · intro h
    have := prefix_of_prefix_append_bracket _ u X hu rated_bracket h
    exact h1 (this.isInfix.trans hs.isInfix)
  · intro h
    have := prefix_of_prefix_append_bracket _ u X hu notRated_bracket h
    exact h2 (this.isInfix.trans hs.isInfix)

/-- The rating pattern on a text whose first tag is `[Rated <c>]`. -/
theorem rating_match_rated (pre c post : Str) (h1 : ¬ "[Rated ".toList <:+: pre)
    (h2 : ¬ "[Not Rated]".toList <:+: pre) (hc : c ≠ [])
    (hcb : ∀ x ∈ c, x ≠ ']') (hcn : ∀ x ∈ c, x ≠ '\n') :
    FindStringSubmatch ratingDescMatcher (pre ++ ("[Rated ".toList ++ c ++ ']' :: post))
      = ["[Rated ".toList ++ c ++ [']'], c] := by
  have hX : "[Rated ".toList ++ c ++ ']' :: post
      = '[' :: ("Rated ".toList ++ (c ++ ']' :: post)) := by simp
  have hrun : ∀ q, ratingDescMatcher.run
      ⟨q, '[' :: ("Rated ".toList ++ (c ++ ']' :: post)), List.replicate (1 + 1) none⟩ some
      = some ⟨q + ("[Rated ".toList ++ c ++ [']']).length, post, [none, some c]⟩ := by
    intro q
    simp only [ratingDescMatcher, seqs, run_cat, run_lit_cons]
    rw [run_alt_right _ _ _ _ (run_lits_none _ _ _ _ _ (by
      intro h
      have := (List.cons_prefix_cons.1 h).1
      revert this
      decide))]
    rw [run_cat, run_lits_append]
    apply run_cap_plus_lazy 1 isDot c _ hc (fun x hx => by simpa [isDot] using hcn x hx)
    · intro q2 x t c2 hx
      exact run_lit_ne ']' x (hcb x hx) _ _ _ _
    · rw [run_lit_cons]
      simp only [Option.some.injEq, MState.mk.injEq, true_and]
      refine ⟨?_, rfl⟩
      simp only [List.length_append, List.length_cons, List.length_nil, String.toList]
      omega
  have hskip := searchFrom_skip ratingDescMatcher 1
    ('[' :: ("Rated ".toList ++ (c ++ ']' :: post))) pre 0
    (fun u q hu hs => rating_none_before pre _ h1 h2 u q hu hs _)
  rw [hX]
  simp only [FindStringSubmatch, ratingDescMatcher_numSubexp, hskip,
    searchFrom_of_run _ _ _ _ _ (hrun _)]
  have e1 : 0 + pre.length + ("[Rated ".toList ++ c ++ [']']).length - (0 + pre.length)
      = ("[Rated ".toList ++ c ++ [']']).length := by omega
  have e2 : List.drop (0 + pre.length) (pre ++ '[' :: ("Rated ".toList ++ (c ++ ']' :: post)))
      = ("[Rated ".toList ++ c ++ [']']) ++ post := by
    rw [Nat.zero_add, List.drop_left]
    simp
  rw [e1, e2, List.take_left]
  rfl

/-- The rating pattern on a text whose first tag is `[Not Rated]`. -/
theorem rating_match_notRated (pre post : Str) (h1 : ¬ "[Rated ".toList <:+: pre)
    (h2 : ¬ "[Not Rated]".toList <:+: pre) :
    FindStringSubmatch ratingDescMatcher (pre ++ ("[Not Rated]".toList ++ post))
      = ["[Not Rated]".toList, []] := by
  have hX : "[Not Rated]".toList ++ post
      = '[' :: ("Not Rated".toList ++ (']' :: post)) := by simp
  have hrun : ∀ q, ratingDescMatcher.run
      ⟨q, '[' :: ("Not Rated".toList ++ (']' :: post)), List.replicate (1 + 1) none⟩ some
      = some ⟨q + "[Not Rated]".toList.length, post, [none, none]⟩ := by
    intro q
    simp only [ratingDescMatcher, seqs, run_cat, run_lit_cons]
    apply run_alt_left
    rw [run_lits_append, run_lit_cons]
    simp only [Option.some.injEq, MState.mk.injEq, true_and]
    refine ⟨?_, rfl⟩
    simp only [List.length_cons, List.length_nil, String.toList]
  have hskip := searchFrom_skip ratingDescMatcher 1
    ('[' :: ("Not Rated".toList ++ (']' :: post))) pre 0
    (fun u q hu hs => rating_none_before pre _ h1 h2 u q hu hs _)
  rw [hX]
  simp only [FindStringSubmatch, ratingDescMatcher_numSubexp, hskip,
    searchFrom_of_run _ _ _ _ _ (hrun _)]
  have e1 : 0 + pre.length + "[Not Rated]".toList.length - (0 + pre.length)
      = "[Not Rated]".toList.length := by omega
  have e2 : List.drop (0 + pre.length) (pre ++ '[' :: ("Not Rated".toList ++ (']' :: post)))
      = "[Not Rated]".toList ++ post := by
    rw [Nat.zero_add, List.drop_left]
    simp
  rw [e1, e2, List.take_left]
  rfl

/-! ## The stages of `Program.XMLTV` -/

theorem titleStage_desc (x : Extracted) : (titleStage x).desc = x.desc := by
  by_cases h : (FindStringSubmatch seasonEpisodeTitleMatcher x.title.Value).length > 1 <;>
    simp [titleStage, h]

theorem titleStage_of_match (x : Extracted) (m0 m1 m2 m3 : Str)
    (h : FindStringSubmatch seasonEpisodeTitleMatcher x.title.Value = [m0, m1, m2, m3]) :
    titleStage x = { x with title := { x.title with Value := TrimSpace m1 },
                            season := (Atoi m2).1, episode := (Atoi m3).1 } := by
  simp [titleStage, h]

theorem titleStage_of_nil (x : Extracted)
    (h : FindStringSubmatch seasonEpisodeTitleMatcher x.title.Value = []) :
    titleStage x = x := by
  simp [titleStage, h]

theorem descStage_title (x : Extracted) : (descStage x).title = x.title := by
  by_cases h : (FindStringSubmatch seasonEpisodeDescMatcher x.desc.Value).length > 1 <;>
    simp [descStage, h]

theorem descStage_of_match (x : Extracted) (m0 m1 m2 m3 : Str)
    (h : FindStringSubmatch seasonEpisodeDescMatcher x.desc.Value = [m0, m1, m2, m3]) :
    descStage x = { x with desc := { x.desc with Value := TrimSpace m3 },
                           season := (Atoi m1).1, episode := (Atoi m2).1 } := by
  simp [descStage, h]

theorem descStage_of_nil (x : Extracted)
    (h : FindStringSubmatch seasonEpisodeDescMatcher x.desc.Value = []) :
    descStage x = x := by
  simp [descStage, h]

/-- A non-nil result of one of the three patterns has more than one entry. -/
theorem length_gt_one_iff (re : Regex) (s : Str) (hn : 1 ≤ re.numSubexp) :
    (FindStringSubmatch re s).length > 1 ↔ FindStringSubmatch re s ≠ [] := by
  rcases FindStringSubmatch_length re s with h | h
  · simp [h]
  · constructor
    · intro _ h0
      rw [h0] at h
      simp at h
    · intro _
      omega

theorem appendProgramCategories_eq (cats : List xmltv.CommonElement) :
    ∀ acc : List xmltv.CommonElement, appendProgramCategories acc cats
      = acc ++ cats.filterMap (fun c => (programLabel c.Value).map
          (fun v => ({ Lang := [], Value := v } : xmltv.CommonElement))) := by
  induction cats with
  | nil => intro acc; simp [appendProgramCategories]
  | cons c cats ih =>
    intro acc
    unfold appendProgramCategories at ih ⊢
    rw [List.foldl_cons, ih]
    simp only [List.filterMap_cons, programLabel]
    by_cases h1 : c.Value = "HD Unknown".toList
    · simp only [h1, if_true, Option.map_some', List.append_assoc, List.singleton_append]
    · by_cases h2 : c.Value ≠ "category".toList ∧ c.Value ≠ "Other".toList
      · simp only [h1, h2, if_false, if_true, Option.map_some', List.append_assoc,
          List.singleton_append, ne_eq, not_false_eq_true, and_self]
      · simp only [h1, h2, if_false, Option.map_none']

/-- With a channel, `Program.XMLTV` returns the programme assembled from the stages. -/
theorem XMLTV_of_channel (p : Program) (cs : ChannelStatus) (ch : Channel)
    (hch : cs.Channel = some ch) :
    p.XMLTV cs = some
      { Titles := [(extract p).title]
        Descriptions := [(extract p).desc]
        Categories := withMovie (extract p).desc.Value (mergedCategories ch p)
        Start := some p.Start.Time
        Stop := some p.Stop.Time
        Live := if p.IsLive then some p.IsLive else none
        Channel := "stirr-".toList ++ p.Channel
        EpisodeNums := episodeNums (extract p).season (extract p).episode
        Ratings := if ratingOf (extract p).desc.Value ≠ [] then
          [{ Value := ratingOf (extract p).desc.Value }] else [] } := by
  simp only [Program.XMLTV, hch]

/-! ## Category normalization of program-sourced labels -/

/-- C1, as stated, fails: on the program-sourced labels `Movies`, `Other`,
`HD Unknown` and the empty label (channel without categories, description without
rating tag) `Program.XMLTV` emits `Movies`, `HD` and the empty label, whereas the
rules of the specification give `Movie`, `HD`. -/
theorem C1_program_labels_counterexample :
    ((exampleProgram "Show".toList "A film".toList
        ["Movies".toList, "Other".toList, "HD Unknown".toList, []]).XMLTV
      (exampleStatus [])).map (fun pg => pg.Categories.map (fun c => c.Value))
      = some ["Movies".toList, "HD".toList, []]
    ∧ specProgramLabels ["Movies".toList, "Other".toList, "HD Unknown".toList, []]
      = ["Movie".toList, "HD".toList]
    ∧ ((exampleProgram "Show".toList "A film".toList
        ["Movies".toList, "Other".toList, "HD Unknown".toList, []]).XMLTV
      (exampleStatus [])).map (fun pg => pg.Categories.map (fun c => c.Value))
      ≠ some (specProgramLabels ["Movies".toList, "Other".toList, "HD Unknown".toList, []]) := by
  refine ⟨by rfl, by decide, by decide⟩

/-- C1, amended: for a program whose channel has no categories and whose cleaned
description does not match the rating pattern, `Program.XMLTV` maps the raw category
list of the program, in order, by renaming `HD Unknown` to `HD` and dropping the labels
`category` and `Other`; every other label, `Movies` and the empty label included, is
kept as it is. -/
theorem C1_program_labels (p : Program) (cs : ChannelStatus) (ch : Channel)
    (hch : cs.Channel = some ch) (hcat : ch.Categories = [])
    (hrating : FindStringSubmatch ratingDescMatcher (extract p).desc.Value = []) :
    ∃ pg, p.XMLTV cs = some pg ∧
      pg.Categories.map (fun c => c.Value)
        = (p.Categories.map (fun c => c.Value)).filterMap programLabel := by
  refine ⟨_, XMLTV_of_channel p cs ch hch, ?_⟩
  simp only [withMovie, hrating, List.length_nil, gt_iff_lt, Nat.not_lt_zero, if_false,
    mergedCategories, hcat, appendChannelCategories, List.foldl_nil,
    appendProgramCategories_eq, List.nil_append, List.map_filterMap, List.filterMap_map]
  congr 1
  funext c
  simp only [Function.comp]
  cases h : programLabel c.Value <;> rfl

/-- C1, amended, at the labels of the counterexample. -/
theorem C1_program_labels_witness :
    ∃ pg, (exampleProgram "Show".toList "A film".toList
        ["Movies".toList, "Other".toList, "HD Unknown".toList, []]).XMLTV (exampleStatus [])
        = some pg ∧
      pg.Categories.map (fun c => c.Value)
        = ((exampleProgram "Show".toList "A film".toList
            ["Movies".toList, "Other".toList, "HD Unknown".toList, []]).Categories.map
              (fun c => c.Value)).filterMap programLabel :=
  C1_program_labels _ (exampleStatus []) _ rfl rfl (by decide)

/-! ## Season and episode in the description -/

/-- C2, as stated, fails: the description `E4 - Solo run` is cleaned to `- Solo run`
(the class `[: -]` takes the blank, the dash stays in the captured text), not to
`Solo run`. -/
theorem C2_dash_description_counterexample :
    ((exampleProgram "Show".toList "E4 - Solo run".toList []).XMLTV (exampleStatus [])).map
        (fun pg => pg.Descriptions.map (fun c => c.Value))
      = some ["- Solo run".toList]
    ∧ ((exampleProgram "Show".toList "E4 - Solo run".toList []).XMLTV (exampleStatus [])).map
        (fun pg => pg.Descriptions.map (fun c => c.Value))
      ≠ some [TrimSpace "Solo run".toList] := by
  refine ⟨by rfl, by decide⟩

/-- C2, amended: for every non-empty digit string `e` and every text `t` without
newline, a program whose description is `E<e> - <t>` (whatever its title) gets the
cleaned description `- <t>` with surrounding white space trimmed, that is, the dash is
kept; the season is 0 and the episode is the number read from `e` (its value when it
fits an `int`), and the episode code is the one of season 0 and that episode. -/
theorem C2_dash_description (p : Program) (cs : ChannelStatus) (ch : Channel) (e t : Str)
    (hch : cs.Channel = some ch) (he : e ≠ []) (hed : ∀ c ∈ e, isReDigit c = true)
    (ht : ∀ c ∈ t, c ≠ '\n')
    (hdesc : p.Description.Value = "E".toList ++ e ++ " - ".toList ++ t) :
    ∃ pg, p.XMLTV cs = some pg ∧
      pg.Descriptions = [{ p.Description with Value := TrimSpace ("- ".toList ++ t) }] ∧
      (extract p).season = 0 ∧
      (extract p).episode = (Atoi e).1 ∧
      (digitsVal e < 2 ^ 63 → (extract p).episode = digitsVal e) ∧
      pg.EpisodeNums = episodeNums 0 (Atoi e).1 := by
  have hm := desc_match_episode e ('-' :: ' ' :: t) ' ' he hed (by decide)
    (by
      intro c hc
      simp only [List.mem_cons] at hc
      rcases hc with rfl | rfl | hc
      · decide
      · decide
      · exact ht c hc)
    ⟨'-', by simp, by decide⟩
  have hd : (titleStage (initialVars p)).desc.Value = 'E' :: (e ++ ' ' :: '-' :: ' ' :: t) := by
    rw [titleStage_desc]
    simpa using hdesc
  rw [← hd] at hm
  have hx : extract p = _ := descStage_of_match _ _ _ _ _ hm
  have hdw : List.dropWhile isReSpace ('-' :: ' ' :: t) = '-' :: ' ' :: t := by
    rw [List.dropWhile_cons]
    rfl
  have hdesc2 : (extract p).desc = { p.Description with Value := TrimSpace ("- ".toList ++ t) } := by
    rw [hx]
    simp only [titleStage_desc, hdw]
    rfl
  have hseason : (extract p).season = 0 := by
    rw [hx]
    rfl
  have hep : (extract p).episode = (Atoi e).1 := by
    rw [hx]
  refine ⟨_, XMLTV_of_channel p cs ch hch, ?_, hseason, hep, ?_, ?_⟩
  · rw [hdesc2]
  · intro hfit
    rw [hep, Atoi_digits e he hed hfit]
  · rw [hseason, hep]

/-- C2, amended, at the description `E4 - Solo run`: description `- Solo run`,
season 0, episode 4, episode code `E4`. -/
theorem C2_dash_description_witness :
    ∃ pg, (exampleProgram "Show".toList "E4 - Solo run".toList []).XMLTV (exampleStatus [])
        = some pg ∧
      pg.Descriptions = [{ Lang := [], Value := "- Solo run".toList }] ∧
      (extract (exampleProgram "Show".toList "E4 - Solo run".toList [])).season = 0 ∧
      (extract (exampleProgram "Show".toList "E4 - Solo run".toList [])).episode = 4 ∧
      pg.EpisodeNums = [{ System := "onscreen".toList, Value := "E4".toList }] := by
  obtain ⟨pg, h1, h2, h3, h4, _, h6⟩ := C2_dash_description
    (exampleProgram "Show".toList "E4 - Solo run".toList []) (exampleStatus []) _
    "4".toList "Solo run".toList rfl (by decide) (by decide) (by decide) rfl
  exact ⟨pg, h1, h2, h3, h4, h6⟩

/-- C3: for every description of the form `["S" s [sep]] "E" e d rest`, where `s` and
`e` are non-empty digit strings that fit an `int`, the season part is optional, `sep`
is absent or one of the characters `[ :,]`, `d` is one of `[: -]`, and `rest` has no
newline and is not all white space, `Program.XMLTV` emits the description
`TrimSpace rest`, takes the episode from `e` and the season from `s`, 0 when the season
part is absent. -/
theorem C3_description_pattern (p : Program) (cs : ChannelStatus) (ch : Channel)
    (hasSeason : Bool) (s sep e rest : Str) (d : Char)
    (hch : cs.Channel = some ch)
    (hs : hasSeason = true → s ≠ [] ∧ (∀ c ∈ s, isReDigit c = true) ∧ digitsVal s < 2 ^ 63 ∧
      (sep = [] ∨ ∃ x, isSeasonSep x = true ∧ sep = [x]))
    (he : e ≠ []) (hed : ∀ c ∈ e, isReDigit c = true) (hefit : digitsVal e < 2 ^ 63)
    (hd : isEpisodeSep d = true)
    (hrn : ∀ c ∈ rest, c ≠ '\n') (hrs : ∃ c ∈ rest, isReSpace c = false)
    (hdesc : p.Description.Value
      = (if hasSeason then "S".toList ++ s ++ sep else []) ++ "E".toList ++ e ++ [d] ++ rest) :
    ∃ pg, p.XMLTV cs = some pg ∧
      pg.Descriptions = [{ p.Description with Value := TrimSpace rest }] ∧
      (extract p).episode = digitsVal e ∧
      (extract p).season = (if hasSeason then (digitsVal s : Int) else 0) ∧
      pg.EpisodeNums
        = episodeNums (if hasSeason then (digitsVal s : Int) else 0) (digitsVal e) := by
  have hx : extract p = { (titleStage (initialVars p)) with
      desc := { p.Description with Value := TrimSpace rest },
      season := (if hasSeason then (digitsVal s : Int) else 0),
      episode := (digitsVal e : Int) } := by
    cases hasSeason with
    | false =>
      have hm := desc_match_episode e rest d he hed hd hrn hrs
      have hd2 : (titleStage (initialVars p)).desc.Value = 'E' :: (e ++ d :: rest) := by
        rw [titleStage_desc]
        simpa using hdesc
      rw [← hd2] at hm
      have h := descStage_of_match _ _ _ _ _ hm
      rw [extract, h, Atoi_digits e he hed hefit, TrimSpace_dropWhile_isReSpace, titleStage_desc]
      rfl
    | true =>
      obtain ⟨hs1, hs2, hs3, hs4⟩ := hs rfl
      have hm := desc_match_season s sep e rest d hs1 hs2 hs4 he hed hd hrn hrs
      have hd2 : (titleStage (initialVars p)).desc.Value = 'S' :: (s ++ (sep ++ 'E' :: (e ++ d :: rest))) := by
        rw [titleStage_desc]
        simpa using hdesc
      rw [← hd2] at hm
      have h := descStage_of_match _ _ _ _ _ hm
      rw [extract, h, Atoi_digits e he hed hefit, Atoi_digits s hs1 hs2 hs3,
        TrimSpace_dropWhile_isReSpace, titleStage_desc]
      rfl
  refine ⟨_, XMLTV_of_channel p cs ch hch, ?_, ?_, ?_, ?_⟩
  · rw [hx]
  · rw [hx]
  · rw [hx]
  · rw [hx]

/-- C3 at the description `S3E10: A rescue mission`: description `A rescue mission`,
season 3, episode 10. -/
theorem C3_description_pattern_witness :
    ∃ pg, (exampleProgram "Show".toList "S3E10: A rescue mission".toList []).XMLTV
        (exampleStatus []) = some pg ∧
      pg.Descriptions = [{ Lang := [], Value := "A rescue mission".toList }] ∧
      (extract (exampleProgram "Show".toList "S3E10: A rescue mission".toList [])).episode = 10 ∧
      (extract (exampleProgram "Show".toList "S3E10: A rescue mission".toList [])).season = 3 ∧
      pg.EpisodeNums = [{ System := "onscreen".toList, Value := "S3E10".toList }] :=
  C3_description_pattern (exampleProgram "Show".toList "S3E10: A rescue mission".toList [])
    (exampleStatus []) _ true "3".toList [] "10".toList " A rescue mission".toList ':' rfl
    (fun _ => ⟨by decide, by decide, by decide, Or.inl rfl⟩) (by decide) (by decide) (by decide)
    (by decide) (by decide) ⟨'A', by decide, by decide⟩ rfl

/-! ## Season and episode in the title -/

/-- C4: for every name without newline and every pair of non-empty digit strings `s`,
`e` that fit an `int`, a program whose title is `<name> (S<s>,E<e>)` and whose
description does not match the description pattern gets the single title
`TrimSpace name`, the season `s` and the episode `e`. -/
theorem C4_title_pattern (p : Program) (cs : ChannelStatus) (ch : Channel) (name s e : Str)
    (hch : cs.Channel = some ch) (hname : ∀ c ∈ name, c ≠ '\n')
    (hs : s ≠ []) (hsd : ∀ c ∈ s, isReDigit c = true) (hsfit : digitsVal s < 2 ^ 63)
    (he : e ≠ []) (hed : ∀ c ∈ e, isReDigit c = true) (hefit : digitsVal e < 2 ^ 63)
    (htitle : p.Title.Value = name ++ " (S".toList ++ s ++ ",E".toList ++ e ++ ")".toList)
    (hdesc : FindStringSubmatch seasonEpisodeDescMatcher p.Description.Value = []) :
    ∃ pg, p.XMLTV cs = some pg ∧
      pg.Titles = [{ p.Title with Value := TrimSpace name }] ∧
      (extract p).season = digitsVal s ∧
      (extract p).episode = digitsVal e := by
  have hm := title_match name s e hname hs hsd he hed
  rw [← htitle] at hm
  have ht := titleStage_of_match (initialVars p) _ _ _ _ hm
  have hd : FindStringSubmatch seasonEpisodeDescMatcher (titleStage (initialVars p)).desc.Value
      = [] := by
    rw [titleStage_desc]
    exact hdesc
  have hx : extract p = titleStage (initialVars p) := descStage_of_nil _ hd
  rw [ht, Atoi_digits s hs hsd hsfit, Atoi_digits e he hed hefit, TrimSpace_append_space] at hx
  refine ⟨_, XMLTV_of_channel p cs ch hch, ?_, ?_, ?_⟩
  · rw [hx]
    rfl
  · rw [hx]
  · rw [hx]

/-- C4 at the title `Big Show (S2,E5)`: title `Big Show`, season 2, episode 5. -/
theorem C4_title_pattern_witness :
    ∃ pg, (exampleProgram "Big Show (S2,E5)".toList "A show".toList []).XMLTV (exampleStatus [])
        = some pg ∧
      pg.Titles = [{ Lang := [], Value := "Big Show".toList }] ∧
      (extract (exampleProgram "Big Show (S2,E5)".toList "A show".toList [])).season = 2 ∧
      (extract (exampleProgram "Big Show (S2,E5)".toList "A show".toList [])).episode = 5 :=
  C4_title_pattern (exampleProgram "Big Show (S2,E5)".toList "A show".toList [])
    (exampleStatus []) _ "Big Show".toList "2".toList "5".toList rfl (by decide) (by decide)
    (by decide) (by decide) (by decide) (by decide) (by decide) rfl (by decide)

/-! ## The rating -/

theorem ratingOf_of_match (desc m0 m1 : Str)
    (h : FindStringSubmatch ratingDescMatcher desc = [m0, m1]) :
    ratingOf desc = (if (if m1 = [] then m0 else m1) = "[Not Rated]".toList then "NR".toList
      else (if m1 = [] then m0 else m1)) := by
  simp only [ratingOf, h, List.length_cons, List.length_nil]
  rfl

/-- C5: for every cleaned description `pre ++ "[Rated " ++ c ++ "]" ++ post`, where `c`
is non-empty and contains neither `]` nor a newline and `pre` contains neither
`[Rated ` nor `[Not Rated]`, `Program.XMLTV` emits exactly one rating, of value `c`;
and for every cleaned description `pre ++ "[Not Rated]" ++ post` with the same
condition on `pre`, exactly one rating, of value `NR`. -/
theorem C5_rating (p : Program) (cs : ChannelStatus) (ch : Channel)
    (pre tag post code : Str) (hch : cs.Channel = some ch)
    (h1 : ¬ "[Rated ".toList <:+: pre) (h2 : ¬ "[Not Rated]".toList <:+: pre)
    (htag : (tag = "[Rated ".toList ++ code ++ "]".toList ∧ code ≠ [] ∧
        (∀ x ∈ code, x ≠ ']') ∧ (∀ x ∈ code, x ≠ '\n'))
      ∨ (tag = "[Not Rated]".toList ∧ code = "NR".toList))
    (hdesc : (extract p).desc.Value = pre ++ tag ++ post) :
    ∃ pg, p.XMLTV cs = some pg ∧ pg.Ratings = [{ Value := code }] := by
  have hr : ratingOf (extract p).desc.Value = code ∧ code ≠ [] := by
    rcases htag with ⟨rfl, hc, hcb, hcn⟩ | ⟨rfl, rfl⟩
    · have hm := rating_match_rated pre code post h1 h2 hc hcb hcn
      have e : pre ++ ("[Rated ".toList ++ code ++ "]".toList) ++ post
          = pre ++ ("[Rated ".toList ++ code ++ ']' :: post) := by simp
      rw [hdesc, e, ratingOf_of_match _ _ _ hm]
      have hne : code ≠ "[Not Rated]".toList := by
        intro h
        exact hcb ']' (by rw [h]; decide) rfl
      simp only [hc, if_false, hne]
      exact ⟨trivial, hc⟩
    · have hm := rating_match_notRated pre post h1 h2
      have e : pre ++ "[Not Rated]".toList ++ post = pre ++ ("[Not Rated]".toList ++ post) := by
        simp
      rw [hdesc, e, ratingOf_of_match _ _ _ hm]
      exact ⟨by simp, by decide⟩
  refine ⟨_, XMLTV_of_channel p cs ch hch, ?_⟩
  simp only [hr.1, hr.2, ne_eq, not_false_eq_true, if_true]

/-- C5 at the descriptions `A film [Rated PG-13].` and `A film [Not Rated].`: the
ratings `PG-13` and `NR`. -/
theorem C5_rating_witness :
    (∃ pg, (exampleProgram "Show".toList "A film [Rated PG-13].".toList []).XMLTV
        (exampleStatus []) = some pg ∧ pg.Ratings = [{ Value := "PG-13".toList }])
    ∧ (∃ pg, (exampleProgram "Show".toList "A film [Not Rated].".toList []).XMLTV
        (exampleStatus []) = some pg ∧ pg.Ratings = [{ Value := "NR".toList }]) :=
  ⟨C5_rating (exampleProgram "Show".toList "A film [Rated PG-13].".toList [])
      (exampleStatus []) _ "A film ".toList "[Rated PG-13]".toList ".".toList "PG-13".toList
      rfl (by decide) (by decide)
      (Or.inl ⟨by decide, by decide, by decide, by decide⟩) (by decide),
   C5_rating (exampleProgram "Show".toList "A film [Not Rated].".toList [])
      (exampleStatus []) _ "A film ".toList "[Not Rated]".toList ".".toList "NR".toList
      rfl (by decide) (by decide) (Or.inr ⟨rfl, rfl⟩) (by decide)⟩

/-! ## The rating and the category `Movie` -/

/-- C6: with `M` the merged category list of the channel and the program, the output
categories are `M` when the cleaned description does not match the rating pattern;
when it matches, they are `M` if `M` already has a label equal to `Movie` and
`M ++ [Movie]` otherwise. Hence a rating match puts `Movie` in the output, and the
number of `Movie` labels in the output is the one in `M`, or one when `M` has none. -/
theorem C6_movie_insertion (p : Program) (cs : ChannelStatus) (ch : Channel)
    (hch : cs.Channel = some ch) :
    ∃ pg, p.XMLTV cs = some pg ∧
      (FindStringSubmatch ratingDescMatcher (extract p).desc.Value = [] →
        pg.Categories = mergedCategories ch p) ∧
      (FindStringSubmatch ratingDescMatcher (extract p).desc.Value ≠ [] →
        pg.Categories
          = (if "Movie".toList ∈ (mergedCategories ch p).map (fun c => c.Value)
              then mergedCategories ch p
              else mergedCategories ch p ++ [{ Lang := [], Value := "Movie".toList }])
        ∧ "Movie".toList ∈ pg.Categories.map (fun c => c.Value)
        ∧ (pg.Categories.map (fun c => c.Value)).count "Movie".toList
          = max 1 (((mergedCategories ch p).map (fun c => c.Value)).count "Movie".toList)) := by
  refine ⟨_, XMLTV_of_channel p cs ch hch, ?_, ?_⟩
  · intro h
    simp [withMovie, h]
  · intro h
    dsimp only
    have hlen := (length_gt_one_iff ratingDescMatcher (extract p).desc.Value
      (by rw [ratingDescMatcher_numSubexp])).2 h
    have hany : (mergedCategories ch p).any (fun cat => decide (cat.Value = "Movie".toList)) = true
        ↔ "Movie".toList ∈ (mergedCategories ch p).map (fun c => c.Value) := by
      simp only [List.any_eq_true, decide_eq_true_eq, List.mem_map]
    by_cases hM : "Movie".toList ∈ (mergedCategories ch p).map (fun c => c.Value)
    · have hw : withMovie (extract p).desc.Value (mergedCategories ch p) = mergedCategories ch p := by
        simp only [withMovie, hlen, if_true, hany.2 hM, Bool.not_true, Bool.false_eq_true, if_false]
      have hpos := List.count_pos_iff.2 hM
      refine ⟨?_, ?_, ?_⟩
      · rw [hw, if_pos hM]
      · rw [hw]
        exact hM
      · rw [hw]
        omega
    · have hf : (mergedCategories ch p).any (fun cat => decide (cat.Value = "Movie".toList)) = false := by
        cases hb : (mergedCategories ch p).any (fun cat => decide (cat.Value = "Movie".toList)) with
        | false => rfl
        | true => exact absurd (hany.1 hb) hM
      have hw : withMovie (extract p).desc.Value (mergedCategories ch p)
          = mergedCategories ch p ++ [{ Lang := [], Value := "Movie".toList }] := by
        simp only [withMovie, hlen, if_true, hf, Bool.not_false]
      refine ⟨?_, ?_, ?_⟩
      · rw [hw, if_neg hM]
      · rw [hw]
        simp
      · rw [hw, List.map_append, List.count_append, List.count_eq_zero.2 hM]
        rfl

/-- C6 at a rated program on a channel with the category `Movies`: the channel label
is renamed to `Movie`, the rating matches, and no second `Movie` is appended; on a
channel with the category `News` the label `Movie` is appended. -/
theorem C6_movie_insertion_witness :
    (∃ pg, (exampleProgram "Show".toList "[Rated PG] A film".toList []).XMLTV
        (exampleStatus ["Movies".toList]) = some pg ∧
      pg.Categories.map (fun c => c.Value) = ["Movie".toList])
    ∧ (∃ pg, (exampleProgram "Show".toList "[Rated PG] A film".toList []).XMLTV
        (exampleStatus ["News".toList]) = some pg ∧
      pg.Categories.map (fun c => c.Value) = ["News".toList, "Movie".toList]) := by
  constructor
  · obtain ⟨pg, h1, _, h3⟩ := C6_movie_insertion
      (exampleProgram "Show".toList "[Rated PG] A film".toList [])
      (exampleStatus ["Movies".toList]) _ rfl
    refine ⟨pg, h1, ?_⟩
    rw [(h3 (by decide)).1]
    rfl
  · obtain ⟨pg, h1, _, h3⟩ := C6_movie_insertion
      (exampleProgram "Show".toList "[Rated PG] A film".toList [])
      (exampleStatus ["News".toList]) _ rfl
    refine ⟨pg, h1, ?_⟩
    rw [(h3 (by decide)).1]
    rfl

/-! ## The episode code -/

/-- C7: with the season and the episode that `Program.XMLTV` extracted, the episode
numbers of the programme are one `onscreen` entry `S<season>E<episode>` when both are
positive, one `onscreen` entry `E<episode>` when the season is 0 and the episode is
positive, and none when the episode is 0, whatever the season. The pairs (0,0), (0,7)
and (2,5) give no code, `E7` and `S2E5`, and the title `Show (S3,E0)` gives no code. -/
theorem C7_episode_code (p : Program) (cs : ChannelStatus) (ch : Channel)
    (hch : cs.Channel = some ch) :
    ∃ pg, p.XMLTV cs = some pg ∧
      (0 < (extract p).season ∧ 0 < (extract p).episode →
        pg.EpisodeNums.map (fun n => (n.System, n.Value)) = [("onscreen".toList,
          "S".toList ++ Itoa (extract p).season ++ "E".toList ++ Itoa (extract p).episode)]) ∧
      ((extract p).season = 0 ∧ 0 < (extract p).episode →
        pg.EpisodeNums.map (fun n => (n.System, n.Value)) = [("onscreen".toList,
          "E".toList ++ Itoa (extract p).episode)]) ∧
      ((extract p).episode = 0 → pg.EpisodeNums = []) ∧
      episodeNums 0 0 = [] ∧
      (episodeNums 0 7).map (fun n => (n.System, n.Value)) = [("onscreen".toList, "E7".toList)] ∧
      (episodeNums 2 5).map (fun n => (n.System, n.Value))
        = [("onscreen".toList, "S2E5".toList)] ∧
      ((exampleProgram "Show (S3,E0)".toList [] []).XMLTV (exampleStatus [])).map
        (fun pg => pg.EpisodeNums) = some [] := by
  refine ⟨_, XMLTV_of_channel p cs ch hch, ?_, ?_, ?_, by decide, by decide, by decide, by rfl⟩
  · intro h
    simp only [episodeNums, gt_iff_lt, h.1, h.2, and_self, if_true, List.map_cons, List.map_nil]
  · intro h
    simp only [episodeNums, gt_iff_lt, h.1, h.2, Int.lt_irrefl, false_and, if_false, if_true,
      List.map_cons, List.map_nil]
  · intro h
    simp only [episodeNums, gt_iff_lt, h, Int.lt_irrefl, and_false, if_false]

/-- C7 at the title `Big Show (S2,E5)`: the single episode number `S2E5`. -/
theorem C7_episode_code_witness :
    ∃ pg, (exampleProgram "Big Show (S2,E5)".toList [] []).XMLTV (exampleStatus []) = some pg ∧
      pg.EpisodeNums.map (fun n => (n.System, n.Value))
        = [("onscreen".toList, "S2E5".toList)] := by
  obtain ⟨pg, h1, h2, _⟩ := C7_episode_code (exampleProgram "Big Show (S2,E5)".toList [] [])
    (exampleStatus []) _ rfl
  exact ⟨pg, h1, h2 (by decide)⟩

/-! ## The description stage runs after the title stage -/

/-- C8: when the title matches the title pattern and the description matches the
description pattern, the season and the episode of the episode code are the ones read
in the groups of the description match alone, the season being 0 when the season group
of the description is empty, and the output title is the cleaned title of the title
match. -/
theorem C8_description_overwrites (p : Program) (cs : ChannelStatus) (ch : Channel)
    (hch : cs.Channel = some ch) (ht : titleMatches p ≠ []) (hd : descMatches p ≠ []) :
    ∃ pg, p.XMLTV cs = some pg ∧
      pg.EpisodeNums = episodeNums (Atoi ((descMatches p).getD 1 [])).1
        (Atoi ((descMatches p).getD 2 [])).1 ∧
      ((descMatches p).getD 1 [] = [] → (extract p).season = 0) ∧
      pg.Titles.map (fun c => c.Value) = [TrimSpace ((titleMatches p).getD 1 [])] ∧
      pg.Descriptions.map (fun c => c.Value) = [TrimSpace ((descMatches p).getD 3 [])] := by
  have htl := (length_gt_one_iff seasonEpisodeTitleMatcher p.Title.Value
    (by rw [seasonEpisodeTitleMatcher_numSubexp]; decide)).2 ht
  have hdl := (length_gt_one_iff seasonEpisodeDescMatcher p.Description.Value
    (by rw [seasonEpisodeDescMatcher_numSubexp]; decide)).2 hd
  have hdl2 : (FindStringSubmatch seasonEpisodeDescMatcher
      (initialVars p).desc.Value).length > 1 := hdl
  have hseason : (extract p).season = (Atoi ((descMatches p).getD 1 [])).1 := by
    simp only [extract, descStage, titleStage_desc, hdl2, if_true]
    rfl
  have hepisode : (extract p).episode = (Atoi ((descMatches p).getD 2 [])).1 := by
    simp only [extract, descStage, titleStage_desc, hdl2, if_true]
    rfl
  have htitle : (extract p).title.Value = TrimSpace ((titleMatches p).getD 1 []) := by
    have htl2 : (FindStringSubmatch seasonEpisodeTitleMatcher
        (initialVars p).title.Value).length > 1 := htl
    simp only [extract, descStage_title, titleStage, htl2, if_true]
    rfl
  have hdescr : (extract p).desc.Value = TrimSpace ((descMatches p).getD 3 []) := by
    simp only [extract, descStage, titleStage_desc, hdl2, if_true]
    rfl
  refine ⟨_, XMLTV_of_channel p cs ch hch, ?_, ?_, ?_, ?_⟩
  · rw [hseason, hepisode]
  · intro h
    rw [hseason, h]
    rfl
  · simp only [List.map_cons, List.map_nil, htitle]
  · simp only [List.map_cons, List.map_nil, hdescr]

/-- C8 at the title `Show (S2,E5)` with the description `E4: Pilot`: title `Show`,
description `Pilot`, episode code `E4`. -/
theorem C8_description_overwrites_witness :
    ∃ pg, (exampleProgram "Show (S2,E5)".toList "E4: Pilot".toList []).XMLTV (exampleStatus [])
        = some pg ∧
      pg.EpisodeNums = episodeNums 0 4 ∧
      (episodeNums 0 4).map (fun n => n.Value) = ["E4".toList] ∧
      (extract (exampleProgram "Show (S2,E5)".toList "E4: Pilot".toList [])).season = 0 ∧
      pg.Titles.map (fun c => c.Value) = ["Show".toList] ∧
      pg.Descriptions.map (fun c => c.Value) = ["Pilot".toList] := by
  obtain ⟨pg, h1, h2, h3, h4, h5⟩ := C8_description_overwrites
    (exampleProgram "Show (S2,E5)".toList "E4: Pilot".toList []) (exampleStatus []) _ rfl
    (by decide) (by decide)
  exact ⟨pg, h1, h2, by decide, h3 (by decide), h4, h5⟩

/-! ## An end-to-end scenario -/

/-- C9: for the program with title `News (S1,E1)`, description
`[Rated TV-14] Top stories`, no categories of its own, on a channel with the categories
`News` and `Other`, `Program.XMLTV` returns a programme with the titles `News`, the
descriptions `[Rated TV-14] Top stories`, the one episode number `S1E1`, the one rating
`TV-14` and the categories `News`, `Movie`. -/
theorem C9_end_to_end :
    (exampleProgram "News (S1,E1)".toList "[Rated TV-14] Top stories".toList []).XMLTV
        (exampleStatus ["News".toList, "Other".toList])
      = some
        { Titles := [{ Lang := [], Value := "News".toList }]
          Descriptions := [{ Lang := [], Value := "[Rated TV-14] Top stories".toList }]
          Categories := [{ Lang := [], Value := "News".toList },
            { Lang := [], Value := "Movie".toList }]
          EpisodeNums := [{ System := "onscreen".toList, Value := "S1E1".toList }]
          Ratings := [{ Value := "TV-14".toList }]
          Start := some { unix := 0, nsec := 0 }
          Stop := some { unix := 0, nsec := 0 }
          Live := none
          Channel := "stirr-c1".toList } := by
  rfl

/-! ## The calendar of package `time` -/

theorem absYearDay_cycles (a b c e yday secs : Nat) (hb : b ≤ 3) (hc : c ≤ 24) (he : e ≤ 3)
    (hyd : yday ≤ 365) (hlast : yday = 365 → e = 3 ∧ (c = 24 → b = 3)) (hsecs : secs < 86400) :
    absYearDay ((146097 * a + 36524 * b + 1461 * c + 365 * e + yday) * 86400 + secs)
      = (((400 * a + 100 * b + 4 * c + e : Nat) : Int) + absoluteZeroYear, yday) := by
  have e1 : secondsPerDay = 86400 := rfl
  have e2 : daysPer400Years = 146097 := rfl
  have e3 : daysPer100Years = 36524 := rfl
  have e4 : daysPer4Years = 1461 := rfl
  have h0 : ((146097 * a + 36524 * b + 1461 * c + 365 * e + yday) * 86400 + secs) / 86400
      = 146097 * a + 36524 * b + 1461 * c + 365 * e + yday := by omega
  have h1 : (146097 * a + 36524 * b + 1461 * c + 365 * e + yday) / 146097 = a := by omega
  have h2 : 146097 * a + 36524 * b + 1461 * c + 365 * e + yday - 146097 * a
      = 36524 * b + 1461 * c + 365 * e + yday := by omega
  have h3 : (36524 * b + 1461 * c + 365 * e + yday) / 36524
      - (36524 * b + 1461 * c + 365 * e + yday) / 36524 / 4 = b := by
    by_cases hy : yday = 365 ∧ c = 24
    · obtain ⟨hy1, hy2⟩ := hy
      have := hlast hy1
      have hb3 : b = 3 := this.2 hy2
      have he3 : e = 3 := this.1
      subst hy1 hy2 hb3 he3
      rfl
    · have hlt : 1461 * c + 365 * e + yday < 36524 := by omega
      have : (36524 * b + 1461 * c + 365 * e + yday) / 36524 = b := by omega
      rw [this]
      omega
  have h4 : 36524 * b + 1461 * c + 365 * e + yday - 36524 * b = 1461 * c + 365 * e + yday := by
    omega
  have h5 : (1461 * c + 365 * e + yday) / 1461 = c := by omega
  have h6 : 1461 * c + 365 * e + yday - 1461 * c = 365 * e + yday := by omega
  have h7 : (365 * e + yday) / 365 - (365 * e + yday) / 365 / 4 = e := by
    by_cases hy : yday = 365
    · have he3 : e = 3 := (hlast hy).1
      subst hy he3
      rfl
    · have : (365 * e + yday) / 365 = e := by omega
      rw [this]
      omega
  have h8 : 365 * e + yday - 365 * e = yday := by omega
  simp only [absYearDay, e1, e2, e3, e4, h0, h1, h2, h3, h4, h5, h6, h7, h8]

theorem isLeap_iff (v : Nat) :
    isLeap (v : Int) = true ↔ (v % 4 = 0 ∧ (v % 100 ≠ 0 ∨ v % 400 = 0)) := by
  simp only [isLeap, Bool.and_eq_true, Bool.or_eq_true, beq_iff_eq, bne_iff_ne, ne_eq]
  omega

theorem daysSinceEpoch_cycles (v : Nat) :
    ∃ a b c e, b ≤ 3 ∧ c ≤ 24 ∧ e ≤ 3 ∧ v + 292277022399 = 400 * a + 100 * b + 4 * c + e ∧
      daysSinceEpoch (v : Int) = 146097 * a + 36524 * b + 1461 * c + 365 * e := by
  have hY : ((v : Int) - absoluteZeroYear).toNat = v + 292277022399 := by
    simp only [absoluteZeroYear]
    omega
  refine ⟨(v + 292277022399) / 400,
    ((v + 292277022399) - 400 * ((v + 292277022399) / 400)) / 100,
    ((v + 292277022399) - 400 * ((v + 292277022399) / 400)
      - 100 * (((v + 292277022399) - 400 * ((v + 292277022399) / 400)) / 100)) / 4,
    ((v + 292277022399) - 400 * ((v + 292277022399) / 400)
      - 100 * (((v + 292277022399) - 400 * ((v + 292277022399) / 400)) / 100))
      - 4 * (((v + 292277022399) - 400 * ((v + 292277022399) / 400)
      - 100 * (((v + 292277022399) - 400 * ((v + 292277022399) / 400)) / 100)) / 4),
    by omega, by omega, by omega, by omega, ?_⟩
  simp only [daysSinceEpoch, hY]
  rfl

theorem yday_bound (v yday : Nat)
    (hyday : yday < (if isLeap (v : Int) then 366 else 365)) :
    yday ≤ 365 ∧ (yday = 365 → (v % 4 = 0 ∧ (v % 100 ≠ 0 ∨ v % 400 = 0))) := by
  have hleap := isLeap_iff v
  by_cases hl : isLeap (v : Int) = true
  · simp only [hl, if_true] at hyday
    exact ⟨by omega, fun _ => hleap.1 hl⟩
  · simp only [hl, Bool.false_eq_true, if_false] at hyday
    exact ⟨by omega, fun h => by omega⟩

theorem leap_cycles (v a b c e : Nat) (hb : b ≤ 3) (he : e ≤ 3)
    (hY : v + 292277022399 = 400 * a + 100 * b + 4 * c + e)
    (h : v % 4 = 0 ∧ (v % 100 ≠ 0 ∨ v % 400 = 0)) : e = 3 ∧ (c = 24 → b = 3) := by
  constructor
  · omega
  · intro hc24
    omega

theorem year_of_cycles (v a b c e : Nat)
    (hY : v + 292277022399 = 400 * a + 100 * b + 4 * c + e) :
    ((400 * a + 100 * b + 4 * c + e : Nat) : Int) + absoluteZeroYear = (v : Int) := by
  unfold absoluteZeroYear
  omega

/-- The year and the day of the year are read back from the second count of a day
`yday` of the year `v`. -/
theorem absYearDay_daysSinceEpoch (v yday secs : Nat) (hsecs : secs < 86400)
    (hyday : yday < (if isLeap (v : Int) then 366 else 365)) :
    absYearDay ((daysSinceEpoch (v : Int) + yday) * secondsPerDay + secs) = ((v : Int), yday) := by
  obtain ⟨a, b, c, e, hb, hc, he, hY, hd⟩ := daysSinceEpoch_cycles v
  have hyd := yday_bound v yday hyday
  have hlast : yday = 365 → e = 3 ∧ (c = 24 → b = 3) :=
    fun h => leap_cycles v a b c e hb he hY (hyd.2 h)
  rw [hd, show secondsPerDay = 86400 from rfl,
    absYearDay_cycles a b c e yday secs hb hc he hyd.1 hlast hsecs, year_of_cycles v a b c e hY]

theorem monthDay_of_yday (leap : Bool) (mo d : Nat) (hmo1 : 1 ≤ mo) (hmo2 : mo ≤ 12)
    (hd1 : 1 ≤ d)
    (hd2 : d ≤ (if mo == 2 && leap then 29
      else daysBefore.getD mo 0 - daysBefore.getD (mo - 1) 0)) :
    monthDay leap (daysBefore.getD (mo - 1) 0
        + (if leap && decide (3 ≤ mo) then 1 else 0) + (d - 1)) = (mo, d)
    ∧ daysBefore.getD (mo - 1) 0 + (if leap && decide (3 ≤ mo) then 1 else 0) + (d - 1)
        < (if leap then 366 else 365) := by
  cases leap <;> interval_cases mo <;>
    simp only [daysBefore, List.getD_cons_succ, List.getD_cons_zero, Bool.and_false,
      Bool.and_true, Bool.false_eq_true, if_false, if_true, beq_self_eq_true,
      Nat.reduceBEq, Nat.reduceSub, Nat.reduceLeDiff, decide_True, decide_False,
      Bool.false_and, Bool.true_and] at hd2 ⊢ <;>
    interval_cases d <;> exact ⟨rfl, by decide⟩

theorem absClock_of_fields (D h mi se : Nat) (hh : h < 24) (hmi : mi < 60) (hse : se < 60) :
    absClock (D * secondsPerDay + (h * 3600 + mi * 60 + se)) = (h, mi, se) := by
  have e1 : secondsPerDay = 86400 := rfl
  have h1 : (D * 86400 + (h * 3600 + mi * 60 + se)) % 86400 = h * 3600 + mi * 60 + se := by
    omega
  have h2 : (h * 3600 + mi * 60 + se) / 3600 = h := by omega
  have h3 : h * 3600 + mi * 60 + se - h * 3600 = mi * 60 + se := by omega
  have h4 : (mi * 60 + se) / 60 = mi := by omega
  have h5 : mi * 60 + se - mi * 60 = se := by omega
  simp only [absClock, e1, h1, h2, h3, h4, h5]

theorem Date_abs (year : Int) (month day hour min sec nsec : Nat) :
    (Date year month day hour min sec nsec).abs
      = (daysSinceEpoch year + daysBefore.getD (month - 1) 0
          + (if isLeap year && decide (3 ≤ month) then 1 else 0) + (day - 1)) * secondsPerDay
        + (hour * 3600 + min * 60 + sec) := by
  simp only [Date, Time.abs, Int.sub_add_cancel, Int.toNat_ofNat]

/-! ## Digits -/

theorem isReDigit_cases (c : Char) (h : isReDigit c = true) :
    c = '0' ∨ c = '1' ∨ c = '2' ∨ c = '3' ∨ c = '4' ∨ c = '5' ∨ c = '6' ∨ c = '7' ∨ c = '8'
      ∨ c = '9' := by
  simp only [isReDigit, Bool.and_eq_true, decide_eq_true_eq] at h
  have h1 : 48 ≤ c.toNat := h.1
  have h2 : c.toNat ≤ 57 := h.2
  have hc : c = Char.ofNat c.toNat := (Char.ofNat_toNat c).symm
  generalize c.toNat = n at h1 h2 hc
  subst hc
  interval_cases n <;> decide

theorem digitVal_lt (c : Char) (h : isReDigit c = true) : digitVal c < 10 := by
  rcases isReDigit_cases c h with rfl | rfl | rfl | rfl | rfl | rfl | rfl | rfl | rfl | rfl <;>
    decide

theorem ofNat_digitVal (c : Char) (h : isReDigit c = true) :
    Char.ofNat (48 + digitVal c) = c := by
  rcases isReDigit_cases c h with rfl | rfl | rfl | rfl | rfl | rfl | rfl | rfl | rfl | rfl <;>
    decide

theorem appendIntLoop_step (f u q r : Nat) (buf : Str) (hu : u = q * 10 + r) (hr : r < 10) :
    appendIntLoop (f + 1) u buf
      = if 1 ≤ q then appendIntLoop f q (Char.ofNat (48 + r) :: buf)
        else Char.ofNat (48 + r) :: buf := by
  subst hu
  by_cases hq : 1 ≤ q
  · have h1 : 10 ≤ q * 10 + r := by omega
    have h2 : (q * 10 + r) / 10 = q := by omega
    have h3 : q * 10 + r - q * 10 = r := by omega
    simp only [appendIntLoop, h1, if_true, h2, h3, hq]
  · have h0 : q = 0 := by omega
    subst h0
    have h1 : ¬ 10 ≤ r := by omega
    simp only [appendIntLoop, Nat.zero_mul, Nat.zero_add, h1, if_false, hq]

theorem appendInt_two (d1 d2 : Nat) (h1 : d1 < 10) (h2 : d2 < 10) :
    appendInt (d1 * 10 + d2) 2 = [Char.ofNat (48 + d1), Char.ofNat (48 + d2)] := by
  have e : appendIntLoop 20 (d1 * 10 + d2) []
      = if 1 ≤ d1 then [Char.ofNat (48 + d1), Char.ofNat (48 + d2)]
        else [Char.ofNat (48 + d2)] := by
    rw [appendIntLoop_step 19 _ d1 d2 [] rfl h2]
    by_cases hq : 1 ≤ d1
    · rw [if_pos hq, if_pos hq, appendIntLoop_step 18 d1 0 d1 _ (by omega) h1]
      rfl
    · rw [if_neg hq, if_neg hq]
  unfold appendInt
  rw [e]
  by_cases hq : 1 ≤ d1
  · rw [if_pos hq]
    rfl
  · have h0 : d1 = 0 := by omega
    subst h0
    rfl

theorem appendInt_four (d1 d2 d3 d4 : Nat) (h1 : d1 < 10) (h2 : d2 < 10) (h3 : d3 < 10)
    (h4 : d4 < 10) :
    appendInt (((d1 * 10 + d2) * 10 + d3) * 10 + d4) 4
      = [Char.ofNat (48 + d1), Char.ofNat (48 + d2), Char.ofNat (48 + d3),
          Char.ofNat (48 + d4)] := by
  unfold appendInt
  rw [appendIntLoop_step 19 _ ((d1 * 10 + d2) * 10 + d3) d4 [] rfl h4]
  by_cases hq3 : 1 ≤ (d1 * 10 + d2) * 10 + d3
  · rw [if_pos hq3, appendIntLoop_step 18 _ (d1 * 10 + d2) d3 _ rfl h3]
    by_cases hq2 : 1 ≤ d1 * 10 + d2
    · rw [if_pos hq2, appendIntLoop_step 17 _ d1 d2 _ rfl h2]
      by_cases hq1 : 1 ≤ d1
      · rw [if_pos hq1, appendIntLoop_step 16 d1 0 d1 _ (by omega) h1]
        rfl
      · have h0 : d1 = 0 := by omega
        subst h0
        rfl
    · have h0 : d1 = 0 ∧ d2 = 0 := by omega
      obtain ⟨rfl, rfl⟩ := h0
      rfl
  · have h0 : d1 = 0 ∧ d2 = 0 ∧ d3 = 0 := by omega
    obtain ⟨rfl, rfl, rfl⟩ := h0
    rfl

/-! ## Parsing and formatting a timestamp -/

/-- Formatting the time that `Date` builds from fields in calendar range gives the
fields back, zero-padded. -/
theorem Format_Date (v mo d h mi se ns : Nat) (hmo1 : 1 ≤ mo) (hmo2 : mo ≤ 12)
    (hd1 : 1 ≤ d) (hd2 : d ≤ daysIn mo (v : Int)) (hh : h < 24) (hmi : mi < 60)
    (hse : se < 60) :
    (Date (v : Int) mo d h mi se ns).Format
      = appendInt v 4 ++ appendInt mo 2 ++ appendInt d 2 ++ appendInt h 2 ++ appendInt mi 2
        ++ appendInt se 2 := by
  have hdin : d ≤ (if mo == 2 && isLeap (v : Int) then 29
      else daysBefore.getD mo 0 - daysBefore.getD (mo - 1) 0) := hd2
  obtain ⟨hmd, hyd⟩ := monthDay_of_yday (isLeap (v : Int)) mo d hmo1 hmo2 hd1 hdin
  have habs := Date_abs (v : Int) mo d h mi se ns
  have hsecs : h * 3600 + mi * 60 + se < 86400 := by omega
  have hre : daysSinceEpoch (v : Int) + daysBefore.getD (mo - 1) 0
        + (if isLeap (v : Int) && decide (3 ≤ mo) then 1 else 0) + (d - 1)
      = daysSinceEpoch (v : Int) + (daysBefore.getD (mo - 1) 0
        + (if isLeap (v : Int) && decide (3 ≤ mo) then 1 else 0) + (d - 1)) := by
    simp only [Nat.add_assoc]
  have hyd2 := absYearDay_daysSinceEpoch v _ _ hsecs hyd
  have hclock := absClock_of_fields (daysSinceEpoch (v : Int) + (daysBefore.getD (mo - 1) 0
        + (if isLeap (v : Int) && decide (3 ≤ mo) then 1 else 0) + (d - 1))) h mi se hh hmi hse
  have hneg : ¬ ((v : Int) < 0) := by omega
  simp only [Time.Format, absDate, habs, hre, hyd2, hclock, hmd, hneg, if_false, Int.toNat_ofNat]

theorem Trim_quote_digits (s : Str) (hdig : ∀ c ∈ s, isReDigit c = true) :
    Trim s ['"'] = s := by
  have hq : ∀ c ∈ s, (['"'].contains c) = false := by
    intro c hc
    have := isReDigit_ne c '"' (hdig c hc) (by decide)
    simp [this]
  unfold Trim
  have h1 : s.dropWhile (fun c => ['"'].contains c) = s := by
    cases s with
    | nil => rfl
    | cons a t =>
      rw [List.dropWhile_cons, hq a (by simp)]
      rfl
  rw [h1, List.rdropWhile_eq_self_iff]
  intro hl
  rw [hq _ (List.getLast_mem hl)]
  simp

theorem exists_cons_of_length (s : Str) (n : Nat) (h : s.length = n + 1) :
    ∃ a t, s = a :: t ∧ t.length = n := by
  cases s with
  | nil => simp at h
  | cons a t => exact ⟨a, t, rfl, by simpa using h⟩

theorem length_fourteen (s : Str) (h : s.length = 14) :
    ∃ a1 a2 a3 a4 a5 a6 a7 a8 a9 a10 a11 a12 a13 a14,
      s = [a1, a2, a3, a4, a5, a6, a7, a8, a9, a10, a11, a12, a13, a14] := by
  obtain ⟨a1, t1, rfl, h1⟩ := exists_cons_of_length s 13 h
  obtain ⟨a2, t2, rfl, h2⟩ := exists_cons_of_length t1 12 h1
  obtain ⟨a3, t3, rfl, h3⟩ := exists_cons_of_length t2 11 h2
  obtain ⟨a4, t4, rfl, h4⟩ := exists_cons_of_length t3 10 h3
  obtain ⟨a5, t5, rfl, h5⟩ := exists_cons_of_length t4 9 h4
  obtain ⟨a6, t6, rfl, h6⟩ := exists_cons_of_length t5 8 h5
  obtain ⟨a7, t7, rfl, h7⟩ := exists_cons_of_length t6 7 h6
  obtain ⟨a8, t8, rfl, h8⟩ := exists_cons_of_length t7 6 h7
  obtain ⟨a9, t9, rfl, h9⟩ := exists_cons_of_length t8 5 h8
  obtain ⟨a10, t10, rfl, h10⟩ := exists_cons_of_length t9 4 h9
  obtain ⟨a11, t11, rfl, h11⟩ := exists_cons_of_length t10 3 h10
  obtain ⟨a12, t12, rfl, h12⟩ := exists_cons_of_length t11 2 h11
  obtain ⟨a13, t13, rfl, h13⟩ := exists_cons_of_length t12 1 h12
  obtain ⟨a14, t14, rfl, h14⟩ := exists_cons_of_length t13 0 h13
  have hnil : t14 = [] := List.length_eq_zero.1 h14
  subst hnil
  exact ⟨a1, a2, a3, a4, a5, a6, a7, a8, a9, a10, a11, a12, a13, a14, rfl⟩

theorem getnum_two (a b : Char) (t : Str) (ha : isReDigit a = true) (hb : isReDigit b = true)
    (fixed : Bool) : getnum (a :: b :: t) fixed = some (digitVal a * 10 + digitVal b, t) := by
  simp [getnum, ha, isDigitAt, hb]

theorem Parse_fourteen (y1 y2 y3 y4 m1 m2 d1 d2 h1 h2 i1 i2 s1 s2 : Char)
    (hy1 : isReDigit y1 = true) (hy2 : isReDigit y2 = true) (hy3 : isReDigit y3 = true)
    (hy4 : isReDigit y4 = true) (hm1 : isReDigit m1 = true) (hm2 : isReDigit m2 = true)
    (hd1 : isReDigit d1 = true) (hd2 : isReDigit d2 = true) (hh1 : isReDigit h1 = true)
    (hh2 : isReDigit h2 = true) (hi1 : isReDigit i1 = true) (hi2 : isReDigit i2 = true)
    (hs1 : isReDigit s1 = true) (hs2 : isReDigit s2 = true)
    (hmo1 : 1 ≤ digitVal m1 * 10 + digitVal m2) (hmo2 : digitVal m1 * 10 + digitVal m2 ≤ 12)
    (hda1 : 1 ≤ digitVal d1 * 10 + digitVal d2)
    (hda2 : digitVal d1 * 10 + digitVal d2 ≤ daysIn (digitVal m1 * 10 + digitVal m2)
      ((((digitVal y1 * 10 + digitVal y2) * 10 + digitVal y3) * 10 + digitVal y4 : Nat) : Int))
    (hho : digitVal h1 * 10 + digitVal h2 < 24) (hmi : digitVal i1 * 10 + digitVal i2 < 60)
    (hse : digitVal s1 * 10 + digitVal s2 < 60) :
    Parse [y1, y2, y3, y4, m1, m2, d1, d2, h1, h2, i1, i2, s1, s2]
      = .ok (Date ((((digitVal y1 * 10 + digitVal y2) * 10 + digitVal y3) * 10 + digitVal y4
          : Nat) : Int) (digitVal m1 * 10 + digitVal m2) (digitVal d1 * 10 + digitVal d2)
          (digitVal h1 * 10 + digitVal h2) (digitVal i1 * 10 + digitVal i2)
          (digitVal s1 * 10 + digitVal s2) 0) := by
  have hyear : digitsVal (List.take 4 [y1, y2, y3, y4, m1, m2, d1, d2, h1, h2, i1, i2, s1, s2])
      = ((digitVal y1 * 10 + digitVal y2) * 10 + digitVal y3) * 10 + digitVal y4 := by
    simp [digitsVal]
  have c1 : ¬ (digitVal m1 * 10 + digitVal m2 = 0) := by omega
  have c2 : ¬ (12 < digitVal m1 * 10 + digitVal m2) := by omega
  have c3 : ¬ (24 ≤ digitVal h1 * 10 + digitVal h2) := by omega
  have c4 : ¬ (60 ≤ digitVal i1 * 10 + digitVal i2) := by omega
  have c5 : ¬ (60 ≤ digitVal s1 * 10 + digitVal s2) := by omega
  have c6 : ¬ (digitVal d1 * 10 + digitVal d2 < 1) := by omega
  have c7 : ¬ (daysIn (digitVal m1 * 10 + digitVal m2)
      ((((digitVal y1 * 10 + digitVal y2) * 10 + digitVal y3) * 10 + digitVal y4 : Nat) : Int)
      < digitVal d1 * 10 + digitVal d2) := by omega
  unfold Parse
  rw [hyear]
  simp [isDigitAt, hy1, hy2, hy3, hy4, getnum_two, hm1, hm2, hd1, hd2, hh1, hh2, hi1, hi2,
    hs1, hs2, c1, c2, c3, c4, c5, c6, c7]
  exact_mod_cast hda2

/-- C10: for every string `s` of 14 decimal digits `YYYYMMDDHHMMSS` whose month is in
1..12, whose day is in 1..(days of that month in that year), whose hour is below 24 and
whose minute and second are below 60, `StirrTime.UnmarshalJSON` succeeds on `s` and
`StirrTime.MarshalJSON` of the result is `s`. -/
theorem C10_timestamp_round_trip (s : Str) (hlen : s.length = 14)
    (hdig : ∀ c ∈ s, isReDigit c = true)
    (hmonth : 1 ≤ digitsVal ((s.drop 4).take 2) ∧ digitsVal ((s.drop 4).take 2) ≤ 12)
    (hday : 1 ≤ digitsVal ((s.drop 6).take 2) ∧
      digitsVal ((s.drop 6).take 2)
        ≤ daysIn (digitsVal ((s.drop 4).take 2)) ((digitsVal (s.take 4) : Nat) : Int))
    (hhour : digitsVal ((s.drop 8).take 2) < 24)
    (hminute : digitsVal ((s.drop 10).take 2) < 60)
    (hsecond : digitsVal ((s.drop 12).take 2) < 60) :
    ∃ t, StirrTime.UnmarshalJSON s = .ok t ∧ StirrTime.MarshalJSON t = s := by
  have htrim := Trim_quote_digits s hdig
  obtain ⟨y1, y2, y3, y4, m1, m2, d1, d2, h1, h2, i1, i2, s1, s2, rfl⟩ := length_fourteen s hlen
  simp only [List.drop_succ_cons, List.drop_zero, List.take_succ_cons, List.take_zero, digitsVal,
    List.foldl_cons, List.foldl_nil, Nat.zero_mul, Nat.zero_add]
    at hmonth hday hhour hminute hsecond
  have hy1 := hdig y1 (by simp)
  have hy2 := hdig y2 (by simp)
  have hy3 := hdig y3 (by simp)
  have hy4 := hdig y4 (by simp)
  have hm1 := hdig m1 (by simp)
  have hm2 := hdig m2 (by simp)
  have hd1 := hdig d1 (by simp)
  have hd2 := hdig d2 (by simp)
  have hh1 := hdig h1 (by simp)
  have hh2 := hdig h2 (by simp)
  have hi1 := hdig i1 (by simp)
  have hi2 := hdig i2 (by simp)
  have hs1 := hdig s1 (by simp)
  have hs2 := hdig s2 (by simp)
  have hparse := Parse_fourteen y1 y2 y3 y4 m1 m2 d1 d2 h1 h2 i1 i2 s1 s2 hy1 hy2 hy3 hy4 hm1 hm2
    hd1 hd2 hh1 hh2 hi1 hi2 hs1 hs2 hmonth.1 hmonth.2 hday.1 hday.2 hhour hminute hsecond
  have hun : StirrTime.UnmarshalJSON [y1, y2, y3, y4, m1, m2, d1, d2, h1, h2, i1, i2, s1, s2]
      = .ok (StirrTime.mk (Date ((((digitVal y1 * 10 + digitVal y2) * 10 + digitVal y3) * 10
          + digitVal y4 : Nat) : Int) (digitVal m1 * 10 + digitVal m2)
          (digitVal d1 * 10 + digitVal d2) (digitVal h1 * 10 + digitVal h2)
          (digitVal i1 * 10 + digitVal i2) (digitVal s1 * 10 + digitVal s2) 0)) := by
    simp only [StirrTime.UnmarshalJSON, htrim, hparse]
  refine ⟨_, hun, ?_⟩
  simp only [StirrTime.MarshalJSON]
  rw [Format_Date _ _ _ _ _ _ _ hmonth.1 hmonth.2 hday.1 hday.2 hhour hminute hsecond,
    appendInt_four _ _ _ _ (digitVal_lt y1 hy1) (digitVal_lt y2 hy2) (digitVal_lt y3 hy3)
      (digitVal_lt y4 hy4),
    appendInt_two _ _ (digitVal_lt m1 hm1) (digitVal_lt m2 hm2),
    appendInt_two _ _ (digitVal_lt d1 hd1) (digitVal_lt d2 hd2),
    appendInt_two _ _ (digitVal_lt h1 hh1) (digitVal_lt h2 hh2),
    appendInt_two _ _ (digitVal_lt i1 hi1) (digitVal_lt i2 hi2),
    appendInt_two _ _ (digitVal_lt s1 hs1) (digitVal_lt s2 hs2),
    ofNat_digitVal y1 hy1, ofNat_digitVal y2 hy2, ofNat_digitVal y3 hy3, ofNat_digitVal y4 hy4,
    ofNat_digitVal m1 hm1, ofNat_digitVal m2 hm2, ofNat_digitVal d1 hd1, ofNat_digitVal d2 hd2,
    ofNat_digitVal h1 hh1, ofNat_digitVal h2 hh2, ofNat_digitVal i1 hi1, ofNat_digitVal i2 hi2,
    ofNat_digitVal s1 hs1, ofNat_digitVal s2 hs2]
  rfl

/-- C10 at the timestamps `20210422030000` and `20240229235959` (a leap day). -/
theorem C10_timestamp_round_trip_witness :
    (∃ t, StirrTime.UnmarshalJSON "20210422030000".toList = .ok t ∧
      StirrTime.MarshalJSON t = "20210422030000".toList)
    ∧ (∃ t, StirrTime.UnmarshalJSON "20240229235959".toList = .ok t ∧
      StirrTime.MarshalJSON t = "20240229235959".toList) :=
  ⟨C10_timestamp_round_trip "20210422030000".toList (by decide) (by decide) (by decide)
      (by decide) (by decide) (by decide) (by decide),
   C10_timestamp_round_trip "20240229235959".toList (by decide) (by decide) (by decide)
      (by decide) (by decide) (by decide) (by decide)⟩

/-! ## `ChannelStatus.M3ULine` and `ChannelStatus.XMLTV` -/

theorem removeChar_of_not_mem (s : Str) (c : Char) (h : c ∉ s) : removeChar s c = s := by
  unfold removeChar
  rw [List.filter_eq_self]
  intro a ha
  have : a ≠ c := fun e => h (e ▸ ha)
  simpa using this

theorem not_mem_removeChar (s : Str) (c : Char) : c ∉ removeChar s c := by
  unfold removeChar
  intro h
  have := (List.mem_filter.1 h).2
  simp at this

/-- C12: for every channel status with id `i`, logo address `l`, title `t` and stream
link `u`, where `i`, `l` and `t` have no newline, `ChannelStatus.M3ULine` returns
`#EXTINF:0 channel-id="i" tvg-logo="l" tvg-name="t", t`, a newline, and `u`. -/
theorem C12_m3u_line (c : ChannelStatus) (hid : '\n' ∉ c.ID)
    (hlogo : '\n' ∉ c.RssChannelItemMediaContentLogo.URL) (htitle : '\n' ∉ c.RssChannelTitle) :
    c.M3ULine = "#EXTINF:0 channel-id=\"".toList ++ c.ID ++ "\" tvg-logo=\"".toList
      ++ c.RssChannelItemMediaContentLogo.URL ++ "\" tvg-name=\"".toList ++ c.RssChannelTitle
      ++ "\", ".toList ++ c.RssChannelTitle ++ "\n".toList ++ c.RssChannelItemLink := by
  have hj : Join (headerPieces c) " ".toList
      = "#EXTINF:0 channel-id=\"".toList ++ c.ID ++ "\" tvg-logo=\"".toList
        ++ c.RssChannelItemMediaContentLogo.URL ++ "\" tvg-name=\"".toList ++ c.RssChannelTitle
        ++ "\"".toList := by
    simp [Join, headerPieces, List.intercalate]
  have hn : '\n' ∉ Join (headerPieces c) " ".toList := by
    rw [hj]
    simp only [List.mem_append, not_or]
    refine ⟨⟨⟨⟨⟨⟨by decide, hid⟩, by decide⟩, hlogo⟩, by decide⟩, htitle⟩, by decide⟩
  unfold ChannelStatus.M3ULine cleanedHeader
  rw [removeChar_of_not_mem _ _ hn, hj]
  simp

/-- C12 at the channel `c1` with logo `http://l/x.png`, title `News One` and link
`http://s/1.m3u8`. -/
theorem C12_m3u_line_witness :
    (exampleChannelStatus "c1".toList "http://l/x.png".toList "News One".toList
        "http://s/1.m3u8".toList).M3ULine
      = ("#EXTINF:0 channel-id=\"c1\" tvg-logo=\"http://l/x.png\" tvg-name=\"News One\", "
          ++ "News One\nhttp://s/1.m3u8").toList := by
  have h := C12_m3u_line (exampleChannelStatus "c1".toList "http://l/x.png".toList
    "News One".toList "http://s/1.m3u8".toList) (by decide) (by decide) (by decide)
  rw [h]
  decide

/-- C13 fails on the code: with the title `A`, newline, `B` the line that
`ChannelStatus.M3ULine` returns has the newline of the title in the header segment,
that is, in front of the newline that precedes the stream link: the title is cleaned
inside `tvg-name` but put in raw after the comma. -/
theorem C13_header_newline_failing_input :
    (exampleChannelStatus "c1".toList "l".toList "A\nB".toList "u".toList).M3ULine
      = "#EXTINF:0 channel-id=\"c1\" tvg-logo=\"l\" tvg-name=\"AB\", A\nB".toList
        ++ "\n".toList ++ "u".toList
    ∧ '\n' ∈ "#EXTINF:0 channel-id=\"c1\" tvg-logo=\"l\" tvg-name=\"AB\", A\nB".toList := by
  refine ⟨by rfl, by decide⟩

/-- The header up to the comma has no newline, whatever the id, the logo address and
the title. -/
theorem cleanedHeader_no_newline (c : ChannelStatus) : '\n' ∉ cleanedHeader c :=
  not_mem_removeChar _ _

/-- C17: `ChannelStatus.XMLTV` returns a channel with the id of the status, exactly
two display names, the trimmed title and then the decimal number, and exactly one icon
with the logo address as source, width 340 and height 255, whatever the size of the
logo. -/
theorem C17_guide_channel (c : ChannelStatus) :
    c.XMLTV.ID = c.ID ∧
    c.XMLTV.DisplayNames.map (fun n => n.Value) = [TrimSpace c.RssChannelTitle, Itoa c.Number] ∧
    c.XMLTV.Icons.map (fun i => (i.Source, i.Width, i.Height))
      = [(c.RssChannelItemMediaContentLogo.URL, 340, 255)] ∧
    (exampleChannelStatus "c1".toList "l".toList " News ".toList "u".toList).XMLTV
      = { DisplayNames := [{ Lang := [], Value := "News".toList },
                           { Lang := [], Value := "7".toList }]
          Icons := [{ Source := "l".toList, Width := 340, Height := 255 }]
          ID := "c1".toList } :=
  ⟨rfl, rfl, rfl, by decide⟩

/-! ## The merge of the two category sources -/

theorem appendChannelCategories_eq (cats : List Category) :
    ∀ acc : List xmltv.CommonElement, appendChannelCategories acc cats
      = acc ++ cats.filterMap (fun c => (channelLabel c.Name).map
          (fun v => ({ Lang := [], Value := v } : xmltv.CommonElement))) := by
  induction cats with
  | nil => intro acc; simp [appendChannelCategories]
  | cons c cats ih =>
    intro acc
    unfold appendChannelCategories at ih ⊢
    rw [List.foldl_cons, ih]
    simp only [List.filterMap_cons, channelLabel]
    by_cases h1 : ((if c.Name = "Movies".toList then "Movie".toList else c.Name) = [] ∨
        (if c.Name = "Movies".toList then "Movie".toList else c.Name) = "Other".toList)
    · simp only [h1, if_true, Option.map_none']
    · simp only [h1, if_false, Option.map_some', List.append_assoc, List.singleton_append]

theorem channelLabel_values (names : List Str) :
    names.filterMap channelLabel = specChannelLabels names := by
  induction names with
  | nil => rfl
  | cons n names ih =>
    unfold specChannelLabels at ih ⊢
    simp only [List.filterMap_cons, List.map_cons, List.filter_cons, channelLabel]
    generalize (if n = "Movies".toList then "Movie".toList else n) = m
    by_cases h1 : m = [] ∨ m = "Other".toList
    · have h2 : ¬ (m ≠ [] ∧ m ≠ "Other".toList) := by
        intro h; rcases h1 with h1 | h1
        · exact h.1 h1
        · exact h.2 h1
      simp only [h1, if_true, h2, decide_False, Bool.false_eq_true, if_false, ih]
    · have h2 : (m ≠ [] ∧ m ≠ "Other".toList) :=
        ⟨fun h => h1 (Or.inl h), fun h => h1 (Or.inr h)⟩
      rw [if_neg h1, if_pos (decide_eq_true h2)]
      simp only [ih]

theorem programLabel_of_plain (v : Str) (h : v ∉ specialLabels) : programLabel v = some v := by
  simp only [specialLabels, List.mem_cons, List.not_mem_nil, or_false, not_or] at h
  obtain ⟨_, h2, h3, h4, _⟩ := h
  simp only [programLabel, h4, if_false, ne_eq, h3, not_false_eq_true, h2, and_self, if_true]

theorem withMovie_of_nil (desc : Str) (cats : List xmltv.CommonElement)
    (h : FindStringSubmatch ratingDescMatcher desc = []) : withMovie desc cats = cats := by
  simp [withMovie, h]

theorem ratingOf_of_nil (desc : Str)
    (h : FindStringSubmatch ratingDescMatcher desc = []) : ratingOf desc = [] := by
  simp [ratingOf, h]

/-! ## The assembly of the programme -/

/-- C18: for every program `p` and channel status with a channel record, the programme
that `Program.XMLTV` returns has the channel reference `stirr-` followed by
`p.Channel`, exactly one title and exactly one description, a live indicator that is
present if and only if `p.IsLive` is true, and a rating list that is non-empty if and
only if the extracted rating is non-empty, and then has exactly that one element. -/
theorem C18_programme_assembly (p : Program) (cs : ChannelStatus) (ch : Channel)
    (hch : cs.Channel = some ch) :
    ∃ pg, p.XMLTV cs = some pg ∧
      pg.Channel = "stirr-".toList ++ p.Channel ∧
      pg.Titles.length = 1 ∧ pg.Descriptions.length = 1 ∧
      (pg.Live.isSome = true ↔ p.IsLive = true) ∧
      (pg.Ratings ≠ [] ↔ ratingOf (extract p).desc.Value ≠ []) ∧
      (pg.Ratings ≠ [] → pg.Ratings = [{ Value := ratingOf (extract p).desc.Value }]) := by
  refine ⟨_, XMLTV_of_channel p cs ch hch, rfl, rfl, rfl, ?_, ?_, ?_⟩
  · dsimp only
    cases p.IsLive <;> simp
  · dsimp only
    by_cases h : ratingOf (extract p).desc.Value ≠ []
    · simp [h]
    · simp [h]
  · dsimp only
    intro h
    by_cases h2 : ratingOf (extract p).desc.Value ≠ []
    · rw [if_pos h2]
    · rw [if_neg h2] at h
      exact absurd rfl h

/-- C18 at a program on the channel `c1` with the description `A film [Rated PG]`. -/
theorem C18_programme_assembly_witness :
    ∃ pg, (exampleProgram "Show".toList "A film [Rated PG]".toList []).XMLTV (exampleStatus [])
        = some pg ∧
      pg.Channel = "stirr-c1".toList ∧
      pg.Titles.length = 1 ∧ pg.Descriptions.length = 1 ∧
      (pg.Live.isSome = true ↔ false = true) ∧
      (pg.Ratings ≠ [] ↔ ratingOf "A film [Rated PG]".toList ≠ []) ∧
      (pg.Ratings ≠ [] → pg.Ratings = [{ Value := ratingOf "A film [Rated PG]".toList }]) :=
  C18_programme_assembly (exampleProgram "Show".toList "A film [Rated PG]".toList [])
    (exampleStatus [])
    { DisplayName := [], IconSrc := [], ID := "c1".toList, Categories := [] } rfl

/-! ## No season and no episode -/

theorem episodeNums_zero : episodeNums 0 0 = [] := by decide

/-! ## Running the stages a second time -/

/-- C14, as stated, fails: the title `A (S1,E2) (S3,E4)` is cleaned to `A (S1,E2)`,
which the title pattern matches again; on the program with the emitted title and
description `Program.XMLTV` emits the title `A` and the episode code `S1E2`. -/
theorem C14_idempotence_counterexample :
    ((exampleProgram "A (S1,E2) (S3,E4)".toList "A report".toList []).XMLTV
        (exampleStatus [])).map (fun pg => pg.Titles.map (fun c => c.Value))
      = some ["A (S1,E2)".toList]
    ∧ ((renormalized (exampleProgram "A (S1,E2) (S3,E4)".toList "A report".toList [])).XMLTV
        (exampleStatus [])).map
          (fun pg => (pg.Titles.map (fun c => c.Value), pg.EpisodeNums.map (fun n => n.Value)))
      = some (["A".toList], ["S1E2".toList]) := by
  refine ⟨by rfl, by rfl⟩

/-- C14, amended: for every program `p` such that the title and the description that
`Program.XMLTV` emits for `p` match the title pattern and the description pattern no
more, the program `p` with its title and description replaced by the emitted ones
gets the same title and the same description again, season 0 and episode 0, and no
episode number. -/
theorem C14_idempotence (p : Program) (cs : ChannelStatus) (ch : Channel)
    (hch : cs.Channel = some ch)
    (ht : FindStringSubmatch seasonEpisodeTitleMatcher (extract p).title.Value = [])
    (hd : FindStringSubmatch seasonEpisodeDescMatcher (extract p).desc.Value = []) :
    ∃ pg pg2, p.XMLTV cs = some pg ∧ (renormalized p).XMLTV cs = some pg2 ∧
      pg2.Titles = pg.Titles ∧ pg2.Descriptions = pg.Descriptions ∧
      pg2.EpisodeNums = [] ∧
      (extract (renormalized p)).season = 0 ∧ (extract (renormalized p)).episode = 0 := by
  have hx : extract (renormalized p)
      = { title := (extract p).title, desc := (extract p).desc, season := 0, episode := 0 } := by
    have h0 : initialVars (renormalized p)
        = { title := (extract p).title, desc := (extract p).desc, season := 0, episode := 0 } :=
      rfl
    have h1 : titleStage (initialVars (renormalized p)) = initialVars (renormalized p) := by
      apply titleStage_of_nil
      rw [h0]; exact ht
    have h2 : descStage (initialVars (renormalized p)) = initialVars (renormalized p) := by
      apply descStage_of_nil
      rw [h0]; exact hd
    rw [extract, h1, h2, h0]
  refine ⟨_, _, XMLTV_of_channel p cs ch hch, XMLTV_of_channel (renormalized p) cs ch hch,
    ?_, ?_, ?_, ?_, ?_⟩
  · dsimp only; rw [hx]
  · dsimp only; rw [hx]
  · dsimp only; rw [hx]; exact episodeNums_zero
  · rw [hx]
  · rw [hx]

/-- C14 at the title `Show (S1,E2)` and the description `E3: A report`, which are
cleaned to `Show` and `A report`. -/
theorem C14_idempotence_witness :
    ∃ pg pg2, (exampleProgram "Show (S1,E2)".toList "E3: A report".toList []).XMLTV
        (exampleStatus []) = some pg ∧
      (renormalized (exampleProgram "Show (S1,E2)".toList "E3: A report".toList [])).XMLTV
        (exampleStatus []) = some pg2 ∧
      pg2.Titles = pg.Titles ∧ pg2.Descriptions = pg.Descriptions ∧
      pg2.EpisodeNums = [] ∧
      (extract (renormalized
        (exampleProgram "Show (S1,E2)".toList "E3: A report".toList []))).season = 0 ∧
      (extract (renormalized
        (exampleProgram "Show (S1,E2)".toList "E3: A report".toList []))).episode = 0 :=
  C14_idempotence (exampleProgram "Show (S1,E2)".toList "E3: A report".toList [])
    (exampleStatus [])
    { DisplayName := [], IconSrc := [], ID := "c1".toList, Categories := [] } rfl
    (by rfl) (by rfl)

/-! ## Every captured text is a part of the input -/

/-- The state of a match attempt on the text `T` is sound: the remaining text is a
suffix of `T` and every captured text is a contiguous part of `T`. -/
theorem starK_parts (T : Str) (body : MState → (MState → Option MState) → Option MState)
    (hbody : ∀ st k r, body st k = some r → st.rest <:+ T →
      (∀ m, some m ∈ st.caps → m <:+: T) →
      ∃ st2, k st2 = some r ∧ st2.rest <:+ T ∧ (∀ m, some m ∈ st2.caps → m <:+: T))
    (g : Bool) (n : Nat) :
    ∀ st k r, starK body g n st k = some r → st.rest <:+ T →
      (∀ m, some m ∈ st.caps → m <:+: T) →
      ∃ st2, k st2 = some r ∧ st2.rest <:+ T ∧ (∀ m, some m ∈ st2.caps → m <:+: T) := by
  induction n with
  | zero =>
    intro st k r h hs hc
    exact ⟨st, h, hs, hc⟩
  | succ n ih =>
    intro st k r h hs hc
    have hmore : ∀ r, body st (fun st2 => if st.pos < st2.pos then starK body g n st2 k else none)
        = some r →
        ∃ st2, k st2 = some r ∧ st2.rest <:+ T ∧ (∀ m, some m ∈ st2.caps → m <:+: T) := by
      intro r hr
      obtain ⟨s1, h1, hs1, hc1⟩ := hbody _ _ _ hr hs hc
      by_cases hp : st.pos < s1.pos
      · simp only [hp, if_true] at h1
        exact ih _ _ _ h1 hs1 hc1
      · simp [hp] at h1
    cases g with
    | true =>
      simp only [starK, if_true] at h
      cases hb : body st (fun st2 => if st.pos < st2.pos then starK body true n st2 k else none) with
      | some r2 =>
        rw [hb] at h
        cases h
        exact hmore _ hb
      | none =>
        rw [hb] at h
        exact ⟨st, h, hs, hc⟩
    | false =>
      simp only [starK] at h
      cases hk : k st with
      | some r2 =>
        rw [hk] at h
        simp at h
        cases h
        exact ⟨st, hk, hs, hc⟩
      | none =>
        rw [hk] at h
        simp at h
        exact hmore _ h

theorem run_parts (T : Str) (re : Regex) :
    ∀ st k r, re.run st k = some r → st.rest <:+ T →
      (∀ m, some m ∈ st.caps → m <:+: T) →
      ∃ st2, k st2 = some r ∧ st2.rest <:+ T ∧ (∀ m, some m ∈ st2.caps → m <:+: T) := by
  induction re with
  | cls p =>
    intro st k r h hs hc
    obtain ⟨pos, rest, caps⟩ := st
    cases rest with
    | nil => simp [Regex.run] at h
    | cons c cs =>
      by_cases hp : p c = true
      · simp only [Regex.run, hp, if_true] at h
        exact ⟨_, h, (List.suffix_cons c cs).trans hs, hc⟩
      · simp [Regex.run, hp] at h
  | bol =>
    intro st k r h hs hc
    by_cases hp : st.pos = 0
    · simp only [Regex.run, hp, if_true] at h
      exact ⟨st, h, hs, hc⟩
    · simp [Regex.run, hp] at h
  | eol =>
    intro st k r h hs hc
    obtain ⟨pos, rest, caps⟩ := st
    cases rest with
    | nil => exact ⟨_, h, hs, hc⟩
    | cons c cs => simp [Regex.run] at h
  | empty =>
    intro st k r h hs hc
    exact ⟨st, h, hs, hc⟩
  | cat a b iha ihb =>
    intro st k r h hs hc
    obtain ⟨s1, h1, hs1, hc1⟩ := iha _ _ _ h hs hc
    exact ihb _ _ _ h1 hs1 hc1
  | alt a b iha ihb =>
    intro st k r h hs hc
    simp only [Regex.run] at h
    cases ha : a.run st k with
    | some r2 =>
      rw [ha] at h
      cases h
      exact iha _ _ _ ha hs hc
    | none =>
      rw [ha] at h
      exact ihb _ _ _ h hs hc
  | star a g iha =>
    intro st k r h hs hc
    exact starK_parts T a.run iha g _ st k r h hs hc
  | cap i a iha =>
    intro st k r h hs hc
    obtain ⟨s1, h1, hs1, hc1⟩ := iha _ _ _ h hs hc
    refine ⟨_, h1, hs1, ?_⟩
    intro m hm
    rcases List.mem_or_eq_of_mem_set hm with hm | hm
    · exact hc1 m hm
    · cases hm
      exact ( List.take_prefix _ _).isInfix.trans hs.isInfix

theorem searchFrom_parts (T : Str) (re : Regex) (n : Nat) :
    ∀ (s : Str) (pos start : Nat) (st : MState), s <:+ T →
      searchFrom re n pos s = some (start, st) → ∀ m, some m ∈ st.caps → m <:+: T := by
  have hinit : ∀ m : Str, some m ∈ List.replicate (n + 1) (none : Option Str) → m <:+: T := by
    intro m hm
    have := List.eq_of_mem_replicate hm
    cases this
  intro s
  induction s with
  | nil =>
    intro pos start st hs h
    simp only [searchFrom] at h
    cases hr : re.run ⟨pos, [], List.replicate (n + 1) none⟩ some with
    | none => rw [hr] at h; cases h
    | some r =>
      rw [hr] at h
      cases h
      obtain ⟨s2, h2, _, hc⟩ := run_parts T re _ _ _ hr hs hinit
      cases h2
      exact hc
  | cons c cs ih =>
    intro pos start st hs h
    simp only [searchFrom] at h
    cases hr : re.run ⟨pos, c :: cs, List.replicate (n + 1) none⟩ some with
    | none =>
      rw [hr] at h
      exact ih _ _ _ ((List.suffix_cons c cs).trans hs) h
    | some r =>
      rw [hr] at h
      cases h
      obtain ⟨s2, h2, _, hc⟩ := run_parts T re _ _ _ hr hs hinit
      cases h2
      exact hc

/-- Every entry of the result of `FindStringSubmatch` is a contiguous part of the
text. -/
theorem FindStringSubmatch_part (re : Regex) (s : Str) :
    ∀ m ∈ FindStringSubmatch re s, m <:+: s := by
  intro m hm
  unfold FindStringSubmatch at hm
  cases h : searchFrom re re.numSubexp 0 s with
  | none => rw [h] at hm; cases hm
  | some r =>
    obtain ⟨start, st⟩ := r
    rw [h] at hm
    simp only [List.mem_map] at hm
    obtain ⟨o, ho, rfl⟩ := hm
    cases o with
    | none => exact ⟨[], s, by simp⟩
    | some x =>
      rcases List.mem_or_eq_of_mem_set ho with ho | ho
      · exact searchFrom_parts s re _ s 0 start st (List.suffix_refl s) h x ho
      · cases ho
        exact ( List.take_prefix _ _).isInfix.trans (List.drop_suffix _ _).isInfix

theorem getD_part (ms : List Str) (s : Str) (h : ∀ m ∈ ms, m <:+: s) (i : Nat) :
    ms.getD i [] <:+: s := by
  rw [List.getD_eq_getElem?_getD]
  cases hi : ms[i]? with
  | none => exact ⟨[], s, by simp⟩
  | some x => exact h x (List.getElem?_mem hi)

/-- The rating is a part of the description it was read in, or it is `NR` and
`[Not Rated]` is a part of that description. -/
theorem ratingOf_part (desc : Str) :
    ratingOf desc <:+: desc ∨
      (ratingOf desc = "NR".toList ∧ "[Not Rated]".toList <:+: desc) := by
  have hall := FindStringSubmatch_part ratingDescMatcher desc
  have h0 := getD_part _ _ hall 0
  have h1 := getD_part _ _ hall 1
  unfold ratingOf
  by_cases hl : (FindStringSubmatch ratingDescMatcher desc).length > 1
  · simp only [hl, if_true]
    by_cases he : (FindStringSubmatch ratingDescMatcher desc).getD 1 [] = []
    · simp only [he, if_true]
      by_cases hn : (FindStringSubmatch ratingDescMatcher desc).getD 0 [] = "[Not Rated]".toList
      · right
        rw [if_pos hn]
        exact ⟨rfl, hn ▸ h0⟩
      · left
        rw [if_neg hn]
        exact h0
    · simp only [he, if_false]
      by_cases hn : (FindStringSubmatch ratingDescMatcher desc).getD 1 [] = "[Not Rated]".toList
      · right
        rw [if_pos hn]
        exact ⟨rfl, hn ▸ h1⟩
      · left
        rw [if_neg hn]
        exact h1
  · simp only [hl, if_false]
    exact Or.inl ⟨[], desc, by simp⟩

/-! ## The rating stage and the description -/

/-- C20: for every program (and channel status with a channel record) the description
that `Program.XMLTV` emits is the description after the description stage, whether or
not the rating pattern matches it; every text that the rating pattern finds in the
cleaned description (the tag and the code in it) is a contiguous part of the emitted
description; and an emitted rating is a part of the emitted description, or it is `NR`
and `[Not Rated]` is a part of the emitted description. -/
theorem C20_rating_reads_only (p : Program) (cs : ChannelStatus) (ch : Channel)
    (hch : cs.Channel = some ch) :
    ∃ pg, p.XMLTV cs = some pg ∧
      pg.Descriptions = [(extract p).desc] ∧
      (∀ m ∈ FindStringSubmatch ratingDescMatcher (extract p).desc.Value,
        ∀ d ∈ pg.Descriptions, m <:+: d.Value) ∧
      (∀ r ∈ pg.Ratings, ∀ d ∈ pg.Descriptions,
        r.Value <:+: d.Value ∨
          (r.Value = "NR".toList ∧ "[Not Rated]".toList <:+: d.Value)) := by
  refine ⟨_, XMLTV_of_channel p cs ch hch, rfl, ?_, ?_⟩
  · intro m hm d hd
    simp only [List.mem_singleton] at hd
    subst hd
    exact FindStringSubmatch_part _ _ m hm
  · intro r hr d hd
    simp only [List.mem_singleton] at hd
    subst hd
    dsimp only at hr
    by_cases h : ratingOf (extract p).desc.Value ≠ []
    · rw [if_pos h] at hr
      simp only [List.mem_singleton] at hr
      subst hr
      exact ratingOf_part _
    · rw [if_neg h] at hr
      cases hr

/-- C20 at the description `E3: A film [Rated PG-13] in colour`, cleaned to
`A film [Rated PG-13] in colour`. -/
theorem C20_rating_reads_only_witness :
    ∃ pg, (exampleProgram "Show".toList "E3: A film [Rated PG-13] in colour".toList []).XMLTV
        (exampleStatus []) = some pg ∧
      pg.Descriptions = [{ Lang := [], Value := "A film [Rated PG-13] in colour".toList }] ∧
      pg.Ratings = [{ Value := "PG-13".toList }] ∧
      (∀ r ∈ pg.Ratings, ∀ d ∈ pg.Descriptions,
        r.Value <:+: d.Value ∨
          (r.Value = "NR".toList ∧ "[Not Rated]".toList <:+: d.Value)) := by
  obtain ⟨pg, h, h1, _, h3⟩ := C20_rating_reads_only
    (exampleProgram "Show".toList "E3: A film [Rated PG-13] in colour".toList [])
    (exampleStatus [])
    { DisplayName := [], IconSrc := [], ID := "c1".toList, Categories := [] } rfl
  refine ⟨pg, h, ?_, ?_, h3⟩
  · rw [h1]; rfl
  · have h2 : (exampleProgram "Show".toList "E3: A film [Rated PG-13] in colour".toList
        []).XMLTV (exampleStatus []) = some
          { Titles := [{ Lang := [], Value := "Show".toList }]
            Descriptions := [{ Lang := [], Value := "A film [Rated PG-13] in colour".toList }]
            Categories := [{ Lang := [], Value := "Movie".toList }]
            Start := some { unix := 0, nsec := 0 }
            Stop := some { unix := 0, nsec := 0 }
            Live := none
            Channel := "stirr-c1".toList
            EpisodeNums := [{ System := "onscreen".toList, Value := "E3".toList }]
            Ratings := [{ Value := "PG-13".toList }] } := by rfl
    rw [h2] at h
    cases h
    rfl

/-! ## Numbers out of digit strings and back -/

theorem parseUintLoop_overflow (s : Str) (hd : ∀ c ∈ s, isReDigit c = true) : ∀ n : Nat,
    n < 2 ^ 64 → 2 ^ 64 ≤ s.foldl (fun n c => n * 10 + digitVal c) n →
    parseUintLoop s n = (2 ^ 64 - 1, some NumError.ErrRange) := by
  induction s with
  | nil =>
    intro n h1 h2
    simp only [List.foldl_nil] at h2
    omega
  | cons c cs ih =>
    intro n h1 h2
    have hc : isReDigit c = true := hd c (by simp)
    simp only [List.foldl_cons] at h2
    by_cases h3 : n * 10 + digitVal c < 2 ^ 64
    · simp only [parseUintLoop, hc, if_true, h3]
      exact ih (fun x hx => hd x (by simp [hx])) _ h3 h2
    · simp only [parseUintLoop, hc, if_true, h3, if_false]

/-- `Atoi` of a digit string whose value does not fit an `int` is the largest `int`
(with `ErrRange`). -/
theorem Atoi_digits_overflow (s : Str) (hne : s ≠ []) (hd : ∀ c ∈ s, isReDigit c = true)
    (hbig : 2 ^ 63 ≤ digitsVal s) : Atoi s = ((2 : Int) ^ 63 - 1, some NumError.ErrRange) := by
  cases s with
  | nil => exact absurd rfl hne
  | cons c cs =>
    have hc : isReDigit c = true := hd c (by simp)
    have h1 : (c == '-') = false := by
      simpa using isReDigit_ne c '-' hc (by decide)
    have h2 : (c == '+') = false := by
      simpa using isReDigit_ne c '+' hc (by decide)
    by_cases hfit : digitsVal (c :: cs) < 2 ^ 64
    · have h3 : parseUintLoop (c :: cs) 0 = (digitsVal (c :: cs), none) :=
        parseUintLoop_digits (c :: cs) hd 0 hfit
      have h4 : 2 ^ (intSize - 1) ≤ digitsVal (c :: cs) := by
        simp only [intSize]
        exact hbig
      simp only [Atoi, h1, h2, Bool.or_self, ParseUint, h3, Bool.false_eq_true, if_false]
      simp only [intSize] at h4 ⊢
      have h5 : (9223372036854775808 : Nat) ≤ digitsVal (c :: cs) := by omega
      simp [h5]
    · have h3 : parseUintLoop (c :: cs) 0 = (2 ^ 64 - 1, some NumError.ErrRange) :=
        parseUintLoop_overflow (c :: cs) hd 0 (by norm_num) (by
          have : 2 ^ 64 ≤ digitsVal (c :: cs) := by omega
          exact this)
      simp only [Atoi, h1, h2, Bool.or_self, ParseUint, h3, Bool.false_eq_true, if_false]
      simp [intSize]

theorem toDigitsCore_acc (fuel : Nat) : ∀ (n : Nat) (ds : List Char),
    Nat.toDigitsCore 10 fuel n ds = Nat.toDigitsCore 10 fuel n [] ++ ds := by
  induction fuel with
  | zero => intro n ds; simp [Nat.toDigitsCore]
  | succ f ih =>
    intro n ds
    simp only [Nat.toDigitsCore]
    by_cases h : n / 10 = 0
    · simp [h]
    · rw [if_neg h, if_neg h, ih _ (Nat.digitChar (n % 10) :: ds), ih _ [Nat.digitChar (n % 10)]]
      simp

theorem toDigitsCore_fuel (f1 : Nat) : ∀ (f2 n : Nat) (ds : List Char), n < f1 → n < f2 →
    Nat.toDigitsCore 10 f1 n ds = Nat.toDigitsCore 10 f2 n ds := by
  induction f1 with
  | zero => intro f2 n ds h; omega
  | succ f ih =>
    intro f2 n ds h1 h2
    cases f2 with
    | zero => omega
    | succ g =>
      simp only [Nat.toDigitsCore]
      by_cases h : n / 10 = 0
      · simp [h]
      · rw [if_neg h, if_neg h]
        apply ih
        · omega
        · omega

theorem toDigits_step (q r : Nat) (hq : 0 < q) (hr : r < 10) :
    Nat.toDigits 10 (q * 10 + r) = Nat.toDigits 10 q ++ [Nat.digitChar r] := by
  have h1 : (q * 10 + r) / 10 = q := by omega
  have h2 : (q * 10 + r) % 10 = r := by omega
  have h3 : q ≠ 0 := by omega
  unfold Nat.toDigits
  rw [Nat.toDigitsCore]
  simp only [h1, h2, h3, if_false]
  rw [toDigitsCore_acc, toDigitsCore_fuel (q * 10 + r) (q + 1) q [] (by omega) (by omega)]

theorem toDigits_digit (r : Nat) (hr : r < 10) : Nat.toDigits 10 r = [Nat.digitChar r] := by
  have h1 : r / 10 = 0 := by omega
  have h2 : r % 10 = r := by omega
  unfold Nat.toDigits
  rw [Nat.toDigitsCore]
  simp only [h1, h2, if_true]

theorem digitChar_digitVal (c : Char) (h : isReDigit c = true) :
    Nat.digitChar (digitVal c) = c := by
  rcases isReDigit_cases c h with rfl | rfl | rfl | rfl | rfl | rfl | rfl | rfl | rfl | rfl <;>
    decide

theorem digitVal_eq_zero (c : Char) (h : isReDigit c = true) : digitVal c = 0 ↔ c = '0' := by
  rcases isReDigit_cases c h with rfl | rfl | rfl | rfl | rfl | rfl | rfl | rfl | rfl | rfl <;>
    decide

theorem digitsVal_concat (s : Str) (c : Char) :
    digitsVal (s ++ [c]) = digitsVal s * 10 + digitVal c := by
  simp [digitsVal, List.foldl_append]

theorem stripZeros_singleton (c : Char) (hc : isReDigit c = true) :
    stripZeros [c] = if digitVal c = 0 then [] else [c] := by
  by_cases h : c = '0'
  · subst h; rfl
  · have h2 : ¬ digitVal c = 0 := fun h0 => h ((digitVal_eq_zero c hc).1 h0)
    rw [if_neg h2]
    simp [stripZeros, List.dropWhile_cons, h]

/-- The decimal rendering of the value of a digit string is the string without its
leading zeros (when the value is not 0). -/
theorem natToStr_digitsVal (s : Str) : (∀ c ∈ s, isReDigit c = true) →
    (digitsVal s = 0 ↔ stripZeros s = []) ∧
    (0 < digitsVal s → natToStr (digitsVal s) = stripZeros s) := by
  induction s using List.reverseRecOn with
  | nil =>
    intro _
    exact ⟨⟨fun _ => rfl, fun _ => rfl⟩, fun h => absurd h (by decide)⟩
  | append_singleton l c ih =>
    intro hd
    have hc : isReDigit c = true := hd c (by simp)
    obtain ⟨ih1, ih2⟩ := ih (fun x hx => hd x (by simp [hx]))
    have hr := digitVal_lt c hc
    have hsplit : stripZeros (l ++ [c])
        = if (stripZeros l).isEmpty then stripZeros [c] else stripZeros l ++ [c] :=
      List.dropWhile_append
    rw [digitsVal_concat]
    by_cases hq : digitsVal l = 0
    · have hl := ih1.1 hq
      rw [hl, List.isEmpty_nil, if_pos rfl, stripZeros_singleton c hc] at hsplit
      rw [hq, Nat.zero_mul, Nat.zero_add, hsplit]
      constructor
      · constructor
        · intro h0
          rw [if_pos h0]
        · intro h0
          by_cases hz : digitVal c = 0
          · exact hz
          · rw [if_neg hz] at h0
            cases h0
      · intro hpos
        have hz : ¬ digitVal c = 0 := by omega
        rw [if_neg hz, natToStr, toDigits_digit _ hr, digitChar_digitVal c hc]
    · have hl := ih2 (Nat.pos_of_ne_zero hq)
      have hne : stripZeros l ≠ [] := fun h => hq (ih1.2 h)
      have hem : (stripZeros l).isEmpty = false := by
        cases hs : stripZeros l with
        | nil => exact absurd hs hne
        | cons a b => rfl
      rw [hem] at hsplit
      simp only [Bool.false_eq_true, if_false] at hsplit
      rw [hsplit]
      constructor
      · constructor
        · intro h0
          omega
        · intro h0
          simp at h0
      · intro _
        rw [natToStr, toDigits_step _ _ (Nat.pos_of_ne_zero hq) hr, digitChar_digitVal c hc]
        rw [natToStr] at hl
        rw [hl]

/-- What `%d` prints for the number that `Atoi` reads in a digit string of non-zero
value. -/
theorem Itoa_Atoi_digits (s : Str) (hne : s ≠ []) (hd : ∀ c ∈ s, isReDigit c = true)
    (hpos : 0 < digitsVal s) : 0 < (Atoi s).1 ∧ Itoa (Atoi s).1 = clampedDigits s := by
  by_cases hfit : digitsVal s < 2 ^ 63
  · rw [Atoi_digits s hne hd hfit]
    dsimp only
    have h1 : ¬ ((digitsVal s : Int) < 0) := by omega
    refine ⟨by omega, ?_⟩
    rw [Itoa, if_neg h1, Int.toNat_ofNat, (natToStr_digitsVal s hd).2 hpos, clampedDigits,
      if_pos hfit]
  · rw [Atoi_digits_overflow s hne hd (by omega)]
    dsimp only
    refine ⟨by norm_num, ?_⟩
    rw [clampedDigits, if_neg hfit]
    rfl

/-! ## The digits of the episode code -/

/-- C19, as stated, fails for long digit strings: the title
`X (S99999999999999999999,E5)` gives the episode code `S9223372036854775807E5`, the
season being clamped to the largest `int`, and not `S99999999999999999999E5`. -/
theorem C19_episode_digits_counterexample :
    ((exampleProgram "X (S99999999999999999999,E5)".toList "A report".toList []).XMLTV
        (exampleStatus [])).map (fun pg => pg.EpisodeNums.map (fun n => n.Value))
      = some ["S9223372036854775807E5".toList]
    ∧ ((exampleProgram "X (S99999999999999999999,E5)".toList "A report".toList []).XMLTV
        (exampleStatus [])).map (fun pg => pg.EpisodeNums.map (fun n => n.Value))
      ≠ some ["S".toList ++ stripZeros "99999999999999999999".toList ++ "E".toList
          ++ stripZeros "5".toList] := by
  refine ⟨by rfl, ?_⟩
  rw [show ((exampleProgram "X (S99999999999999999999,E5)".toList "A report".toList []).XMLTV
        (exampleStatus [])).map (fun pg => pg.EpisodeNums.map (fun n => n.Value))
      = some ["S9223372036854775807E5".toList] from by rfl]
  decide

/-- C19, amended: for every name without newline and every pair of non-empty digit
strings `s`, `e` of non-zero value, a program whose title is `<name> (S<s>,E<e>)` and
whose description does not match the description pattern gets the single episode code
`S<s1>E<e1>`, where `s1` is `s` without its leading zeros when the value of `s` is
below `2 ^ 63` and `9223372036854775807` otherwise, and likewise `e1` for `e`. -/
theorem C19_episode_digits (p : Program) (cs : ChannelStatus) (ch : Channel) (name s e : Str)
    (hch : cs.Channel = some ch) (hname : ∀ c ∈ name, c ≠ '\n')
    (hs : s ≠ []) (hsd : ∀ c ∈ s, isReDigit c = true) (hspos : 0 < digitsVal s)
    (he : e ≠ []) (hed : ∀ c ∈ e, isReDigit c = true) (hepos : 0 < digitsVal e)
    (htitle : p.Title.Value = name ++ " (S".toList ++ s ++ ",E".toList ++ e ++ ")".toList)
    (hdesc : FindStringSubmatch seasonEpisodeDescMatcher p.Description.Value = []) :
    ∃ pg, p.XMLTV cs = some pg ∧
      pg.EpisodeNums.map (fun n => (n.System, n.Value)) = [("onscreen".toList,
        "S".toList ++ clampedDigits s ++ "E".toList ++ clampedDigits e)] := by
  have hm := title_match name s e hname hs hsd he hed
  rw [← htitle] at hm
  have ht := titleStage_of_match (initialVars p) _ _ _ _ hm
  have hd : FindStringSubmatch seasonEpisodeDescMatcher (titleStage (initialVars p)).desc.Value
      = [] := by
    rw [titleStage_desc]
    exact hdesc
  have hx : extract p = titleStage (initialVars p) := descStage_of_nil _ hd
  rw [ht] at hx
  obtain ⟨hs1, hs2⟩ := Itoa_Atoi_digits s hs hsd hspos
  obtain ⟨he1, he2⟩ := Itoa_Atoi_digits e he hed hepos
  refine ⟨_, XMLTV_of_channel p cs ch hch, ?_⟩
  dsimp only
  rw [hx]
  simp only [episodeNums, gt_iff_lt, hs1, he1, and_self, if_true, List.map_cons, List.map_nil,
    hs2, he2]

/-- C19 at the titles `X (S02,E005)`, which gives `S2E5`, and
`X (S0099999999999999999999,E5)`, which gives `S9223372036854775807E5`. -/
theorem C19_episode_digits_witness :
    (∃ pg, (exampleProgram "X (S02,E005)".toList "A report".toList []).XMLTV (exampleStatus [])
        = some pg ∧
      pg.EpisodeNums.map (fun n => (n.System, n.Value))
        = [("onscreen".toList, "S2E5".toList)]) ∧
    (∃ pg, (exampleProgram "X (S0099999999999999999999,E5)".toList "A report".toList []).XMLTV
        (exampleStatus []) = some pg ∧
      pg.EpisodeNums.map (fun n => (n.System, n.Value))
        = [("onscreen".toList, "S9223372036854775807E5".toList)]) :=
  ⟨C19_episode_digits (exampleProgram "X (S02,E005)".toList "A report".toList [])
      (exampleStatus []) _ "X".toList "02".toList "005".toList rfl (by decide) (by decide)
      (by decide) (by decide) (by decide) (by decide) (by decide) rfl (by rfl),
   C19_episode_digits
      (exampleProgram "X (S0099999999999999999999,E5)".toList "A report".toList [])
      (exampleStatus []) _ "X".toList "0099999999999999999999".toList "5".toList rfl
      (by decide) (by decide) (by decide) (by decide) (by decide) (by decide) (by decide) rfl
      (by rfl)⟩

/-! ## The texts that `time.Parse` accepts -/

theorem getnum_fixed_inv (s : Str) (n : Nat) (r : Str) (h : getnum s true = some (n, r)) :
    ∃ a b, s = a :: b :: r ∧ isReDigit a = true ∧ isReDigit b = true ∧
      n = digitVal a * 10 + digitVal b := by
  cases s with
  | nil => simp [getnum] at h
  | cons a t =>
    cases t with
    | nil => simp [getnum, isDigitAt] at h
    | cons b u =>
      by_cases ha : isReDigit a = true
      · by_cases hb : isReDigit b = true
        · simp [getnum, isDigitAt, ha, hb] at h
          exact ⟨a, b, by rw [h.2], ha, hb, h.1.symm⟩
        · simp [getnum, isDigitAt, ha, hb] at h
      · simp [getnum, ha] at h

theorem getnum_free_inv (s : Str) (n : Nat) (r : Str) (h : getnum s false = some (n, r)) :
    (∃ a b, s = a :: b :: r ∧ isReDigit a = true ∧ isReDigit b = true ∧
      n = digitVal a * 10 + digitVal b) ∨ isDigitAt r 0 = false := by
  cases s with
  | nil => simp [getnum] at h
  | cons a t =>
    by_cases ha : isReDigit a = true
    · cases t with
      | nil =>
        simp [getnum, isDigitAt, ha] at h
        right
        rw [h.2]
        rfl
      | cons b u =>
        by_cases hb : isReDigit b = true
        · simp [getnum, isDigitAt, ha, hb] at h
          exact Or.inl ⟨a, b, by rw [h.2], ha, hb, h.1.symm⟩
        · simp [getnum, isDigitAt, ha, hb] at h
          right
          rw [← h.2]
          simp [isDigitAt, hb]
    · simp [getnum, ha] at h

theorem getnum_fixed_none (s : Str) (h : isDigitAt s 0 = false) : getnum s true = none := by
  cases s with
  | nil => rfl
  | cons a t =>
    have ha : isReDigit a = false := by simpa [isDigitAt] using h
    simp [getnum, ha]

/-- The text after the seconds is used up exactly when it is empty or a fraction of a
second. -/
theorem fraction_used_up (f : Str) :
    (if (decide (f.length ≥ 2) && (f.headD ' ' == '.' || f.headD ' ' == ',')
          && isDigitAt f 1) = true
      then f.drop (1 + ((f.drop 1).takeWhile isReDigit).length) else f) = []
    ↔ (f = [] ∨ isFraction f) := by
  constructor
  · intro h
    by_cases hc : (decide (f.length ≥ 2) && (f.headD ' ' == '.' || f.headD ' ' == ',')
          && isDigitAt f 1) = true
    · rw [if_pos hc] at h
      right
      cases f with
      | nil => simp at hc
      | cons c fs =>
        cases fs with
        | nil => simp at hc
        | cons x rest =>
          simp only [List.length_cons, ge_iff_le, List.headD_cons, Bool.and_eq_true,
            decide_eq_true_eq, Bool.or_eq_true, beq_iff_eq, isDigitAt, List.get?_cons_succ,
            List.get?_cons_zero] at hc
          refine ⟨c, x :: rest, rfl, hc.1.2, by simp, ?_⟩
          have h2 : List.drop ((x :: rest).takeWhile isReDigit).length (x :: rest) = [] := by
            rw [Nat.add_comm] at h
            simpa using h
          have h3 : (x :: rest).dropWhile isReDigit = [] := by
            have h4 := List.drop_left ((x :: rest).takeWhile isReDigit)
              ((x :: rest).dropWhile isReDigit)
            rw [List.takeWhile_append_dropWhile] at h4
            rw [← h4]
            exact h2
          intro y hy
          exact List.dropWhile_eq_nil_iff.1 h3 y hy
    · rw [if_neg hc] at h
      exact Or.inl h
  · intro h
    rcases h with rfl | ⟨c, fs, rfl, hc, hne, hd⟩
    · rfl
    · cases fs with
      | nil => exact absurd rfl hne
      | cons x rest =>
        have hx : isReDigit x = true := hd x (by simp)
        have htw : (x :: rest).takeWhile isReDigit = x :: rest :=
          List.takeWhile_eq_self_iff.2 hd
        have hcond : (decide ((c :: x :: rest).length ≥ 2)
            && ((c :: x :: rest).headD ' ' == '.' || (c :: x :: rest).headD ' ' == ',')
            && isDigitAt (c :: x :: rest) 1) = true := by
          simp only [List.length_cons, ge_iff_le, List.headD_cons, Bool.and_eq_true,
            decide_eq_true_eq, Bool.or_eq_true, beq_iff_eq, isDigitAt, List.get?_cons_succ,
            List.get?_cons_zero]
          exact ⟨⟨by omega, hc⟩, hx⟩
        rw [if_pos hcond]
        simp only [List.drop_succ_cons, List.drop_zero, htw]
        rw [Nat.add_comm, List.drop_succ_cons]
        simp

theorem Parse_fourteen_fraction (y1 y2 y3 y4 m1 m2 d1 d2 h1 h2 i1 i2 s1 s2 : Char) (f : Str)
    (hy1 : isReDigit y1 = true) (hy2 : isReDigit y2 = true) (hy3 : isReDigit y3 = true)
    (hy4 : isReDigit y4 = true) (hm1 : isReDigit m1 = true) (hm2 : isReDigit m2 = true)
    (hd1 : isReDigit d1 = true) (hd2 : isReDigit d2 = true) (hh1 : isReDigit h1 = true)
    (hh2 : isReDigit h2 = true) (hi1 : isReDigit i1 = true) (hi2 : isReDigit i2 = true)
    (hs1 : isReDigit s1 = true) (hs2 : isReDigit s2 = true)
    (hmo1 : 1 ≤ digitVal m1 * 10 + digitVal m2) (hmo2 : digitVal m1 * 10 + digitVal m2 ≤ 12)
    (hda1 : 1 ≤ digitVal d1 * 10 + digitVal d2)
    (hda2 : digitVal d1 * 10 + digitVal d2 ≤ daysIn (digitVal m1 * 10 + digitVal m2)
      ((((digitVal y1 * 10 + digitVal y2) * 10 + digitVal y3) * 10 + digitVal y4 : Nat) : Int))
    (hho : digitVal h1 * 10 + digitVal h2 < 24) (hmi : digitVal i1 * 10 + digitVal i2 < 60)
    (hse : digitVal s1 * 10 + digitVal s2 < 60) (hf : f = [] ∨ isFraction f) :
    ∃ t, Parse ([y1, y2, y3, y4, m1, m2, d1, d2, h1, h2, i1, i2, s1, s2] ++ f) = .ok t := by
  have hyear : digitsVal (List.take 4
      ([y1, y2, y3, y4, m1, m2, d1, d2, h1, h2, i1, i2, s1, s2] ++ f))
      = ((digitVal y1 * 10 + digitVal y2) * 10 + digitVal y3) * 10 + digitVal y4 := by
    simp [digitsVal]
  have c0 : ¬ ((decide (([y1, y2, y3, y4, m1, m2, d1, d2, h1, h2, i1, i2, s1, s2] ++ f).length
      < 4) || !isDigitAt ([y1, y2, y3, y4, m1, m2, d1, d2, h1, h2, i1, i2, s1, s2] ++ f) 0)
      = true) := by
    simp [isDigitAt, hy1]
  have c00 : ¬ ((!(List.take 4
      ([y1, y2, y3, y4, m1, m2, d1, d2, h1, h2, i1, i2, s1, s2] ++ f)).all isReDigit) = true) := by
    simp [hy1, hy2, hy3, hy4]
  have c1 : ¬ ((decide (digitVal m1 * 10 + digitVal m2 = 0)
      || decide (12 < digitVal m1 * 10 + digitVal m2)) = true) := by
    simp only [Bool.or_eq_true, decide_eq_true_eq]
    omega
  have c3 : ¬ (24 ≤ digitVal h1 * 10 + digitVal h2) := by omega
  have c4 : ¬ (60 ≤ digitVal i1 * 10 + digitVal i2) := by omega
  have c5 : ¬ (60 ≤ digitVal s1 * 10 + digitVal s2) := by omega
  have c6 : ¬ ((decide (digitVal d1 * 10 + digitVal d2 < 1) ||
      decide (daysIn (digitVal m1 * 10 + digitVal m2)
      ((((digitVal y1 * 10 + digitVal y2) * 10 + digitVal y3) * 10 + digitVal y4 : Nat) : Int)
      < digitVal d1 * 10 + digitVal d2)) = true) := by
    simp only [Bool.or_eq_true, decide_eq_true_eq]
    omega
  have c7 := (fraction_used_up f).2 hf
  have e4 : List.drop 4 ([y1, y2, y3, y4, m1, m2, d1, d2, h1, h2, i1, i2, s1, s2] ++ f)
      = m1 :: m2 :: d1 :: d2 :: h1 :: h2 :: i1 :: i2 :: s1 :: s2 :: f := rfl
  unfold Parse
  rw [if_neg c0, if_neg c00]
  dsimp only
  rw [hyear, e4, getnum_two m1 m2 _ hm1 hm2]
  dsimp only
  rw [if_neg c1, getnum_two d1 d2 _ hd1 hd2]
  dsimp only
  rw [getnum_two h1 h2 _ hh1 hh2]
  dsimp only
  rw [if_neg c3, getnum_two i1 i2 _ hi1 hi2]
  dsimp only
  rw [if_neg c4, getnum_two s1 s2 _ hs1 hs2]
  dsimp only
  rw [if_neg c5, if_neg (not_not.2 c7), if_neg c6]
  exact ⟨_, rfl⟩

theorem four_of_length (v : Str) (h : 4 ≤ v.length) :
    ∃ y1 y2 y3 y4 r, v = y1 :: y2 :: y3 :: y4 :: r := by
  match v, h with
  | y1 :: y2 :: y3 :: y4 :: r, _ => exact ⟨y1, y2, y3, y4, r, rfl⟩

theorem Parse_ok_inv (v : Str) (t : Time) (h : Parse v = .ok t) :
    ∃ ds f, v = ds ++ f ∧ ds.length = 14 ∧ (∀ c ∈ ds, isReDigit c = true) ∧ validFields ds ∧
      (f = [] ∨ isFraction f) := by
  unfold Parse at h
  split at h
  · cases h
  split at h
  · cases h
  dsimp only at h
  split at h
  · cases h
  split at h
  · cases h
  split at h
  · cases h
  split at h
  · cases h
  split at h
  · cases h
  split at h
  · cases h
  split at h
  · cases h
  split at h
  · cases h
  split at h
  · cases h
  rename_i c1 c2 _ month v1 g1 cm _ day v2 g2 _ hour v3 g3 ch _ min v4 g4 cmi _ sec v5 g5 cs
  obtain ⟨m1, m2, e1, hm1, hm2, rfl⟩ := getnum_fixed_inv _ _ _ g1
  obtain ⟨d1, d2, rfl, hd1, hd2, rfl⟩ := getnum_fixed_inv _ _ _ g2
  obtain ⟨i1, i2, rfl, hi1, hi2, rfl⟩ := getnum_fixed_inv _ _ _ g4
  obtain ⟨s1, s2, rfl, hs1, hs2, rfl⟩ := getnum_fixed_inv _ _ _ g5
  rcases getnum_free_inv _ _ _ g3 with ⟨h1, h2, rfl, hh1, hh2, rfl⟩ | hnd
  · by_cases hx : (if (decide (v5.length ≥ 2) && (v5.headD ' ' == '.' || v5.headD ' ' == ',')
          && isDigitAt v5 1) = true
        then v5.drop (1 + ((v5.drop 1).takeWhile isReDigit).length) else v5) = []
    · have hf := (fraction_used_up v5).1 hx
      rw [if_neg (not_not.2 hx)] at h
      split at h
      · cases h
      rename_i cd
      have hlen : 4 ≤ v.length := by
        simp only [Bool.or_eq_true, decide_eq_true_eq, not_or, not_lt] at c1
        exact c1.1
      obtain ⟨y1, y2, y3, y4, r, rfl⟩ := four_of_length v hlen
      simp only [List.drop_succ_cons, List.drop_zero] at e1
      subst e1
      simp only [List.take_succ_cons, List.take_zero, List.all_cons, List.all_nil, Bool.and_true,
        Bool.not_eq_true', Bool.and_eq_false_iff, not_or, Bool.not_eq_false] at c2
      obtain ⟨hy1, hy2, hy3, hy4⟩ := c2
      simp only [List.take_succ_cons, List.take_zero, digitsVal, List.foldl_cons, List.foldl_nil,
        Nat.zero_mul, Nat.zero_add, Bool.or_eq_true, decide_eq_true_eq, not_or, not_lt] at cd cm
      refine ⟨[y1, y2, y3, y4, m1, m2, d1, d2, h1, h2, i1, i2, s1, s2], v5, rfl, rfl, ?_, ?_, hf⟩
      · intro c hc
        simp only [List.mem_cons, List.not_mem_nil, or_false] at hc
        rcases hc with rfl | rfl | rfl | rfl | rfl | rfl | rfl | rfl | rfl | rfl | rfl | rfl
          | rfl | rfl <;> assumption
      · unfold validFields
        simp only [List.drop_succ_cons, List.drop_zero, List.take_succ_cons, List.take_zero,
          digitsVal, List.foldl_cons, List.foldl_nil, Nat.zero_mul, Nat.zero_add]
        refine ⟨by omega, by omega, cd.1, cd.2, by omega, by omega, by omega⟩
    · rw [if_pos hx] at h
      cases h
  · simp [isDigitAt, hi1] at hnd

/-! ## The texts that `StirrTime.UnmarshalJSON` accepts -/

/-- C11, as stated, fails: `StirrTime.UnmarshalJSON` succeeds on `20210422030000.5`,
a text of 16 characters with a period in it (`time.Parse` reads a fraction of a second
after the seconds even when the layout has none), and on the 14 digits between double
quotes, which `strings.Trim` removes. -/
theorem C11_layout_only_counterexample :
    StirrTime.UnmarshalJSON "20210422030000.5".toList
      = .ok { Time := { unix := 1619060400, nsec := 500000000 } }
    ∧ "20210422030000.5".toList.length = 16
    ∧ StirrTime.UnmarshalJSON "\"20210422030000\"".toList
      = .ok { Time := { unix := 1619060400, nsec := 0 } }
    ∧ "\"20210422030000\"".toList.length = 16 := by
  refine ⟨by rfl, by rfl, by rfl, by rfl⟩

/-- C11, amended: `StirrTime.UnmarshalJSON` succeeds on a text if and only if the text
without the double quotes at its two ends is 14 digits `YYYYMMDDHHMMSS` with month in
1..12, day in 1..(days of that month in that year), hour below 24, minute and second
below 60, followed by nothing or by a fraction of a second, that is a period or a
comma and one digit or more; on every other text it returns an error. -/
theorem C11_layout_only (b : Str) :
    (∃ t, StirrTime.UnmarshalJSON b = .ok t) ↔
      ∃ ds f, Trim b ['"'] = ds ++ f ∧ ds.length = 14 ∧ (∀ c ∈ ds, isReDigit c = true) ∧
        validFields ds ∧ (f = [] ∨ isFraction f) := by
  constructor
  · rintro ⟨t, ht⟩
    unfold StirrTime.UnmarshalJSON at ht
    dsimp only at ht
    cases hp : Parse (Trim b ['"']) with
    | error e => rw [hp] at ht; cases ht
    | ok parsed => exact Parse_ok_inv _ _ hp
  · rintro ⟨ds, f, hb, hlen, hdig, hval, hf⟩
    obtain ⟨y1, y2, y3, y4, m1, m2, d1, d2, h1, h2, i1, i2, s1, s2, rfl⟩ :=
      length_fourteen ds hlen
    unfold validFields at hval
    simp only [List.drop_succ_cons, List.drop_zero, List.take_succ_cons, List.take_zero, digitsVal,
      List.foldl_cons, List.foldl_nil, Nat.zero_mul, Nat.zero_add] at hval
    obtain ⟨hmo1, hmo2, hda1, hda2, hho, hmi, hse⟩ := hval
    obtain ⟨t, ht⟩ := Parse_fourteen_fraction y1 y2 y3 y4 m1 m2 d1 d2 h1 h2 i1 i2 s1 s2 f
      (hdig y1 (by simp)) (hdig y2 (by simp)) (hdig y3 (by simp)) (hdig y4 (by simp))
      (hdig m1 (by simp)) (hdig m2 (by simp)) (hdig d1 (by simp)) (hdig d2 (by simp))
      (hdig h1 (by simp)) (hdig h2 (by simp)) (hdig i1 (by simp)) (hdig i2 (by simp))
      (hdig s1 (by simp)) (hdig s2 (by simp)) hmo1 hmo2 hda1 hda2 hho hmi hse hf
    refine ⟨{ Time := t }, ?_⟩
    unfold StirrTime.UnmarshalJSON
    dsimp only
    rw [hb, ht]

/-! ## The rating pattern matches exactly the texts with a rating tag -/

theorem run_cap_eq (i : Nat) (a : Regex) (st : MState) (k : MState → Option MState) :
    (Regex.cap i a).run st k = a.run st (fun st2 =>
      k { st2 with caps := st2.caps.set i (some (st.rest.take (st2.pos - st.pos))) }) := rfl

theorem run_star_eq (a : Regex) (g : Bool) (st : MState) (k : MState → Option MState) :
    (Regex.star a g).run st k = starK a.run g st.rest.length st k := rfl

theorem run_cls_inv (p : Char → Bool) (st : MState) (k : MState → Option MState) (r : MState)
    (h : (Regex.cls p).run st k = some r) :
    ∃ c cs, st.rest = c :: cs ∧ p c = true ∧ k ⟨st.pos + 1, cs, st.caps⟩ = some r := by
  obtain ⟨pos, rest, caps⟩ := st
  cases rest with
  | nil => simp [Regex.run] at h
  | cons c cs =>
    by_cases hp : p c = true
    · simp only [Regex.run, hp, if_true] at h
      exact ⟨c, cs, rfl, hp, h⟩
    · simp [Regex.run, hp] at h

/-- A repetition of a class consumes characters of the class, and nothing else of the
state changes. -/
theorem starK_cls_inv (p : Char → Bool) (g : Bool) (n : Nat) :
    ∀ (st : MState) (k : MState → Option MState) (r : MState),
      starK (Regex.cls p).run g n st k = some r →
      ∃ w rest2 q, st.rest = w ++ rest2 ∧ (∀ c ∈ w, p c = true) ∧
        k ⟨q, rest2, st.caps⟩ = some r := by
  induction n with
  | zero =>
    intro st k r h
    exact ⟨[], st.rest, st.pos, rfl, by simp, h⟩
  | succ n ih =>
    intro st k r h
    have hmore : ∀ r, (Regex.cls p).run st
        (fun st2 => if st.pos < st2.pos then starK (Regex.cls p).run g n st2 k else none)
        = some r →
        ∃ w rest2 q, st.rest = w ++ rest2 ∧ (∀ c ∈ w, p c = true) ∧
          k ⟨q, rest2, st.caps⟩ = some r := by
      intro r hr
      obtain ⟨c, cs, hrest, hc, h1⟩ := run_cls_inv p st _ r hr
      simp only [Nat.lt_succ_self, if_true] at h1
      obtain ⟨w, rest2, q, hw, hall, hk⟩ := ih _ _ _ h1
      refine ⟨c :: w, rest2, q, ?_, ?_, hk⟩
      · rw [hrest]
        simp only at hw
        rw [hw]
        rfl
      · intro x hx
        rcases List.mem_cons.1 hx with rfl | hx
        · exact hc
        · exact hall x hx
    cases g with
    | true =>
      simp only [starK, if_true] at h
      cases hb : (Regex.cls p).run st
          (fun st2 => if st.pos < st2.pos then starK (Regex.cls p).run true n st2 k else none) with
      | some r2 =>
        rw [hb] at h
        cases h
        exact hmore _ hb
      | none =>
        rw [hb] at h
        exact ⟨[], st.rest, st.pos, rfl, by simp, h⟩
    | false =>
      simp only [starK] at h
      cases hk : k st with
      | some r2 =>
        rw [hk] at h
        simp at h
        cases h
        exact ⟨[], st.rest, st.pos, rfl, by simp, hk⟩
      | none =>
        rw [hk] at h
        simp at h
        exact hmore _ h

/-- A lazy repetition of a class succeeds when the continuation succeeds after some
run of characters of the class. -/
theorem starK_lazy_isSome (p : Char → Bool) (k : MState → Option MState) (r : Str)
    (caps : List (Option Str)) (hk : ∀ q, (k ⟨q, r, caps⟩).isSome = true) (w : Str) :
    (∀ c ∈ w, p c = true) → ∀ (n pos : Nat), w.length ≤ n →
      (starK (Regex.cls p).run false n ⟨pos, w ++ r, caps⟩ k).isSome = true := by
  induction w with
  | nil =>
    intro _ n pos _
    cases n with
    | zero => exact hk pos
    | succ n =>
      have h1 := hk pos
      simp only [starK, List.nil_append, Bool.false_eq_true, if_false]
      cases hq : k ⟨pos, r, caps⟩ with
      | some v => rfl
      | none => rw [hq] at h1; cases h1
  | cons a w ih =>
    intro hw n pos hn
    cases n with
    | zero => simp at hn
    | succ n =>
      have ha : p a = true := hw a (by simp)
      simp only [starK, List.cons_append, Bool.false_eq_true, if_false]
      cases hq : k ⟨pos, a :: (w ++ r), caps⟩ with
      | some v => rfl
      | none =>
        simp only [run_cls_cons, ha, if_true, Nat.lt_succ_self]
        exact ih (fun c hc => hw c (by simp [hc])) n (pos + 1) (by simpa using hn)

theorem isDot_iff (c : Char) : isDot c = true ↔ c ≠ '\n' := by
  simp [isDot]

/-- Where the rating pattern matches, the text starts with a rating tag. -/
theorem rating_run_shape (u : Str) (q : Nat) (caps : List (Option Str)) (r : MState)
    (h : ratingDescMatcher.run ⟨q, u, caps⟩ some = some r) :
    ∃ tag post, u = tag ++ post ∧ isRatingTag tag := by
  by_cases h2 : "[Not Rated]".toList <+: u
  · obtain ⟨post, rfl⟩ := h2
    exact ⟨_, post, rfl, Or.inl rfl⟩
  · by_cases h1 : "[Rated ".toList <+: u
    · obtain ⟨v, rfl⟩ := h1
      have hu : "[Rated ".toList ++ v = '[' :: ("Rated ".toList ++ v) := rfl
      rw [hu] at h
      simp only [ratingDescMatcher, seqs, run_cat, run_lit_cons] at h
      rw [run_alt_right _ _ _ _ (run_lits_none _ _ _ _ _ (by
        intro hp
        have := (List.cons_prefix_cons.1 hp).1
        exact absurd this (by decide)))] at h
      rw [run_cat, run_lits_append, run_cap_eq, plus, run_cat] at h
      obtain ⟨x, cs, hrest, hx, h3⟩ := run_cls_inv isDot _ _ _ h
      dsimp only at hrest h3
      rw [run_star_eq] at h3
      obtain ⟨w, rest2, q2, hw, hall, h4⟩ := starK_cls_inv isDot false _ _ _ _ h3
      dsimp only at hw h4
      cases rest2 with
      | nil => simp [lit, Regex.run] at h4
      | cons d rest3 =>
        by_cases hd : d = ']'
        · subst hd
          refine ⟨"[Rated ".toList ++ (x :: w) ++ "]".toList, rest3, ?_, Or.inr ⟨x :: w, rfl, ?_, ?_⟩⟩
          · rw [hrest, hw]
            simp
          · simp
          · intro y hy
            rcases List.mem_cons.1 hy with rfl | hy
            · exact (isDot_iff _).1 hx
            · exact (isDot_iff _).1 (hall y hy)
        · simp [lit, Regex.run, hd] at h4
    · rw [rating_run_none u h1 h2] at h
      cases h

/-- On a text that starts with a rating tag the rating pattern matches. -/
theorem rating_run_isSome (tag post : Str) (htag : isRatingTag tag) (q : Nat)
    (caps : List (Option Str)) :
    (ratingDescMatcher.run ⟨q, tag ++ post, caps⟩ some).isSome = true := by
  rcases htag with rfl | ⟨c, rfl, hc, hcn⟩
  · have hX : "[Not Rated]".toList ++ post
        = '[' :: ("Not Rated".toList ++ (']' :: post)) := by simp
    rw [hX]
    simp only [ratingDescMatcher, seqs, run_cat, run_lit_cons]
    rw [run_alt_left _ _ _ _ ⟨q + 1 + "Not Rated".toList.length + 1, post, caps⟩ (by
      rw [run_lits_append, run_lit_cons])]
    rfl
  · cases c with
    | nil => exact absurd rfl hc
    | cons x w =>
      have hX : "[Rated ".toList ++ (x :: w) ++ "]".toList ++ post
          = '[' :: ("Rated ".toList ++ (x :: (w ++ (']' :: post)))) := by simp
      rw [hX]
      simp only [ratingDescMatcher, seqs, run_cat, run_lit_cons]
      rw [run_alt_right _ _ _ _ (run_lits_none _ _ _ _ _ (by
        intro hp
        have := (List.cons_prefix_cons.1 hp).1
        exact absurd this (by decide)))]
      rw [run_cat, run_lits_append, run_cap_eq, plus, run_cat]
      have hx : isDot x = true := (isDot_iff x).2 (hcn x (by simp))
      rw [run_cls_cons, if_pos hx, run_star_eq]
      apply starK_lazy_isSome isDot _ (']' :: post) caps _ w
        (fun y hy => (isDot_iff y).2 (hcn y (by simp [hy])))
      · simp
      · intro q2
        simp [lit, Regex.run]

theorem searchFrom_some_run (re : Regex) (n : Nat) :
    ∀ (s : Str) (pos start : Nat) (st : MState), searchFrom re n pos s = some (start, st) →
      ∃ u q, u <:+ s ∧ re.run ⟨q, u, List.replicate (n + 1) none⟩ some = some st := by
  intro s
  induction s with
  | nil =>
    intro pos start st h
    simp only [searchFrom] at h
    cases hr : re.run ⟨pos, [], List.replicate (n + 1) none⟩ some with
    | none => rw [hr] at h; cases h
    | some r =>
      rw [hr] at h
      cases h
      exact ⟨[], pos, List.suffix_refl _, hr⟩
  | cons c cs ih =>
    intro pos start st h
    simp only [searchFrom] at h
    cases hr : re.run ⟨pos, c :: cs, List.replicate (n + 1) none⟩ some with
    | none =>
      rw [hr] at h
      obtain ⟨u, q, hu, hq⟩ := ih _ _ _ h
      exact ⟨u, q, hu.trans (List.suffix_cons c cs), hq⟩
    | some r =>
      rw [hr] at h
      cases h
      exact ⟨c :: cs, pos, List.suffix_refl _, hr⟩

theorem searchFrom_isSome (re : Regex) (n : Nat) (u : Str)
    (hu : ∀ q, (re.run ⟨q, u, List.replicate (n + 1) none⟩ some).isSome = true) :
    ∀ (s : Str) (pos : Nat), u <:+ s → (searchFrom re n pos s).isSome = true := by
  intro s
  induction s with
  | nil =>
    intro pos hs
    have hnil : u = [] := List.suffix_nil.1 hs
    subst hnil
    have h1 := hu pos
    simp only [searchFrom]
    cases hr : re.run ⟨pos, [], List.replicate (n + 1) none⟩ some with
    | none => rw [hr] at h1; cases h1
    | some r => rfl
  | cons c cs ih =>
    intro pos hs
    simp only [searchFrom]
    cases hr : re.run ⟨pos, c :: cs, List.replicate (n + 1) none⟩ some with
    | some r => rfl
    | none =>
      rcases List.suffix_cons_iff.1 hs with rfl | hs2
      · have h1 := hu pos
        rw [hr] at h1
        cases h1
      · exact ih (pos + 1) hs2

/-- The rating pattern matches a text if and only if the text contains a rating tag. -/
theorem rating_match_iff (s : Str) :
    FindStringSubmatch ratingDescMatcher s ≠ [] ↔
      ∃ pre tag post, s = pre ++ tag ++ post ∧ isRatingTag tag := by
  constructor
  · intro h
    unfold FindStringSubmatch at h
    cases hs : searchFrom ratingDescMatcher ratingDescMatcher.numSubexp 0 s with
    | none => rw [hs] at h; exact absurd rfl h
    | some v =>
      obtain ⟨start, st⟩ := v
      obtain ⟨u, q, ⟨pre, hpre⟩, hrun⟩ := searchFrom_some_run _ _ _ _ _ _ hs
      obtain ⟨tag, post, rfl, htag⟩ := rating_run_shape u q _ st hrun
      exact ⟨pre, tag, post, by rw [← hpre, List.append_assoc], htag⟩
  · rintro ⟨pre, tag, post, rfl, htag⟩
    have h1 := searchFrom_isSome ratingDescMatcher ratingDescMatcher.numSubexp (tag ++ post)
      (fun q => rating_run_isSome tag post htag q _) (pre ++ tag ++ post) 0
      ⟨pre, by rw [List.append_assoc]⟩
    unfold FindStringSubmatch
    cases hs : searchFrom ratingDescMatcher ratingDescMatcher.numSubexp 0 (pre ++ tag ++ post) with
    | none => rw [hs] at h1; cases h1
    | some v =>
      obtain ⟨start, st⟩ := v
      have hl := searchFrom_caps_length _ _ _ _ _ _ hs
      intro hnil
      have := congrArg List.length hnil
      simp [hl] at this

/-- A part of a text without rating tag has no rating tag. -/
theorem rating_nil_of_part (s t : Str) (hts : t <:+: s)
    (h : FindStringSubmatch ratingDescMatcher s = []) :
    FindStringSubmatch ratingDescMatcher t = [] := by
  by_contra hne
  obtain ⟨pre, tag, post, rfl, htag⟩ := (rating_match_iff t).1 hne
  obtain ⟨a, b, rfl⟩ := hts
  exact (rating_match_iff _).2 ⟨a ++ pre, tag, post ++ b, by simp, htag⟩ h

theorem TrimSpace_part (s : Str) : TrimSpace s <:+: s :=
  (List.rdropWhile_prefix _ _).isInfix.trans (List.dropWhile_suffix _).isInfix

/-- The cleaned description is a part of the description of the program. -/
theorem extract_desc_part (p : Program) : (extract p).desc.Value <:+: p.Description.Value := by
  unfold extract descStage
  simp only [titleStage_desc]
  by_cases hl : (FindStringSubmatch seasonEpisodeDescMatcher (initialVars p).desc.Value).length > 1
  · simp only [hl, if_true]
    exact (TrimSpace_part _).trans (getD_part _ _ (FindStringSubmatch_part _ _) 3)
  · simp only [hl, if_false, titleStage_desc]
    exact List.infix_refl _

/-! ## Texts that match no pattern -/

/-- Without a channel record (`cs.Channel` is nil) the loop over `cs.Channel.Categories`
dereferences nil and `Program.XMLTV` returns no programme, whatever the program. -/
theorem XMLTV_of_nil_channel (p : Program) (cs : ChannelStatus) (hch : cs.Channel = none) :
    p.XMLTV cs = none := by
  simp only [Program.XMLTV, hch]

/-- C15: a pattern that does not match is not an error. For every program and every
channel status with a channel record, `Program.XMLTV` returns a programme; if the title
does not match the title pattern the emitted title is the input title as it is (not
even trimmed); if the description does not match the description pattern the emitted
description is the input description; if neither matches no episode number is emitted;
and if the description, as given or as cleaned by the description stage, does not match
the rating pattern, the rating list is empty. -/
theorem C15_non_match (p : Program) (cs : ChannelStatus) (ch : Channel)
    (hch : cs.Channel = some ch) :
    ∃ pg, p.XMLTV cs = some pg ∧
      (titleMatches p = [] → pg.Titles = [p.Title]) ∧
      (descMatches p = [] → pg.Descriptions = [p.Description]) ∧
      (titleMatches p = [] → descMatches p = [] → pg.EpisodeNums = []) ∧
      (FindStringSubmatch ratingDescMatcher p.Description.Value = [] → pg.Ratings = []) ∧
      (FindStringSubmatch ratingDescMatcher (extract p).desc.Value = [] → pg.Ratings = []) := by
  have hd : descMatches p = [] → (extract p).desc = p.Description := by
    intro h
    have h2 : FindStringSubmatch seasonEpisodeDescMatcher
        (titleStage (initialVars p)).desc.Value = [] := by
      rw [titleStage_desc]; exact h
    rw [extract, descStage_of_nil _ h2, titleStage_desc]
    rfl
  refine ⟨_, XMLTV_of_channel p cs ch hch, ?_, ?_, ?_, ?_, ?_⟩
  · intro h
    dsimp only
    rw [extract, descStage_title, titleStage_of_nil (initialVars p) h]
    rfl
  · intro h
    dsimp only
    rw [hd h]
  · intro h1 h2
    dsimp only
    have h3 : FindStringSubmatch seasonEpisodeDescMatcher
        (titleStage (initialVars p)).desc.Value = [] := by
      rw [titleStage_desc]; exact h2
    rw [extract, descStage_of_nil _ h3, titleStage_of_nil (initialVars p) h1]
    exact episodeNums_zero
  · intro h
    dsimp only
    rw [ratingOf_of_nil _ (rating_nil_of_part _ _ (extract_desc_part p) h)]
    simp
  · intro h
    dsimp only
    rw [ratingOf_of_nil _ h]
    simp

/-- C15 at the title ` Show ` (with blanks) and the description `A report`. -/
theorem C15_non_match_witness :
    ∃ pg, (exampleProgram " Show ".toList "A report".toList []).XMLTV (exampleStatus [])
        = some pg ∧
      pg.Titles = [{ Lang := [], Value := " Show ".toList }] ∧
      pg.Descriptions = [{ Lang := [], Value := "A report".toList }] ∧
      pg.EpisodeNums = [] ∧ pg.Ratings = [] := by
  obtain ⟨pg, h, h1, h2, h3, h4, _⟩ :=
    C15_non_match (exampleProgram " Show ".toList "A report".toList []) (exampleStatus [])
      { DisplayName := [], IconSrc := [], ID := "c1".toList, Categories := [] } rfl
  exact ⟨pg, h, h1 (by rfl), h2 (by rfl), h3 (by rfl) (by rfl), h4 (by rfl)⟩

/-! ## The merge of the two category sources: the output list -/

/-- C16: for every program whose description (as given, or as cleaned by the
description stage) has no rating tag and whose raw labels are all outside the empty
label, `Other`, `category`, `HD Unknown` and `Movies`, the labels of the output are `N`
of the channel names followed by the labels of the program unchanged, where `N`
renames `Movies` to `Movie` and drops the empty name and `Other`. Nothing is
deduplicated: channel `News` and program `News` give `News` twice; and the channel
names `category` and `HD Unknown` are kept as they are. -/
theorem C16_channel_first_merge (p : Program) (cs : ChannelStatus) (ch : Channel)
    (hch : cs.Channel = some ch)
    (hrating : FindStringSubmatch ratingDescMatcher p.Description.Value = [] ∨
      FindStringSubmatch ratingDescMatcher (extract p).desc.Value = [])
    (hlabels : ∀ c ∈ p.Categories, c.Value ∉ specialLabels) :
    (∃ pg, p.XMLTV cs = some pg ∧
      pg.Categories.map (fun c => c.Value)
        = specChannelLabels (ch.Categories.map (fun c => c.Name))
          ++ p.Categories.map (fun c => c.Value)) ∧
    ((exampleProgram "Show".toList "A report".toList ["News".toList]).XMLTV
        (exampleStatus ["News".toList, "category".toList, "HD Unknown".toList])).map
      (fun pg => pg.Categories.map (fun c => c.Value))
      = some ["News".toList, "category".toList, "HD Unknown".toList, "News".toList] := by
  have hr : FindStringSubmatch ratingDescMatcher (extract p).desc.Value = [] := by
    rcases hrating with h | h
    · exact rating_nil_of_part _ _ (extract_desc_part p) h
    · exact h
  refine ⟨⟨_, XMLTV_of_channel p cs ch hch, ?_⟩, by rfl⟩
  dsimp only
  rw [withMovie_of_nil _ _ hr, mergedCategories, appendProgramCategories_eq,
    appendChannelCategories_eq, List.nil_append, List.map_append, ← channelLabel_values]
  congr 1
  · simp only [List.map_filterMap, List.filterMap_map]
    congr 1
    funext c
    simp only [Function.comp, Option.map_map]
    cases channelLabel c.Name <;> rfl
  · simp only [List.map_filterMap]
    rw [← List.filterMap_eq_map]
    apply List.filterMap_congr
    intro c hc
    simp only [Option.map_map, Function.comp, programLabel_of_plain _ (hlabels c hc)]
    rfl

/-- C16 at the channel names `Movies`, `Other`, `Sports` and the program labels
`News`, `Sports`. -/
theorem C16_channel_first_merge_witness :
    ∃ pg, (exampleProgram "Show".toList "A report".toList
          ["News".toList, "Sports".toList]).XMLTV
        (exampleStatus ["Movies".toList, "Other".toList, "Sports".toList]) = some pg ∧
      pg.Categories.map (fun c => c.Value)
        = ["Movie".toList, "Sports".toList, "News".toList, "Sports".toList] :=
  (C16_channel_first_merge
    (exampleProgram "Show".toList "A report".toList ["News".toList, "Sports".toList])
    (exampleStatus ["Movies".toList, "Other".toList, "Sports".toList])
    { DisplayName := [], IconSrc := [], ID := "c1".toList
      Categories := ["Movies".toList, "Other".toList, "Sports".toList].map
        (fun c => { Name := c, UUID := [] }) }
    rfl (Or.inl (by rfl)) (by decide)).1

end Stirr
